import Mathlib

/-!
Verification of the article-tracker ingestion pipeline.

Shallow embedding of the core of `src/archiver/feeds.py` and
`src/archiver/database.py`.  Network calls, the SQLite engine, the system
clock and the feedparser/BeautifulSoup libraries are external effects; they
are modelled by explicit environment records supplying their observable
results, while every piece of control flow and data manipulation that the
repository's own code performs is translated directly.
-/

set_option maxRecDepth 200000

namespace ArticleTracker

/-- Boolean test that `p` occurs as a contiguous run at the head of `s`. -/
def listStarts : List Char → List Char → Bool
  | [], _ => true
  | _ :: _, [] => false
  | p :: ps, c :: cs => p = c && listStarts ps cs

/-- Python's `str.lower()` on the ASCII class/id strings the noise
checks compare. -/
def pyLower (s : String) : String :=
  String.mk (s.toList.map Char.toLower)

/-- Python's `str.strip()` / BeautifulSoup's text stripping: drop
whitespace from both ends. -/
def pyStrip (s : String) : String :=
  String.mk
    (((s.toList.dropWhile Char.isWhitespace).reverse.dropWhile
        Char.isWhitespace).reverse)

/-- Python's `needle in hay` substring test on strings. -/
def containsSub (needle hay : String) : Bool :=
  go needle.toList hay.toList
where
  go (n : List Char) : List Char → Bool
    | [] => listStarts n []
    | c :: cs => listStarts n (c :: cs) || go n cs

/-- Python's `sep.join(parts)`. -/
def joinSep (sep : String) : List String → String
  | [] => ""
  | [x] => x
  | x :: rest => x ++ sep ++ joinSep sep rest

-- ── Store (src/archiver/database.py) ─────────────────────────────────

/-- One row of the `articles` table (fields the ingest path writes).
`publish_date` is nullable in the schema; every other text column
defaults to the empty string. -/
structure Article where
  id : Nat
  url : String
  source_slug : String
  source_name : String
  category : String
  headline : String
  byline : String
  description : String
  article_text : String
  publish_date : Option String
  discovered_at : String
  preview_image_url : String
  preview_image_local : String
  tags : List String
  deriving Repr, DecidableEq

/-- The field bundle `process_source` passes to `Database.add_article`
(everything except the autoincrement id and the `discovered_at` default). -/
structure NewArticle where
  url : String
  source_slug : String
  source_name : String
  category : String
  headline : String
  byline : String
  description : String
  article_text : String
  publish_date : Option String
  preview_image_url : String
  preview_image_local : String
  tags : List String
  deriving Repr, DecidableEq

/-- The articles table: rows in insertion order plus the next
autoincrement id. -/
structure Database where
  rows : List Article
  nextId : Nat
  deriving Repr, DecidableEq

/-- `Database.url_exists`: `SELECT 1 FROM articles WHERE url = ?` is a hit
iff some row carries the URL (the `url` column is UNIQUE). -/
def Database.url_exists (db : Database) (url : String) : Bool :=
  db.rows.any (fun r => r.url = url)

/-- The row built from `add_article`'s keyword arguments; `now` models the
`datetime.now(timezone.utc).isoformat()` default for `discovered_at`. -/
def mkArticleRow (id : Nat) (a : NewArticle) (now : String) : Article :=
  { id := id, url := a.url, source_slug := a.source_slug,
    source_name := a.source_name, category := a.category,
    headline := a.headline, byline := a.byline,
    description := a.description, article_text := a.article_text,
    publish_date := a.publish_date, discovered_at := now,
    preview_image_url := a.preview_image_url,
    preview_image_local := a.preview_image_local, tags := a.tags }

/-- `Database.add_article`: `INSERT OR IGNORE` against the UNIQUE `url`
column.  A duplicate URL is ignored (`rowcount = 0`, so the method
returns `None` and the table is untouched); a fresh URL inserts exactly
one row and returns its autoincrement id (`cur.lastrowid`). -/
def Database.add_article (db : Database) (a : NewArticle) (now : String) :
    Option Nat × Database :=
  if db.url_exists a.url then
    (none, db)
  else
    (some db.nextId,
     { rows := db.rows ++ [mkArticleRow db.nextId a now],
       nextId := db.nextId + 1 })

-- ── Fetch client (feeds.py: fetch_with_retry) ────────────────────────

/-- Observable result of one `httpx.get` call: a response with a status
code and body, or a raised exception. -/
inductive FetchOutcome where
  | ok (status : Nat) (body : String)
  | exn
  deriving Repr, DecidableEq

/-- Instrumented run of `fetch_with_retry`: final result, number of fetch
attempts made, and the `time.sleep` durations in order. -/
structure RetryTrace where
  result : Option (Nat × String)
  attempts : Nat
  sleeps : List Nat
  deriving Repr, DecidableEq

/-- The `for attempt in range(max_retries)` loop of `fetch_with_retry`.
`fuel` is the number of loop iterations left, so `attempt` ranges over
`0..max_retries-1`; exhausting the range returns `None`. -/
def fetchLoop (env : Nat → FetchOutcome) (max_retries : Nat) :
    Nat → Nat → Nat → List Nat → RetryTrace
  | 0, _, made, sleeps => ⟨none, made, sleeps⟩
  | fuel + 1, attempt, made, sleeps =>
    match env attempt with
    | .ok status body =>
      if status = 429 then
        if attempt < max_retries - 1 then
          fetchLoop env max_retries fuel (attempt + 1) (made + 1)
            (sleeps ++ [2 ^ (attempt + 1)])
        else ⟨none, made + 1, sleeps⟩
      else ⟨some (status, body), made + 1, sleeps⟩
    | .exn =>
      if attempt < max_retries - 1 then
        fetchLoop env max_retries fuel (attempt + 1) (made + 1)
          (sleeps ++ [2 ^ (attempt + 1)])
      else ⟨none, made + 1, sleeps⟩

/-- `fetch_with_retry(url, headers, timeout, max_retries)`: the `env`
parameter gives the outcome of the `httpx.get` call on each attempt. -/
def fetch_with_retry (env : Nat → FetchOutcome) (max_retries : Nat := 3) :
    RetryTrace :=
  fetchLoop env max_retries max_retries 0 0 []

-- ── Content retriever (feeds.py: fetch_article_text_via_bypass) ──────

/-- The retrieval strategies of the bypass chain, in the order the code
numbers them (`prefer_playwright` moves `playwright` to the front). -/
inductive Strategy where
  | playwright
  | direct
  | googleRef
  | facebookRef
  | twelveFt
  | removePaywalls
  deriving Repr, DecidableEq

/-- Environment of one `fetch_article_text_via_bypass` call: whether bs4
imported, the `_try_playwright` result (already `None` unless its own
`len(text) > 500` check passed), the `fetch_with_retry` outcome per
HTTP-based strategy (`none` covers both a `None` return and a raised
exception, which the per-method `try` swallows), and the
`extract_article_text` function applied to a response body. -/
structure BypassEnv where
  bs4Available : Bool
  tryPlaywright : Option String
  fetch : Strategy → Option (Nat × String)
  extract : String → Option String

/-- One HTTP-based method of the chain: on a 200 response, extract the
article text and accept it when `text and len(text) > 500`. -/
def runMethod (env : BypassEnv) (s : Strategy) : Option String :=
  match env.fetch s with
  | some (status, body) =>
    if status = 200 then
      match env.extract body with
      | some text => if 500 < text.length then some text else none
      | none => none
    else none
  | none => none

/-- Fold of the ordered strategy chain: first accepted text wins; the
returned list records the strategies invoked, in order. -/
def runChain (env : BypassEnv) : List Strategy → Option String × List Strategy
  | [] => (none, [])
  | s :: rest =>
    let r := match s with
             | .playwright => env.tryPlaywright
             | _ => runMethod env s
    match r with
    | some text => (some text, [s])
    | none =>
      let t := runChain env rest
      (t.1, s :: t.2)

/-- `fetch_article_text_via_bypass(url, timeout, prefer_playwright)`:
returns `None` immediately when bs4 is missing; with
`prefer_playwright` the Playwright strategy runs first, otherwise the
five HTTP methods run in order with Playwright as the last resort. -/
def fetch_article_text_via_bypass (env : BypassEnv)
    (prefer_playwright : Bool := false) : Option String × List Strategy :=
  if env.bs4Available then
    if prefer_playwright then
      runChain env [.playwright, .direct, .googleRef, .facebookRef,
                    .twelveFt, .removePaywalls]
    else
      runChain env [.direct, .googleRef, .facebookRef,
                    .twelveFt, .removePaywalls, .playwright]
  else (none, [])

-- ── URL resolution (feeds.py: resolve_redirect_url) ──────────────────

/-- `resolve_redirect_url(url, timeout)`.  `resolveFetch` gives the final
URL of the `httpx.get(..., follow_redirects=True)` call (`none` = the
call raised).  The returned flag records whether a network request was
issued: only URLs containing `news.google.com` are fetched, and a fetch
failure falls back to the original URL. -/
def resolve_redirect_url (resolveFetch : String → Option String)
    (url : String) : String × Bool :=
  if containsSub "news.google.com" url then
    match resolveFetch url with
    | some final => (final, true)
    | none => (url, true)
  else (url, false)

-- ── Coordinator (feeds.py: process_source) ───────────────────────────

/-- The slice of a source's configuration that `process_source` reads
(`source["slug"]`, `["name"]`, `.get("category")`, and the
`discovery` block's `rss_urls`, `bypass_paywall`, `prefer_playwright`). -/
structure Source where
  slug : String
  name : String
  category : String
  rss_urls : List String
  bypass_paywall : Bool
  prefer_playwright : Bool
  deriving Repr, DecidableEq

/-- A normalized article candidate as built by `fetch_feed`. -/
structure Item where
  url : String
  headline : String
  description : String
  byline : String
  publish_date : Option String
  preview_image_url : String
  tags : List String
  deriving Repr, DecidableEq

/-- Result dict of `fetch_og_metadata` (absent key = `none`). -/
structure OgResult where
  og_image : Option String := none
  og_description : Option String := none
  og_title : Option String := none
  og_author : Option String := none
  og_published : Option String := none
  deriving Repr, DecidableEq

/-- Python truthiness of an optional string: `None` and `""` are falsy. -/
def optBlank : Option String → Bool
  | none => true
  | some s => s = ""

/-- Environment of one source pass: feed fetch/parse results per feed
URL, redirect-resolution fetches, OG enrichment results per page,
the bypass-chain environment per article URL, the `download_image`
result per image URL, and the clock value used for `discovered_at`. -/
structure PassEnv where
  feedItems : String → List Item
  resolveFetch : String → Option String
  ogFetch : String → OgResult
  bypassEnv : String → BypassEnv
  downloadImage : String → Option String
  now : String

/-- Event log of a pass: each invocation of the content retriever with
the `prefer_playwright` argument it received. -/
inductive PassEvent where
  | bypassCall (url : String) (prefer_playwright : Bool)
  deriving Repr, DecidableEq

/-- The `seen`-set deduplication loop of `process_source` (first
occurrence of each URL wins, discovery order kept). -/
def dedupGo (seen : List String) : List Item → List Item
  | [] => []
  | item :: rest =>
    if item.url ∈ seen then dedupGo seen rest
    else item :: dedupGo (item.url :: seen) rest

/-- `process_source`'s "Deduplicate by URL" step over the concatenated
feed items. -/
def dedupByUrl (items : List Item) : List Item :=
  dedupGo [] items

/-- `if not item["preview_image_url"] and og.get("og_image")`. -/
def fillImage (og : OgResult) (item : Item) : Item :=
  if item.preview_image_url = "" then
    match og.og_image with
    | some v => { item with preview_image_url := v }
    | none => item
  else item

/-- `if not item["description"] and og.get("og_description")` (the OG
description is truncated to 500 characters). -/
def fillDescription (og : OgResult) (item : Item) : Item :=
  if item.description = "" then
    match og.og_description with
    | some v => { item with description := v.take 500 }
    | none => item
  else item

/-- `if not item["byline"] and og.get("og_author")`. -/
def fillByline (og : OgResult) (item : Item) : Item :=
  if item.byline = "" then
    match og.og_author with
    | some v => { item with byline := v }
    | none => item
  else item

/-- `if not item["publish_date"] and og.get("og_published")`. -/
def fillDate (og : OgResult) (item : Item) : Item :=
  if optBlank item.publish_date then
    match og.og_published with
    | some v => { item with publish_date := some v }
    | none => item
  else item

/-- `if og.get("og_title") and not item["headline"]`. -/
def fillHeadline (og : OgResult) (item : Item) : Item :=
  if item.headline = "" then
    match og.og_title with
    | some v => { item with headline := v }
    | none => item
  else item

/-- The five conditional field fills of the OG-enrichment block, in the
order the code runs them: each fills its field only when the
candidate's value is still falsy and the OG dict supplied one. -/
def enrichApply (og : OgResult) (item : Item) : Item :=
  fillHeadline og (fillDate og (fillByline og (fillDescription og (fillImage og item))))

/-- The enrichment step as guarded in `process_source`: runs only when
`enrich` is set and the preview image or the description is missing. -/
def enrichStep (env : PassEnv) (enrich : Bool) (item : Item) : Item :=
  if enrich && (item.preview_image_url = "" || item.description = "") then
    enrichApply (env.ogFetch item.url) item
  else item

/-- The body of `process_source`'s per-candidate loop: resolve the URL,
skip if it is already stored, enrich, optionally fetch the full text
(note the call site passes no `prefer_playwright`, so the retriever
runs with its default `False`), download the preview image, and
insert.  Returns the `add_article` result, the updated store and the
emitted events. -/
def processOne (env : PassEnv) (source : Source) (enrich : Bool)
    (db : Database) (item0 : Item) :
    Option Nat × Database × List PassEvent :=
  let item := { item0 with url := (resolve_redirect_url env.resolveFetch item0.url).1 }
  if db.url_exists item.url then (none, db, [])
  else
    let item := enrichStep env enrich item
    let article_text :=
      if source.bypass_paywall then
        ((fetch_article_text_via_bypass (env.bypassEnv item.url) false).1).getD ""
      else ""
    let events :=
      if source.bypass_paywall then [PassEvent.bypassCall item.url false]
      else []
    let local_img :=
      if item.preview_image_url ≠ "" then
        env.downloadImage item.preview_image_url
      else none
    let r := db.add_article
      { url := item.url, source_slug := source.slug,
        source_name := source.name, category := source.category,
        headline := item.headline, byline := item.byline,
        description := item.description, article_text := article_text,
        publish_date := item.publish_date,
        preview_image_url := item.preview_image_url,
        preview_image_local := local_img.getD "",
        tags := item.tags } env.now
    (r.1, r.2, events)

/-- The fold of the per-candidate loop over the deduplicated items,
accumulating `new_count` (incremented exactly when `add_article`
returned an id). -/
def processItems (env : PassEnv) (source : Source) (enrich : Bool) :
    Database → List Item → Nat × Database × List PassEvent
  | db, [] => (0, db, [])
  | db, item :: rest =>
    let r := processOne env source enrich db item
    let t := processItems env source enrich r.2.1 rest
    ((if r.1.isSome then 1 else 0) + t.1, t.2.1, r.2.2 ++ t.2.2)

/-- `process_source(source, db, images_dir, enrich)`: collect the items
of every configured feed, deduplicate by URL, then run the
per-candidate loop.  A source without feeds returns 0 untouched. -/
def process_source (env : PassEnv) (source : Source) (db : Database)
    (enrich : Bool) : Nat × Database × List PassEvent :=
  if source.rss_urls.isEmpty then (0, db, [])
  else
    let all_items := source.rss_urls.flatMap env.feedItems
    let unique_items := dedupByUrl all_items
    processItems env source enrich db unique_items

-- ── Content sanitizer (feeds.py: extract_article_text) ───────────────

/-- A parsed HTML tree (what BeautifulSoup hands the sanitizer): an
element with tag name, attributes and children, or a text node.  The
`class` attribute is modelled as its space-joined string value. -/
inductive HNode where
  | elem (name : String) (attrs : List (String × String)) (children : List HNode)
  | text (s : String)

/-- Attribute lookup (`tag.get(key)`). -/
def getAttr (attrs : List (String × String)) (key : String) : Option String :=
  match attrs.find? (fun kv => kv.1 = key) with
  | some kv => some kv.2
  | none => none

/-- Children of the soup root (a text-only document has no elements). -/
def childrenOf : HNode → List HNode
  | .elem _ _ c => c
  | .text _ => []

mutual

/-- `get_text(strip=True)`: concatenation of the stripped text nodes. -/
def HNode.getText : HNode → String
  | .text s => pyStrip s
  | .elem _ _ c => getTextList c

def getTextList : List HNode → String
  | [] => ""
  | n :: rest => n.getText ++ getTextList rest

end

mutual

/-- Recursive `decompose`: drop every element (the soup root excepted)
satisfying `p`, keeping the rest of the tree intact. -/
def decomposeList (p : HNode → Bool) : List HNode → List HNode
  | [] => []
  | n :: rest => decomposeKeep p n ++ decomposeList p rest

def decomposeKeep (p : HNode → Bool) : HNode → List HNode
  | .text s => [.text s]
  | .elem nm a c =>
    if p (.elem nm a c) then []
    else [.elem nm a (decomposeList p c)]

end

/-- `decompose` applied below the soup root. -/
def decomposeAll (p : HNode → Bool) : HNode → HNode
  | .elem nm a c => .elem nm a (decomposeList p c)
  | .text s => .text s

mutual

/-- `soup.find(pred)`: first matching element in document (pre-)order. -/
def findInList (p : HNode → Bool) : List HNode → Option HNode
  | [] => none
  | n :: rest =>
    match findInNode p n with
    | some r => some r
    | none => findInList p rest

def findInNode (p : HNode → Bool) : HNode → Option HNode
  | .text _ => none
  | .elem nm a c =>
    if p (.elem nm a c) then some (.elem nm a c)
    else findInList p c

end

mutual

/-- `soup.find_all(name)`: every element with the tag name, in document
(pre-)order. -/
def findAllList (nm : String) : List HNode → List HNode
  | [] => []
  | n :: rest => findAllNode nm n ++ findAllList nm rest

def findAllNode (nm : String) : HNode → List HNode
  | .text _ => []
  | .elem n a c =>
    (if n = nm then [.elem n a c] else []) ++ findAllList nm c

end

/-- The junk tags removed wholesale in step 1. -/
def JUNK_TAGS : List String :=
  ["script", "style", "nav", "footer", "aside", "header", "noscript",
   "form", "button", "input", "select", "textarea"]

/-- The class/id noise vocabulary of step 2. -/
def NOISE_PATTERNS : List String :=
  ["ad", "advertisement", "promo", "sponsor",
   "social", "share", "sharing",
   "newsletter", "signup", "subscribe",
   "paywall", "premium", "meter",
   "related", "recommended", "trending",
   "nav", "navigation", "menu", "sidebar",
   "comment", "disqus",
   "cookie", "gdpr", "consent",
   "popup", "modal", "overlay"]

/-- The tag allow-list of step 4. -/
def KEEP_TAGS : List String :=
  ["p", "br", "strong", "b", "em", "i", "u", "s",
   "h1", "h2", "h3", "h4", "h5", "h6",
   "ul", "ol", "li",
   "blockquote", "figure", "figcaption",
   "a", "img",
   "iframe",
   "video", "source",
   "table", "thead", "tbody", "tr", "th", "td",
   "div", "span"]

/-- The per-tag attribute allow-list of step 4. -/
def KEEP_ATTRS : String → List String
  | "a" => ["href", "title"]
  | "img" => ["src", "alt", "title", "width", "height"]
  | "iframe" => ["src", "width", "height", "allowfullscreen", "frameborder", "title"]
  | "video" => ["src", "controls", "width", "height", "poster"]
  | "source" => ["src", "type"]
  | "td" => ["colspan", "rowspan"]
  | "th" => ["colspan", "rowspan"]
  | _ => []

/-- Step-1 predicate: tag name on the junk list. -/
def junkPred : HNode → Bool
  | .elem nm _ _ => nm ∈ JUNK_TAGS
  | .text _ => false

/-- Step-2 predicate: any noise pattern a substring of the lower-cased
class string or id. -/
def noisePred : HNode → Bool
  | .elem _ a _ =>
    let classes := pyLower ((getAttr a "class").getD "")
    let el_id := pyLower ((getAttr a "id").getD "")
    NOISE_PATTERNS.any (fun p => containsSub p classes || containsSub p el_id)
  | .text _ => false

/-- The class markers naming article-body containers. -/
def BODY_CLASS_MARKERS : List String :=
  ["article-body", "story-body", "post-content",
   "entry-content", "article-content", "gnt_ar_b"]

/-- Element whose tag is `nm`. -/
def isElemNamed (nm : String) : HNode → Bool
  | .elem n _ _ => n = nm
  | .text _ => false

/-- Python's `' '.join(c)` when `c` is a string: `join` iterates the
string's characters and space-interleaves them. -/
def interleaveSp : List Char → List Char
  | [] => []
  | [c] => [c]
  | c :: rest => c :: ' ' :: interleaveSp rest

/-- Whitespace split of a `class` attribute string into the individual
class values the HTML parser stores for the multi-valued attribute. -/
def splitWsAux : List Char → List Char → List String
  | acc, [] => if acc.isEmpty then [] else [String.mk acc.reverse]
  | acc, c :: cs =>
    if c.isWhitespace then
      if acc.isEmpty then splitWsAux [] cs
      else String.mk acc.reverse :: splitWsAux [] cs
    else splitWsAux (c :: acc) cs

def splitWs (s : String) : List String :=
  splitWsAux [] s.toList

/-- The body of the container-candidate `class_` lambdas,
`lambda c: c and any(marker in ' '.join(c).lower() for ...)`, as
BeautifulSoup actually calls it: `c` is a string (one class value, or
the space-joined class string), never the list, so `' '.join(c)`
space-interleaves the characters of `c`. -/
def classLambdaBody (markers : List String) (c : String) : Bool :=
  c ≠ "" && markers.any (fun m =>
    containsSub m (pyLower (String.mk (interleaveSp c.toList))))

/-- BeautifulSoup's match of a `class_` callable against an element:
the callable runs on each individual class value, then on the
space-joined whole; an element without a class attribute gets the
callable applied to `None` (falsy, so no match). -/
def matchesClassLambda (markers : List String)
    (attrs : List (String × String)) : Bool :=
  match getAttr attrs "class" with
  | none => false
  | some cls =>
    (splitWs cls).any (classLambdaBody markers) ||
      classLambdaBody markers (joinSep " " (splitWs cls))

/-- `find(class_=lambda c: c and any(marker in ' '.join(c).lower() ...))`. -/
def bodyClassPred : HNode → Bool
  | .elem _ a _ => matchesClassLambda BODY_CLASS_MARKERS a
  | .text _ => false

/-- `find('div', class_=lambda c: c and 'content' in ' '.join(c).lower())`. -/
def divContentPred : HNode → Bool
  | .elem nm a _ => nm = "div" && matchesClassLambda ["content"] a
  | .text _ => false

/-- Adjacent pair of non-space characters. -/
def hasAdjNonSpace : List Char → Bool
  | a :: b :: t => (a ≠ ' ' && b ≠ ' ') || hasAdjNonSpace (b :: t)
  | _ => false

theorem hasAdjNonSpace_cons_of_tail {c : Char} {cs : List Char}
    (h : hasAdjNonSpace cs = true) : hasAdjNonSpace (c :: cs) = true := by
  cases cs with
  | nil => simp [hasAdjNonSpace] at h
  | cons d t => simp [hasAdjNonSpace, h]

theorem hasAdjNonSpace_tail {c : Char} {cs : List Char}
    (h : hasAdjNonSpace (c :: cs) = false) : hasAdjNonSpace cs = false := by
  cases cs with
  | nil => rfl
  | cons d t =>
    simp only [hasAdjNonSpace, Bool.or_eq_false_iff] at h
    exact h.2

theorem hasAdjNonSpace_space_cons (l : List Char) :
    hasAdjNonSpace (' ' :: l) = hasAdjNonSpace l := by
  cases l with
  | nil => rfl
  | cons a r => simp [hasAdjNonSpace]

/-- A space-interleaved string never has two adjacent non-spaces. -/
theorem hasAdjNonSpace_interleaveSp (l : List Char) :
    hasAdjNonSpace (interleaveSp l) = false := by
  induction l with
  | nil => rfl
  | cons c rest ih =>
    cases rest with
    | nil => rfl
    | cons d t =>
      simp [interleaveSp, hasAdjNonSpace, hasAdjNonSpace_space_cons, ih]

/-- Lower-casing commutes with interleaving (spaces stay spaces). -/
theorem map_toLower_interleaveSp (l : List Char) :
    (interleaveSp l).map Char.toLower = interleaveSp (l.map Char.toLower) := by
  induction l with
  | nil => rfl
  | cons c rest ih =>
    cases rest with
    | nil => rfl
    | cons d t =>
      simp only [interleaveSp, List.map_cons] at ih ⊢
      rw [ih]
      rfl

theorem listStarts_hasAdj {m s : List Char} (h : listStarts m s = true)
    (hm : hasAdjNonSpace m = true) : hasAdjNonSpace s = true := by
  induction m generalizing s with
  | nil => simp [hasAdjNonSpace] at hm
  | cons a m' ih =>
    cases m' with
    | nil => simp [hasAdjNonSpace] at hm
    | cons b t =>
      cases s with
      | nil => simp [listStarts] at h
      | cons x s' =>
        simp only [listStarts, Bool.and_eq_true, decide_eq_true_eq] at h
        obtain ⟨rfl, h2⟩ := h
        cases s' with
        | nil => simp [listStarts] at h2
        | cons y r =>
          have hby : b = y := by
            simp only [listStarts, Bool.and_eq_true, decide_eq_true_eq] at h2
            exact h2.1
          simp only [hasAdjNonSpace, Bool.or_eq_true] at hm ⊢
          rcases hm with hpair | htail
          · left
            rw [← hby]
            exact hpair
          · right
            exact ih h2 htail

theorem containsSub_go_false {n hay : List Char}
    (hn : hasAdjNonSpace n = true) (hh : hasAdjNonSpace hay = false) :
    containsSub.go n hay = false := by
  induction hay with
  | nil =>
    simp only [containsSub.go]
    cases n with
    | nil => simp [hasAdjNonSpace] at hn
    | cons a n' =>
      cases n' with
      | nil => simp [hasAdjNonSpace] at hn
      | cons b t => rfl
  | cons c cs ih =>
    simp only [containsSub.go, Bool.or_eq_false_iff]
    constructor
    · by_contra hs
      have := listStarts_hasAdj (by simpa using hs) hn
      simp [this] at hh
    · exact ih (hasAdjNonSpace_tail hh)

/-- The lambdas' substring test is dead: no multi-character marker can
occur in a space-interleaved string. -/
theorem containsSub_interleave_false (m : String) (c : List Char)
    (hm : hasAdjNonSpace m.toList = true) :
    containsSub m (pyLower (String.mk (interleaveSp c))) = false := by
  have : (pyLower (String.mk (interleaveSp c))).toList =
      interleaveSp (c.map Char.toLower) := by
    simp [pyLower, map_toLower_interleaveSp]
  rw [containsSub, this]
  exact containsSub_go_false hm (hasAdjNonSpace_interleaveSp _)

theorem classLambdaBody_false (markers : List String) (c : String)
    (hm : ∀ m ∈ markers, hasAdjNonSpace m.toList = true) :
    classLambdaBody markers c = false := by
  simp only [classLambdaBody, Bool.and_eq_false_iff]
  right
  simp only [List.any_eq_false]
  intro m hmem
  simp [containsSub_interleave_false m _ (hm m hmem)]

/-- Candidate 2 of the container search is dead code: the body-class
lambda matches no element. -/
theorem bodyClassPred_false (n : HNode) : bodyClassPred n = false := by
  cases n with
  | text _ => rfl
  | elem nm a c =>
    simp only [bodyClassPred, matchesClassLambda]
    have hmk : ∀ m ∈ BODY_CLASS_MARKERS, hasAdjNonSpace m.toList = true := by
      decide
    cases getAttr a "class" with
    | none => rfl
    | some cls =>
      simp [classLambdaBody_false _ _ hmk, List.any_eq_false]

/-- Candidate 4 of the container search is dead code likewise. -/
theorem divContentPred_false (n : HNode) : divContentPred n = false := by
  cases n with
  | text _ => rfl
  | elem nm a c =>
    simp only [divContentPred, matchesClassLambda]
    have hmk : ∀ m ∈ ["content"], hasAdjNonSpace m.toList = true := by decide
    cases getAttr a "class" with
    | none => simp
    | some cls =>
      simp [classLambdaBody_false _ _ hmk, List.any_eq_false]

/-- Steps 1–2: the document after junk-tag and noise-container removal. -/
def prunedDoc (doc : HNode) : HNode :=
  decomposeAll noisePred (decomposeAll junkPred doc)

/-- Step 3: locate the main article container in the pruned document —
`<article>`, then a known body class, then `<main>`, then a content
`<div>`, then `<body>`, else the whole soup. -/
def containerOf (doc : HNode) : HNode :=
  let soup := prunedDoc doc
  let kids := childrenOf soup
  match findInList (isElemNamed "article") kids with
  | some c => c
  | none =>
    match findInList bodyClassPred kids with
    | some c => c
    | none =>
      match findInList (isElemNamed "main") kids with
      | some c => c
      | none =>
        match findInList divContentPred kids with
        | some c => c
        | none =>
          match findInList (isElemNamed "body") kids with
          | some c => c
          | none => soup

/-- The attribute rewriting of step 4 for one kept tag: keep only the
allowed attributes, then add the link and image safety attributes. -/
def sanitizeAttrs (nm : String) (a : List (String × String)) :
    List (String × String) :=
  let attrs1 := a.filter (fun kv => kv.1 ∈ KEEP_ATTRS nm)
  let attrs2 :=
    if nm = "a" && !optBlank (getAttr attrs1 "href") then
      attrs1 ++ [("target", "_blank"), ("rel", "noopener noreferrer")]
    else attrs1
  if nm = "img" then
    attrs2 ++ [("loading", "lazy"), ("referrerpolicy", "no-referrer")]
  else attrs2

mutual

/-- Step 4 over the container's descendants: unwrap tags not on the
allow-list (keeping their children), keep only allowed attributes, and
add the link/image safety attributes. -/
def sanitizeList : List HNode → List HNode
  | [] => []
  | n :: rest => sanitizeNode n ++ sanitizeList rest

def sanitizeNode : HNode → List HNode
  | .text s => [.text s]
  | .elem nm a c =>
    if nm ∈ KEEP_TAGS then [.elem nm (sanitizeAttrs nm a) (sanitizeList c)]
    else sanitizeList c

end

/-- The container after in-place sanitization (the container's own tag
and attributes are untouched, as `find_all` yields descendants only). -/
def sanitizedContainer (doc : HNode) : HNode :=
  match containerOf doc with
  | .elem nm a c => .elem nm a (sanitizeList c)
  | .text s => .text s

/-- `str(tag)` serialization.  Entity escaping and the self-closing form
of void elements are not distinguished; no claim inspects the
serialized text. -/
def renderAttrs : List (String × String) → String
  | [] => ""
  | (k, v) :: rest => " " ++ k ++ "=\"" ++ v ++ "\"" ++ renderAttrs rest

mutual

def render : HNode → String
  | .text s => s
  | .elem nm a c =>
    "<" ++ nm ++ renderAttrs a ++ ">" ++ renderList c ++ "</" ++ nm ++ ">"

def renderList : List HNode → String
  | [] => ""
  | n :: rest => render n ++ renderList rest

end

/-- The `plain_check` value of step 5: plain text of the sanitized
container. -/
def containerText (doc : HNode) : String :=
  (sanitizedContainer doc).getText

/-- The paragraph elements the fallback collects: `soup.find_all('p')`
on the document being processed.  (In-place attribute sanitization of
the container does not change any paragraph's text content, so the
paragraphs are taken from the pruned document.) -/
def parasOf (doc : HNode) : List HNode :=
  findAllList "p" (childrenOf (prunedDoc doc))

/-- The fallback's `' '.join(p.get_text(strip=True) for p in paras)`. -/
def parasFallbackText (doc : HNode) : String :=
  joinSep " " ((parasOf doc).map HNode.getText)

/-- `''.join(str(p) for p in paras)`. -/
def concatAll : List String → String
  | [] => ""
  | x :: rest => x ++ concatAll rest

/-- `extract_article_text(html)`: steps 1–5 of the sanitizer (modelled
with BeautifulSoup available, as the bypass chain requires).  Returns
the sanitized container HTML when its plain text reaches 200
characters, else the all-paragraphs fallback when that reaches 200
characters, else `None`. -/
def extract_article_text (doc : HNode) : Option String :=
  let result_html := render (sanitizedContainer doc)
  let plain_check := containerText doc
  if plain_check.length < 200 then
    let plain2 := parasFallbackText doc
    if plain2.length < 200 then none
    else some (concatAll ((parasOf doc).map render))
  else some result_html

/-- The claim's "paragraph elements found anywhere in the original
document": the all-paragraphs join computed on the document before any
pruning. -/
def parasJoinOrig (doc : HNode) : String :=
  joinSep " " ((findAllList "p" (childrenOf doc)).map HNode.getText)

-- ── Metadata enricher (feeds.py: fetch_og_metadata) ──────────────────

/-- The regular-expression fragments `fetch_og_metadata` uses: literal
text, a single character from a set (`["']`), a greedy negated class
(`[^...]+`), the single greedy capture group (`([^"']+)`), and a
non-capturing alternation (`(?:a|b)`). -/
inductive RE where
  | lit (s : String)
  | anyOf (cs : List Char)
  | cls (neg : List Char)
  | grp (neg : List Char)
  | alt (a b : List RE)

mutual

/-- Pattern size; alternation counts its branches, used as the
termination measure of the matcher. -/
def RE.size : RE → Nat
  | .alt a b => listSize a + listSize b + 1
  | _ => 1

def listSize : List RE → Nat
  | [] => 0
  | r :: rest => r.size + listSize rest

end

theorem listSize_append (a b : List RE) :
    listSize (a ++ b) = listSize a + listSize b := by
  induction a with
  | nil => simp [listSize]
  | cons x xs ih => simp [listSize, ih]; omega

/-- Length of the longest run of characters avoiding `neg` at the head
of the string (the greedy extent of `[^neg]+`). -/
def maxRun (neg : List Char) : List Char → Nat
  | [] => 0
  | c :: cs => if c ∈ neg then 0 else maxRun neg cs + 1

mutual

/-- Backtracking matcher with Python `re` semantics at a fixed start
position: sequence left to right, greedy classes trying longest
first, alternation preferring its left branch, the capture group
recording the text it consumed.  Returns the capture of the first
match found in that exploration order.

The first argument is recursion fuel, decremented on every call so
the definition is structurally recursive and kernel-reducible.  Every
call strictly decreases the pair (listSize of the pattern, pending
run length) lexicographically, both components bounded by the
pattern size and the string length, so the fuel `reSearch` supplies
is never exhausted. -/
def reMatch : Nat → List RE → List Char → Option String → Option (Option String)
  | 0, _, _, _ => none
  | _ + 1, [], _, cap => some cap
  | fuel + 1, .lit w :: rest, s, cap =>
    if listStarts w.toList s then reMatch fuel rest (s.drop w.toList.length) cap
    else none
  | fuel + 1, .anyOf cs :: rest, s, cap =>
    match s with
    | [] => none
    | c :: s' => if c ∈ cs then reMatch fuel rest s' cap else none
  | fuel + 1, .cls neg :: rest, s, cap => tryLens fuel rest s cap (maxRun neg s)
  | fuel + 1, .grp neg :: rest, s, _ => tryCaps fuel rest s (maxRun neg s)
  | fuel + 1, .alt a b :: rest, s, cap =>
    match reMatch fuel (a ++ rest) s cap with
    | some r => some r
    | none => reMatch fuel (b ++ rest) s cap

/-- Greedy `[^neg]+`: consume `i` characters, longest first, retrying
shorter runs on failure of the remaining pattern. -/
def tryLens : Nat → List RE → List Char → Option String → Nat → Option (Option String)
  | 0, _, _, _, _ => none
  | _ + 1, _, _, _, 0 => none
  | fuel + 1, rest, s, cap, i + 1 =>
    match reMatch fuel rest (s.drop (i + 1)) cap with
    | some r => some r
    | none => tryLens fuel rest s cap i

/-- Greedy `([^neg]+)`: as `tryLens`, recording the consumed run as the
capture. -/
def tryCaps : Nat → List RE → List Char → Nat → Option (Option String)
  | 0, _, _, _ => none
  | _ + 1, _, _, 0 => none
  | fuel + 1, rest, s, i + 1 =>
    match reMatch fuel rest (s.drop (i + 1)) (some (String.mk (s.take (i + 1)))) with
    | some r => some r
    | none => tryCaps fuel rest s i

end

/-- Fuel sufficient for any exploration from a start position: the
number of lexicographic (pattern size, run length) values. -/
def fuelFor (ps : List RE) (s : List Char) : Nat :=
  (listSize ps + 1) * (s.length + 2)

/-- `re.search`: try each start position left to right, returning
`m.group(1)` of the first match. -/
def reSearch (ps : List RE) : List Char → Option String
  | [] =>
    (match reMatch (fuelFor ps []) ps [] none with
     | some cap => some (cap.getD "")
     | none => none)
  | c :: cs =>
    match reMatch (fuelFor ps (c :: cs)) ps (c :: cs) none with
    | some cap => some (cap.getD "")
    | none => reSearch ps cs

/-- `attr=["']val["']`. -/
def attrEq (attr val : String) : List RE :=
  [.lit (attr ++ "="), .anyOf ['"', '\''], .lit val, .anyOf ['"', '\'']]

/-- `content=["']([^"']+)["']`. -/
def contentCap : List RE :=
  [.lit "content=", .anyOf ['"', '\''], .grp ['"', '\''], .anyOf ['"', '\'']]

/-- `<meta[^>]+property=["']P["'][^>]+content=["']([^"']+)["']`. -/
def propFirst (prop : String) : List RE :=
  [.lit "<meta", .cls ['>']] ++ attrEq "property" prop ++ [.cls ['>']] ++ contentCap

/-- `<meta[^>]+content=["']([^"']+)["'][^>]+property=["']P["']`. -/
def contentFirst (prop : String) : List RE :=
  [.lit "<meta", .cls ['>']] ++ contentCap ++ [.cls ['>']] ++ attrEq "property" prop

/-- `<meta[^>]+name=["']description["'][^>]+content=["']([^"']+)["']`. -/
def nameDescPat : List RE :=
  [.lit "<meta", .cls ['>']] ++ attrEq "name" "description" ++ [.cls ['>']] ++ contentCap

/-- `<meta[^>]+(?:property|name)=["'](?:article:author|author)["'][^>]+content=["']([^"']+)["']`. -/
def authorPat : List RE :=
  [.lit "<meta", .cls ['>'],
   .alt [.lit "property"] [.lit "name"], .lit "=", .anyOf ['"', '\''],
   .alt [.lit "article:author"] [.lit "author"], .anyOf ['"', '\''],
   .cls ['>']] ++ contentCap

/-- `<meta[^>]+property=["']article:published_time["'][^>]+content=["']([^"']+)["']`. -/
def publishedPat : List RE :=
  propFirst "article:published_time"

/-- Environment of a `fetch_og_metadata` call: the fetched page text
(`none` = the fetch raised) and `dateparser.parse(·).isoformat()`
(`none` = parsing raised). -/
structure OgEnv where
  page : Option String
  parseDate : String → Option String

/-- `fetch_og_metadata(url, timeout)`: truncate the page to 50,000
characters, then run the per-field pattern chains.  `og:image` keeps
the raw capture; description, title and author are stripped; the
published time goes through the date parser, a failure dropping the
field. -/
def fetch_og_metadata (env : OgEnv) : OgResult :=
  match env.page with
  | none => {}
  | some txt =>
    let html := txt.toList.take 50000
    let og_image :=
      match reSearch (propFirst "og:image") html with
      | some v => some v
      | none => reSearch (contentFirst "og:image") html
    let descRaw :=
      match reSearch (propFirst "og:description") html with
      | some v => some v
      | none =>
        match reSearch (contentFirst "og:description") html with
        | some v => some v
        | none => reSearch nameDescPat html
    let titleRaw :=
      match reSearch (propFirst "og:title") html with
      | some v => some v
      | none => reSearch (contentFirst "og:title") html
    let og_published :=
      match reSearch publishedPat html with
      | some v => env.parseDate v
      | none => none
    { og_image := og_image,
      og_description := Option.map pyStrip descRaw,
      og_title := Option.map pyStrip titleRaw,
      og_author := Option.map pyStrip (reSearch authorPat html),
      og_published := og_published }

/-- One meta tag, with the property/name attribute either before
(`propFirstOrder = true`) or after its content attribute. -/
def ogTag (propFirstOrder : Bool) (attr prop v : String) : String :=
  if propFirstOrder then
    "<meta " ++ attr ++ "=\"" ++ prop ++ "\" content=\"" ++ v ++ "\">"
  else
    "<meta content=\"" ++ v ++ "\" " ++ attr ++ "=\"" ++ prop ++ "\">"

-- ── Fuel adequacy of the matcher, and the attribute-order analysis ──

/-- The greedy run never exceeds the string. -/
theorem maxRun_le (neg : List Char) (s : List Char) : maxRun neg s ≤ s.length := by
  induction s with
  | nil => simp [maxRun]
  | cons c cs ih =>
    by_cases h : c ∈ neg
    · simp [maxRun, h]
    · simp [maxRun, h]; omega

-- ── Fuel adequacy of the matcher ─────────────────────────────────────

mutual

/-- The matcher without fuel: the same exploration, compiled by
well-founded recursion on the lexicographic (pattern size, pending
run) measure.  `reSearch` always supplies enough fuel for `reMatch`
to compute exactly this function (`reMatch_fuelFor`), so symbolic
facts about the matcher are proved against this version and
transported. -/
def reMatchWF : List RE → List Char → Option String → Option (Option String)
  | [], _, cap => some cap
  | .lit w :: rest, s, cap =>
    if listStarts w.toList s then reMatchWF rest (s.drop w.toList.length) cap
    else none
  | .anyOf cs :: rest, s, cap =>
    match s with
    | [] => none
    | c :: s' => if c ∈ cs then reMatchWF rest s' cap else none
  | .cls neg :: rest, s, cap => tryLensWF rest s cap (maxRun neg s)
  | .grp neg :: rest, s, _ => tryCapsWF rest s (maxRun neg s)
  | .alt a b :: rest, s, cap =>
    match reMatchWF (a ++ rest) s cap with
    | some r => some r
    | none => reMatchWF (b ++ rest) s cap
termination_by ps _ _ => (listSize ps, 0)
decreasing_by
  all_goals simp [listSize_append, listSize, RE.size]
  all_goals omega

/-- Fuel-free `tryLens`. -/
def tryLensWF : List RE → List Char → Option String → Nat → Option (Option String)
  | _, _, _, 0 => none
  | rest, s, cap, i + 1 =>
    match reMatchWF rest (s.drop (i + 1)) cap with
    | some r => some r
    | none => tryLensWF rest s cap i
termination_by rest _ _ i => (listSize rest, i + 1)
decreasing_by
  all_goals simp [listSize_append, listSize, RE.size]
  all_goals omega

/-- Fuel-free `tryCaps`. -/
def tryCapsWF : List RE → List Char → Nat → Option (Option String)
  | _, _, 0 => none
  | rest, s, i + 1 =>
    match reMatchWF rest (s.drop (i + 1)) (some (String.mk (s.take (i + 1)))) with
    | some r => some r
    | none => tryCapsWF rest s i
termination_by rest _ i => (listSize rest, i + 1)
decreasing_by
  all_goals simp [listSize_append, listSize, RE.size]
  all_goals omega

end

/-- The fueled matcher computes the fuel-free one whenever the fuel
dominates the number of remaining lexicographic (pattern size, run)
values, which is how `fuelFor` is defined. -/
theorem engine_fuel_adequate (fuel : Nat) :
    (∀ ps s cap, (listSize ps + 1) * (s.length + 2) ≤ fuel →
      reMatch fuel ps s cap = reMatchWF ps s cap) ∧
    (∀ rest s cap i, i ≤ s.length →
      (listSize rest + 1) * (s.length + 2) + i + 1 ≤ fuel →
      tryLens fuel rest s cap i = tryLensWF rest s cap i) ∧
    (∀ rest s i, i ≤ s.length →
      (listSize rest + 1) * (s.length + 2) + i + 1 ≤ fuel →
      tryCaps fuel rest s i = tryCapsWF rest s i) := by
  induction fuel with
  | zero =>
    refine ⟨?_, ?_, ?_⟩
    · intro ps s cap h
      have h2 : 1 * 2 ≤ (listSize ps + 1) * (s.length + 2) :=
        Nat.mul_le_mul (by omega) (by omega)
      exact absurd h (by omega)
    · intro rest s cap i _ h
      have h2 : 1 * 2 ≤ (listSize rest + 1) * (s.length + 2) :=
        Nat.mul_le_mul (by omega) (by omega)
      exact absurd h (by omega)
    · intro rest s i _ h
      have h2 : 1 * 2 ≤ (listSize rest + 1) * (s.length + 2) :=
        Nat.mul_le_mul (by omega) (by omega)
      exact absurd h (by omega)
  | succ fuel ih =>
    obtain ⟨ihM, ihL, ihC⟩ := ih
    refine ⟨?_, ?_, ?_⟩
    · intro ps s cap h
      match ps with
      | [] => simp [reMatch, reMatchWF]
      | .lit w :: rest =>
        have hX : 2 ≤ s.length + 2 := by omega
        have he : (listSize (RE.lit w :: rest) + 1) * (s.length + 2)
            = (listSize rest + 1) * (s.length + 2) + (s.length + 2) := by
          simp [listSize, RE.size]; ring
        have hless : (listSize rest + 1) * ((s.drop w.toList.length).length + 2)
            ≤ (listSize rest + 1) * (s.length + 2) :=
          Nat.mul_le_mul_left _ (by simp only [List.length_drop]; omega)
        simp only [reMatch, reMatchWF]
        rw [ihM rest _ cap (by omega)]
      | .anyOf cs :: rest =>
        match s with
        | [] => simp [reMatch, reMatchWF]
        | c :: s' =>
          have he : (listSize (RE.anyOf cs :: rest) + 1) * ((c :: s').length + 2)
              = (listSize rest + 1) * (s'.length + 2) + (listSize rest + 1) + (s'.length + 3) := by
            simp [listSize, RE.size, List.length_cons]; ring
          simp only [reMatch, reMatchWF]
          rw [ihM rest s' cap (by omega)]
      | .cls neg :: rest =>
        have hrun : maxRun neg s ≤ s.length := maxRun_le neg s
        have he : (listSize (RE.cls neg :: rest) + 1) * (s.length + 2)
            = (listSize rest + 1) * (s.length + 2) + (s.length + 2) := by
          simp [listSize, RE.size]; ring
        simp only [reMatch, reMatchWF]
        exact ihL rest s cap (maxRun neg s) hrun (by omega)
      | .grp neg :: rest =>
        have hrun : maxRun neg s ≤ s.length := maxRun_le neg s
        have he : (listSize (RE.grp neg :: rest) + 1) * (s.length + 2)
            = (listSize rest + 1) * (s.length + 2) + (s.length + 2) := by
          simp [listSize, RE.size]; ring
        simp only [reMatch, reMatchWF]
        exact ihC rest s (maxRun neg s) hrun (by omega)
      | .alt a b :: rest =>
        have hX : 2 ≤ s.length + 2 := by omega
        have he : (listSize (RE.alt a b :: rest) + 1) * (s.length + 2)
            = (listSize (a ++ rest) + 1) * (s.length + 2)
              + (listSize b + 1) * (s.length + 2) := by
          simp [listSize, RE.size, listSize_append]; ring
        have he2 : (listSize (RE.alt a b :: rest) + 1) * (s.length + 2)
            = (listSize (b ++ rest) + 1) * (s.length + 2)
              + (listSize a + 1) * (s.length + 2) := by
          simp [listSize, RE.size, listSize_append]; ring
        have hb : 1 * 2 ≤ (listSize b + 1) * (s.length + 2) :=
          Nat.mul_le_mul (by omega) (by omega)
        have ha : 1 * 2 ≤ (listSize a + 1) * (s.length + 2) :=
          Nat.mul_le_mul (by omega) (by omega)
        simp only [reMatch, reMatchWF]
        rw [ihM (a ++ rest) s cap (by omega), ihM (b ++ rest) s cap (by omega)]
    · intro rest s cap i hi h
      match i with
      | 0 => simp [tryLens, tryLensWF]
      | i + 1 =>
        have hdrop : (s.drop (i + 1)).length = s.length - (i + 1) := by
          simp [List.length_drop]
        have hmono : (listSize rest + 1) * ((s.drop (i + 1)).length + 2)
            ≤ (listSize rest + 1) * (s.length + 2) :=
          Nat.mul_le_mul_left _ (by omega)
        simp only [tryLens, tryLensWF]
        rw [ihM rest (s.drop (i + 1)) cap (by omega),
          ihL rest s cap i (by omega) (by omega)]
    · intro rest s i hi h
      match i with
      | 0 => simp [tryCaps, tryCapsWF]
      | i + 1 =>
        have hdrop : (s.drop (i + 1)).length = s.length - (i + 1) := by
          simp [List.length_drop]
        have hmono : (listSize rest + 1) * ((s.drop (i + 1)).length + 2)
            ≤ (listSize rest + 1) * (s.length + 2) :=
          Nat.mul_le_mul_left _ (by omega)
        simp only [tryCaps, tryCapsWF]
        rw [ihM rest (s.drop (i + 1)) _ (by omega),
          ihC rest s i (by omega) (by omega)]

/-- `reMatch` at the fuel `reSearch` supplies is the fuel-free matcher. -/
theorem reMatch_fuelFor (ps : List RE) (s : List Char) (cap : Option String) :
    reMatch (fuelFor ps s) ps s cap = reMatchWF ps s cap :=
  (engine_fuel_adequate (fuelFor ps s)).1 ps s cap (Nat.le_refl _)

-- One-step unfolding laws of the fuel-free matcher, used as rewrite
-- rules by the symbolic pattern traces.

theorem reMatchWF_nil (s : List Char) (cap : Option String) :
    reMatchWF [] s cap = some cap := by
  simp [reMatchWF]

theorem reMatchWF_lit_starts {X : String} {s : List Char}
    (h : listStarts X.toList s = true) (Q : List RE) (cap : Option String) :
    reMatchWF (RE.lit X :: Q) s cap = reMatchWF Q (s.drop X.toList.length) cap := by
  have h' : listStarts X.data s = true := h
  rw [reMatchWF]
  simp [h']

theorem reMatchWF_lit_none {X : String} {s : List Char}
    (h : listStarts X.toList s = false) (Q : List RE) (cap : Option String) :
    reMatchWF (RE.lit X :: Q) s cap = none := by
  have h' : listStarts X.data s = false := h
  rw [reMatchWF]
  simp [h']

theorem reMatchWF_anyOf_mem {c : Char} {cs : List Char} (h : c ∈ cs)
    (Q : List RE) (t : List Char) (cap : Option String) :
    reMatchWF (RE.anyOf cs :: Q) (c :: t) cap = reMatchWF Q t cap := by
  rw [reMatchWF]
  simp [h]

theorem reMatchWF_anyOf_notMem {c : Char} {cs : List Char} (h : c ∉ cs)
    (Q : List RE) (t : List Char) (cap : Option String) :
    reMatchWF (RE.anyOf cs :: Q) (c :: t) cap = none := by
  rw [reMatchWF]
  simp [h]

theorem reMatchWF_cls (neg : List Char) (Q : List RE) (s : List Char)
    (cap : Option String) :
    reMatchWF (RE.cls neg :: Q) s cap = tryLensWF Q s cap (maxRun neg s) := by
  rw [reMatchWF]

theorem reMatchWF_grp (neg : List Char) (Q : List RE) (s : List Char)
    (cap : Option String) :
    reMatchWF (RE.grp neg :: Q) s cap = tryCapsWF Q s (maxRun neg s) := by
  rw [reMatchWF]

theorem reMatchWF_alt_first {a b rest : List RE} {s : List Char}
    {cap res : Option String} (h : reMatchWF (a ++ rest) s cap = some res) :
    reMatchWF (RE.alt a b :: rest) s cap = some res := by
  rw [reMatchWF]
  simp [h]

-- ── Window toolkit for the scanning proofs ───────────────────────────

/-- A literal matches its own leading occurrence. -/
theorem listStarts_self_append (x r : List Char) : listStarts x (x ++ r) = true := by
  induction x with
  | nil => simp [listStarts]
  | cons c cs ih => simp [listStarts, ih]

/-- A nonempty literal fails on a string with a different head. -/
theorem listStarts_head_ne {p c : Char} (ps cs : List Char) (h : p ≠ c) :
    listStarts (p :: ps) (c :: cs) = false := by
  simp [listStarts, h]

/-- Decidable check that the literal `x` fails at the head of `t`, the
mismatch occurring inside `t` (so extending `t` cannot repair it). -/
def litFailsIn : List Char → List Char → Bool
  | [], _ => false
  | _ :: _, [] => false
  | p :: ps, c :: cs => if p = c then litFailsIn ps cs else true

theorem litFailsIn_sound {x : List Char} : ∀ {t : List Char},
    litFailsIn x t = true → ∀ (y : List Char), listStarts x (t ++ y) = false := by
  induction x with
  | nil => intro t h; simp [litFailsIn] at h
  | cons p ps ih =>
    intro t h y
    match t with
    | [] => simp [litFailsIn] at h
    | c :: cs =>
      by_cases hpc : p = c
      · subst hpc
        simp only [litFailsIn, if_pos rfl] at h
        simpa [listStarts, List.cons_append] using ih h y
      · simp [listStarts, List.cons_append, hpc]

/-- Decidable check that `x` fails-in at every nonempty strict suffix
of `seg`. -/
def suffixesFail (x : List Char) : List Char → Bool
  | [] => true
  | [_] => true
  | _ :: c :: cs => litFailsIn x (c :: cs) && suffixesFail x (c :: cs)

theorem suffixesFail_spec {x : List Char} : ∀ (seg : List Char) (j : Nat),
    suffixesFail x seg = true → 1 ≤ j → j < seg.length →
    litFailsIn x (seg.drop j) = true
  | [], _, _, _, h2 => absurd h2 (by simp)
  | [c], j, _, h1, h2 => by simp at h2; omega
  | c :: c' :: cs, 1, h, _, _ => by
      simp only [suffixesFail, Bool.and_eq_true] at h
      simpa using h.1
  | c :: c' :: cs, j + 2, h, _, h2 => by
      simp only [suffixesFail, Bool.and_eq_true] at h
      have := suffixesFail_spec (c' :: cs) (j + 1) h.2 (by omega)
        (by simp at h2 ⊢; omega)
      simpa [List.drop] using this

/-- If a literal without the character `c` matches across `w ++ c :: r`,
it fits inside `w`. -/
theorem listStarts_crossing {c : Char} : ∀ (x w r : List Char), c ∉ x →
    listStarts x (w ++ c :: r) = true → x.length ≤ w.length
  | [], _, _, _, _ => by simp
  | p :: ps, [], r, hc, h => by
      simp only [List.nil_append, listStarts, Bool.and_eq_true, decide_eq_true_eq] at h
      exact absurd (show c ∈ p :: ps by rw [← h.1]; exact List.mem_cons_self _ _) hc
  | p :: ps, w0 :: w', r, hc, h => by
      simp only [List.cons_append, listStarts, Bool.and_eq_true, decide_eq_true_eq] at h
      have := listStarts_crossing ps w' r (fun hm => hc (List.mem_cons_of_mem _ hm)) h.2
      simpa using Nat.succ_le_succ this

/-- A literal containing `=` cannot match starting inside an attribute
value: the value's characters exclude `=` and `"`, and a `"` closes
the value. -/
theorem listStarts_value_fail {x : List Char} (hx : '=' ∈ x) (hq : '"' ∉ x) :
    ∀ (w r : List Char), (∀ c ∈ w, c ≠ '=' ∧ c ≠ '"') →
    listStarts x (w ++ '"' :: r) = false := by
  induction x with
  | nil => simp at hx
  | cons p ps ih =>
    intro w r hw
    match w with
    | [] =>
      have hp : p ≠ '"' := fun hh => hq (hh ▸ List.mem_cons_self _ _)
      simp [listStarts, hp]
    | w0 :: w' =>
      by_cases hpw : p = w0
      · subst hpw
        have hpne : p ≠ '=' := (hw p (List.mem_cons_self _ _)).1
        have hx' : '=' ∈ ps := by
          rcases List.mem_cons.mp hx with h | h
          · exact absurd h.symm hpne
          · exact h
        have hq' : '"' ∉ ps := fun hh => hq (List.mem_cons_of_mem _ hh)
        have := ih hx' hq' w' r (fun cc hcc => hw cc (List.mem_cons_of_mem _ hcc))
        simpa [listStarts, List.cons_append] using this
      · simp [listStarts, List.cons_append, hpw]

/-- The matcher fails when its leading literal fails inside the prefix
`t` of the subject. -/
theorem reMatchWF_lit_failsIn {X : String} {t : List Char}
    (h : litFailsIn X.toList t = true) (Q : List RE) (y : List Char)
    (cap : Option String) : reMatchWF (RE.lit X :: Q) (t ++ y) cap = none :=
  reMatchWF_lit_none (litFailsIn_sound h y) Q cap

/-- The matcher fails when its leading literal fails with a mismatch on
the subject's head character. -/
theorem reMatchWF_lit_head_ne {p c : Char} {ps : List Char} {X : String}
    (hX : X.toList = p :: ps) (h : p ≠ c) (Q : List RE) (t : List Char)
    (cap : Option String) : reMatchWF (RE.lit X :: Q) (c :: t) cap = none := by
  have hf : listStarts X.toList (c :: t) = false := by
    rw [hX]; exact listStarts_head_ne _ _ h
  exact reMatchWF_lit_none hf Q cap

/-- Both branches failing, the alternation fails. -/
theorem reMatchWF_alt_none {a b rest : List RE} {s : List Char} {cap : Option String}
    (h1 : reMatchWF (a ++ rest) s cap = none)
    (h2 : reMatchWF (b ++ rest) s cap = none) :
    reMatchWF (RE.alt a b :: rest) s cap = none := by
  simp [reMatchWF, h1, h2]

/-- A pattern `X=` with `X` free of `=` and `"` cannot match starting
inside an attribute value. -/
theorem reMatchWF_litEq_value_none {X : String} (hq : '"' ∉ X.toList)
    (w r : List Char) (Q : List RE) (cap : Option String)
    (hw : ∀ c ∈ w, c ≠ '=' ∧ c ≠ '"') :
    reMatchWF (RE.lit X :: RE.lit "=" :: Q) (w ++ '"' :: r) cap = none := by
  cases hls : listStarts X.toList (w ++ '"' :: r) with
  | false => exact reMatchWF_lit_none hls _ _
  | true =>
    have hlen : X.toList.length ≤ w.length := listStarts_crossing _ _ _ hq hls
    have hdrop : (w ++ '"' :: r).drop X.toList.length
        = w.drop X.toList.length ++ '"' :: r :=
      List.drop_append_of_le_length hlen
    have heq : listStarts "=".toList (w.drop X.toList.length ++ '"' :: r) = false := by
      cases hd : w.drop X.toList.length with
      | nil => simp [listStarts]
      | cons c0 w'' =>
        have hc0 : c0 ∈ w := List.drop_subset _ _ (hd ▸ List.mem_cons_self _ _)
        have hne : ('=' : Char) ≠ c0 := Ne.symm (hw c0 hc0).1
        simp [listStarts, hne]
    rw [reMatchWF_lit_starts hls, hdrop, reMatchWF_lit_none heq]

/-- All run lengths failing, the greedy class match fails. -/
theorem tryLensWF_none (Q : List RE) (s : List Char) (cap : Option String) :
    ∀ k, (∀ i, 1 ≤ i → i ≤ k → reMatchWF Q (s.drop i) cap = none) →
    tryLensWF Q s cap k = none
  | 0, _ => by simp [tryLensWF]
  | k + 1, h => by
      have h0 := h (k + 1) (by omega) (by omega)
      have hrec := tryLensWF_none Q s cap k (fun i h1 h2 => h i h1 (by omega))
      simp [tryLensWF, h0, hrec]

/-- Run lengths above `i₀` all failing, the greedy search proceeds from
`i₀`. -/
theorem tryLensWF_eq_low (Q : List RE) (s : List Char) (cap : Option String) :
    ∀ k i₀, i₀ ≤ k → (∀ i, i₀ < i → i ≤ k → reMatchWF Q (s.drop i) cap = none) →
    tryLensWF Q s cap k = tryLensWF Q s cap i₀
  | 0, 0, _, _ => rfl
  | 0, i₀ + 1, hik, _ => absurd hik (by omega)
  | k + 1, i₀, hik, h => by
      by_cases he : i₀ = k + 1
      · subst he; rfl
      · have h0 := h (k + 1) (by omega) (by omega)
        have hrec := tryLensWF_eq_low Q s cap k i₀ (by omega)
          (fun i h1 h2 => h i h1 (by omega))
        simp [tryLensWF, h0, hrec]

/-- The run length `1` succeeding, the greedy search at `1` returns its
result. -/
theorem tryLensWF_one_some {Q : List RE} {s : List Char} {cap res : Option String}
    (h : reMatchWF Q (s.drop 1) cap = some res) :
    tryLensWF Q s cap 1 = some res := by
  have h' : reMatchWF Q s.tail cap = some res := by rwa [← List.drop_one]
  simp [tryLensWF, h']

/-- The capture of run length `i + 1` succeeding, the greedy capture
returns its result. -/
theorem tryCapsWF_succ_some {Q : List RE} {s : List Char} {i : Nat} {res : Option String}
    (h : reMatchWF Q (s.drop (i + 1)) (some (String.mk (s.take (i + 1)))) = some res) :
    tryCapsWF Q s (i + 1) = some res := by
  simp [tryCapsWF, h]

/-- A position whose character is not `<` cannot start a `<meta` match. -/
theorem reMatchWF_meta_head {c : Char} (hc : c ≠ '<') (Q : List RE) (t : List Char)
    (cap : Option String) : reMatchWF (RE.lit "<meta" :: Q) (c :: t) cap = none :=
  reMatchWF_lit_head_ne rfl (Ne.symm hc) Q t cap

/-- The scan skips a block of text containing no `<`. -/
theorem reSearch_skip (Q : List RE) : ∀ (a rest : List Char),
    (∀ c ∈ a, c ≠ '<') →
    reSearch (RE.lit "<meta" :: Q) (a ++ rest) = reSearch (RE.lit "<meta" :: Q) rest
  | [], rest, _ => by simp
  | c :: a', rest, h => by
      have hm : reMatchWF (RE.lit "<meta" :: Q) (c :: (a' ++ rest)) none = none :=
        reMatchWF_meta_head (h c (List.mem_cons_self _ _)) _ _ _
      have hrec := reSearch_skip Q a' rest (fun x hx => h x (List.mem_cons_of_mem _ hx))
      simp only [List.cons_append, reSearch, List.append_eq]
      rw [reMatch_fuelFor, hm]
      exact hrec

/-- The scan of the empty string finds nothing. -/
theorem reSearch_nil_none (Q : List RE) : reSearch (RE.lit "<meta" :: Q) [] = none := by
  have hm : reMatchWF (RE.lit "<meta" :: Q) [] none = none :=
    reMatchWF_lit_none (by decide) Q none
  simp only [reSearch]
  rw [reMatch_fuelFor, hm]

/-- The matcher succeeding at the scan's current position, the scan
returns that match's capture. -/
theorem reSearch_head_some {Q : List RE} {s : List Char} {res : Option String}
    (h : reMatchWF (RE.lit "<meta" :: Q) s none = some res) :
    reSearch (RE.lit "<meta" :: Q) s = some (res.getD "") := by
  cases s with
  | nil => simp only [reSearch]; rw [reMatch_fuelFor, h]
  | cons c cs => simp only [reSearch]; rw [reMatch_fuelFor, h]

/-- The greedy run over characters avoiding `neg`. -/
theorem maxRun_append_notin {neg : List Char} : ∀ (xs ys : List Char),
    (∀ c ∈ xs, c ∉ neg) → maxRun neg (xs ++ ys) = xs.length + maxRun neg ys
  | [], ys, _ => by simp
  | x :: xs', ys, h => by
      have hx : x ∉ neg := h x (List.mem_cons_self _ _)
      have := maxRun_append_notin xs' ys (fun c hc => h c (List.mem_cons_of_mem _ hc))
      simp [maxRun, hx, this]; omega

/-- The greedy run stops at a character of `neg`. -/
theorem maxRun_cons_mem {neg : List Char} {c : Char} (h : c ∈ neg) (cs : List Char) :
    maxRun neg (c :: cs) = 0 := by
  simp [maxRun, h]

/-- Dropping past an initial segment. -/
theorem drop_append_ge {l₁ l₂ : List Char} {n : Nat} (h : l₁.length ≤ n) :
    (l₁ ++ l₂).drop n = l₂.drop (n - l₁.length) := by
  rw [List.drop_append_eq_append_drop, List.drop_eq_nil_of_le h, List.nil_append]

-- ── Zone dispatchers and the shared content-capture trace ────────────

/-- The left branch failing, the alternation reduces to its right
branch. -/
theorem reMatchWF_alt_second {a b rest : List RE} {s : List Char} {cap : Option String}
    (h1 : reMatchWF (a ++ rest) s cap = none) :
    reMatchWF (RE.alt a b :: rest) s cap = reMatchWF (b ++ rest) s cap := by
  rw [reMatchWF]
  simp [h1]

/-- A window opening inside the concrete segment `seg`: the leading
literal fails inside the segment, whatever follows it. -/
theorem reMatchWF_seg_window {X : String} {seg : List Char}
    (hseg : suffixesFail X.toList seg = true) {j : Nat} (h1 : 1 ≤ j)
    (h2 : j < seg.length) (tail : List Char) (Q : List RE) (cap : Option String) :
    reMatchWF (RE.lit X :: Q) (seg.drop j ++ tail) cap = none :=
  reMatchWF_lit_failsIn (suffixesFail_spec seg j hseg h1 h2) Q tail cap

/-- A window opening inside an attribute value, for a pattern headed by
a literal that contains `=`. -/
theorem reMatchWF_value_window {X : String} (hx : '=' ∈ X.toList)
    (hq : '"' ∉ X.toList) (w r : List Char) (Q : List RE) (cap : Option String)
    (hw : ∀ c ∈ w, c ≠ '=' ∧ c ≠ '"') :
    reMatchWF (RE.lit X :: Q) (w ++ '"' :: r) cap = none :=
  reMatchWF_lit_none (listStarts_value_fail hx hq w r hw) Q cap

/-- A window opening inside an attribute value, for the author pattern's
`(?:property|name)=` head. -/
theorem reMatchWF_altLit_value_window {X₁ X₂ : String}
    (hq1 : '"' ∉ X₁.toList) (hq2 : '"' ∉ X₂.toList)
    (w r : List Char) (Q : List RE) (cap : Option String)
    (hw : ∀ c ∈ w, c ≠ '=' ∧ c ≠ '"') :
    reMatchWF (RE.alt [RE.lit X₁] [RE.lit X₂] :: RE.lit "=" :: Q)
      (w ++ '"' :: r) cap = none := by
  apply reMatchWF_alt_none
  · exact reMatchWF_litEq_value_none hq1 w r Q cap hw
  · exact reMatchWF_litEq_value_none hq2 w r Q cap hw

/-- Both branch literals failing inside the prefix `t`, the alternation
head fails, whatever follows. -/
theorem reMatchWF_altLit_failsIn {X₁ X₂ : String} {t : List Char}
    (h1 : litFailsIn X₁.toList t = true) (h2 : litFailsIn X₂.toList t = true)
    (rest : List RE) (y : List Char) (cap : Option String) :
    reMatchWF (RE.alt [RE.lit X₁] [RE.lit X₂] :: rest) (t ++ y) cap = none := by
  apply reMatchWF_alt_none
  · exact reMatchWF_lit_failsIn h1 _ y cap
  · exact reMatchWF_lit_failsIn h2 _ y cap

/-- A window opening inside a concrete segment, alternation form. -/
theorem reMatchWF_altSeg_window {X₁ X₂ : String} {seg : List Char}
    (hs1 : suffixesFail X₁.toList seg = true)
    (hs2 : suffixesFail X₂.toList seg = true) {j : Nat} (h1 : 1 ≤ j)
    (h2 : j < seg.length) (tail : List Char) (rest : List RE) (cap : Option String) :
    reMatchWF (RE.alt [RE.lit X₁] [RE.lit X₂] :: rest) (seg.drop j ++ tail) cap = none :=
  reMatchWF_altLit_failsIn (suffixesFail_spec seg j hs1 h1 h2)
    (suffixesFail_spec seg j hs2 h1 h2) rest tail cap

/-- An `attr=["]P["]` hit immediately followed by the tag's closing `>`:
the pattern next requires `[^>]+`, which has nothing to consume, so
the window fails whatever text follows the tag. -/
theorem reMatchWF_attr_then_cls_stuck (X P : String) (post : List Char)
    (Q : List RE) (cap : Option String) :
    reMatchWF (RE.lit X :: RE.anyOf ['"', '\''] :: RE.lit P :: RE.anyOf ['"', '\'']
        :: RE.cls ['>'] :: Q)
      (X.toList ++ '"' :: (P.toList ++ '"' :: '>' :: post)) cap = none := by
  rw [reMatchWF_lit_starts (listStarts_self_append _ _), List.drop_left,
    reMatchWF_anyOf_mem (by decide),
    reMatchWF_lit_starts (listStarts_self_append _ _), List.drop_left,
    reMatchWF_anyOf_mem (by decide), reMatchWF_cls,
    maxRun_cons_mem (by decide)]
  simp [tryLensWF]

/-- The `[^>]+content=["\']([^"\']+)["\']` tail of a property-first meta
pattern, entered right after the property attribute with the content
attribute adjacent: it captures exactly the content value. -/
theorem gap2_content (v post : List Char) (cap : Option String)
    (hvne : v ≠ [])
    (hv : ∀ c ∈ v, c ≠ '"' ∧ c ≠ '\'' ∧ c ≠ '>' ∧ c ≠ '=') :
    reMatchWF [RE.cls ['>'], RE.lit "content=", RE.anyOf ['"', '\''],
        RE.grp ['"', '\''], RE.anyOf ['"', '\'']]
      (" content=\"".toList ++ (v ++ '"' :: '>' :: post)) cap
      = some (some (String.mk v)) := by
  have hAlen : (" content=\"".toList).length = 10 := by decide
  have hvq : ∀ c ∈ v, c ∉ (['"', '\''] : List Char) := by
    intro c hc hm
    rcases List.mem_cons.mp hm with h | h
    · exact (hv c hc).1 h
    · exact (hv c hc).2.1 (by simpa using h)
  have hvgt : ∀ c ∈ v, c ∉ (['>'] : List Char) := by
    intro c hc hm
    exact (hv c hc).2.2.1 (by simpa using hm)
  have hmB : maxRun ['>'] ('"' :: '>' :: post) = 1 := by simp [maxRun]
  have hk : maxRun ['>'] (" content=\"".toList ++ (v ++ '"' :: '>' :: post))
      = 11 + v.length := by
    rw [maxRun_append_notin _ _ (by decide), maxRun_append_notin _ _ hvgt, hmB,
      hAlen]
    omega
  rw [reMatchWF_cls, hk]
  rw [tryLensWF_eq_low _ _ _ (11 + v.length) 1 (by omega) ?fail]
  case fail =>
    intro i hi1 hi2
    by_cases hA : i ≤ 9
    · have hcons : " content=\"".toList = ' ' :: "content=\"".toList := by decide
      obtain ⟨m, rfl⟩ : ∃ m, i = m + 1 := ⟨i - 1, by omega⟩
      have hd : (" content=\"".toList ++ (v ++ '"' :: '>' :: post)).drop (m + 1)
          = "content=\"".toList.drop m ++ (v ++ '"' :: '>' :: post) := by
        rw [List.drop_append_of_le_length (by omega), hcons, List.drop_succ_cons]
      rw [hd]
      have hlen9 : ("content=\"".toList).length = 9 := by decide
      exact reMatchWF_seg_window (by decide) (by omega) (by omega) _ _ _
    · by_cases hV : i ≤ 10 + v.length
      · have hd : (" content=\"".toList ++ (v ++ '"' :: '>' :: post)).drop i
            = v.drop (i - 10) ++ '"' :: '>' :: post := by
          rw [drop_append_ge (by omega), hAlen,
            List.drop_append_of_le_length (by omega)]
        rw [hd]
        exact reMatchWF_value_window (by decide) (by decide) _ _ _ _
          (fun c hc => ⟨(hv c (List.drop_subset _ _ hc)).2.2.2,
            (hv c (List.drop_subset _ _ hc)).1⟩)
      · have hd : (" content=\"".toList ++ (v ++ '"' :: '>' :: post)).drop i
            = '>' :: post := by
          rw [drop_append_ge (by omega), hAlen, drop_append_ge (by omega)]
          have hidx : i - 10 - v.length = 1 := by omega
          rw [hidx]
          rfl
        rw [hd]
        exact reMatchWF_lit_head_ne rfl (by decide) _ _ _
  have hd1 : (" content=\"".toList ++ (v ++ '"' :: '>' :: post)).drop 1
      = "content=".toList ++ ('"' :: (v ++ '"' :: '>' :: post)) := by
    rfl
  have hmv : maxRun ['"', '\''] (v ++ '"' :: '>' :: post) = v.length := by
    rw [maxRun_append_notin _ _ hvq, maxRun_cons_mem (by decide)]
    omega
  obtain ⟨n, hn⟩ : ∃ n, v.length = n + 1 := by
    cases v with
    | nil => exact absurd rfl hvne
    | cons a as => exact ⟨as.length, rfl⟩
  apply tryLensWF_one_some
  rw [hd1, reMatchWF_lit_starts (listStarts_self_append _ _), List.drop_left,
    reMatchWF_anyOf_mem (by decide), reMatchWF_grp, hmv, hn]
  apply tryCapsWF_succ_some
  rw [← hn]
  have hdv : (v ++ '"' :: '>' :: post).drop v.length = '"' :: '>' :: post :=
    List.drop_left v _
  have htv : (v ++ '"' :: '>' :: post).take v.length = v :=
    List.take_left v _
  rw [hdv, htv, reMatchWF_anyOf_mem (by decide), reMatchWF_nil]

/-- The greedy run grows over a character avoiding `neg`. -/
theorem maxRun_cons_notMem {neg : List Char} {c : Char} (h : c ∉ neg)
    (cs : List Char) : maxRun neg (c :: cs) = maxRun neg cs + 1 := by
  simp [maxRun, h]

/-- The whole `[^>]+property=["']P["'][^>]+content=["']([^"']+)["']` tail
of a property-first pattern, entered right after `<meta` on a
property-first tag: it captures exactly the content value. -/
theorem gap1_propFirst (P : String) (v post : List Char) (cap : Option String)
    (hvne : v ≠ [])
    (hv : ∀ c ∈ v, c ≠ '"' ∧ c ≠ '\'' ∧ c ≠ '>' ∧ c ≠ '=')
    (hPe : '=' ∉ P.toList) (hPq : '"' ∉ P.toList) (hPgt : '>' ∉ P.toList) :
    reMatchWF (RE.cls ['>'] :: RE.lit "property=" :: RE.anyOf ['"', '\''] ::
        RE.lit P :: RE.anyOf ['"', '\''] :: RE.cls ['>'] :: RE.lit "content=" ::
        RE.anyOf ['"', '\''] :: RE.grp ['"', '\''] :: RE.anyOf ['"', '\''] :: [])
      (' ' :: ("property=".toList ++ ('"' :: (P.toList ++ ('"' ::
        (" content=\"".toList ++ (v ++ '"' :: '>' :: post))))))) cap
      = some (some (String.mk v)) := by
  have hl9 : ("property=".toList).length = 9 := by decide
  have hl10 : (" content=\"".toList).length = 10 := by decide
  have hPmem : ∀ c ∈ P.toList, c ≠ '=' ∧ c ≠ '"' := fun c hc =>
    ⟨fun he => hPe (he ▸ hc), fun hq => hPq (hq ▸ hc)⟩
  have hvgt : ∀ c ∈ v, c ∉ (['>'] : List Char) := fun c hc hm =>
    (hv c hc).2.2.1 (List.mem_singleton.mp hm)
  have hPgt' : ∀ c ∈ P.toList, c ∉ (['>'] : List Char) := fun c hc hm =>
    hPgt ((List.mem_singleton.mp hm) ▸ hc)
  have hmB : maxRun ['>'] ('"' :: '>' :: post) = 1 := by simp [maxRun]
  have hk : maxRun ['>'] (' ' :: ("property=".toList ++ ('"' :: (P.toList ++ ('"' ::
      (" content=\"".toList ++ (v ++ '"' :: '>' :: post)))))))
      = 23 + P.toList.length + v.length := by
    rw [maxRun_cons_notMem (by decide), maxRun_append_notin _ _ (by decide),
      maxRun_cons_notMem (by decide), maxRun_append_notin _ _ hPgt',
      maxRun_cons_notMem (by decide), maxRun_append_notin _ _ (by decide),
      maxRun_append_notin _ _ hvgt, hmB, hl9, hl10]
    omega
  rw [reMatchWF_cls, hk]
  rw [tryLensWF_eq_low _ _ _ (23 + P.toList.length + v.length) 1 (by omega) ?fail]
  case fail =>
    intro j hj1 hj2
    obtain ⟨m, rfl⟩ : ∃ m, j = m + 1 := ⟨j - 1, by omega⟩
    rw [List.drop_succ_cons]
    by_cases h8 : m ≤ 8
    · have hd : ("property=".toList ++ ('"' :: (P.toList ++ ('"' ::
          (" content=\"".toList ++ (v ++ '"' :: '>' :: post)))))).drop m
          = "property=".toList.drop m ++ ('"' :: (P.toList ++ ('"' ::
            (" content=\"".toList ++ (v ++ '"' :: '>' :: post))))) :=
        List.drop_append_of_le_length (by omega)
      rw [hd]
      exact reMatchWF_seg_window (by decide) (by omega) (by omega) _ _ _
    · have hd : ("property=".toList ++ ('"' :: (P.toList ++ ('"' ::
          (" content=\"".toList ++ (v ++ '"' :: '>' :: post)))))).drop m
          = ('"' :: (P.toList ++ ('"' ::
            (" content=\"".toList ++ (v ++ '"' :: '>' :: post))))).drop (m - 9) := by
        rw [drop_append_ge (by omega), hl9]
      rw [hd]
      by_cases h9 : m = 9
      · subst h9
        simp only [Nat.sub_self, List.drop_zero]
        exact reMatchWF_lit_head_ne rfl (by decide) _ _ _
      · obtain ⟨m2, hm2⟩ : ∃ m2, m - 9 = m2 + 1 := ⟨m - 10, by omega⟩
        rw [hm2, List.drop_succ_cons]
        by_cases hP : m2 ≤ P.toList.length
        · have hd2 : (P.toList ++ ('"' :: (" content=\"".toList ++
              (v ++ '"' :: '>' :: post)))).drop m2
              = P.toList.drop m2 ++ ('"' :: (" content=\"".toList ++
                (v ++ '"' :: '>' :: post))) :=
            List.drop_append_of_le_length hP
          rw [hd2]
          exact reMatchWF_value_window (by decide) (by decide) _ _ _ _
            (fun c hc => hPmem c (List.drop_subset _ _ hc))
        · have hd2 : (P.toList ++ ('"' :: (" content=\"".toList ++
              (v ++ '"' :: '>' :: post)))).drop m2
              = ('"' :: (" content=\"".toList ++
                (v ++ '"' :: '>' :: post))).drop (m2 - P.toList.length) := by
            rw [drop_append_ge (by omega)]
          rw [hd2]
          obtain ⟨m3, hm3⟩ : ∃ m3, m2 - P.toList.length = m3 + 1 :=
            ⟨m2 - P.toList.length - 1, by omega⟩
          rw [hm3, List.drop_succ_cons]
          by_cases hc0 : m3 = 0
          · subst hc0
            rw [List.drop_zero]
            have hsp : (" content=\"".toList ++ (v ++ '"' :: '>' :: post))
                = ' ' :: ("content=\"".toList ++ (v ++ '"' :: '>' :: post)) := rfl
            rw [hsp]
            exact reMatchWF_lit_head_ne rfl (by decide) _ _ _
          · by_cases hc9 : m3 ≤ 9
            · have hd3 : (" content=\"".toList ++ (v ++ '"' :: '>' :: post)).drop m3
                  = " content=\"".toList.drop m3 ++ (v ++ '"' :: '>' :: post) :=
                List.drop_append_of_le_length (by omega)
              rw [hd3]
              exact reMatchWF_seg_window (by decide) (by omega) (by omega) _ _ _
            · have hd3 : (" content=\"".toList ++ (v ++ '"' :: '>' :: post)).drop m3
                  = (v ++ '"' :: '>' :: post).drop (m3 - 10) := by
                rw [drop_append_ge (by omega), hl10]
              rw [hd3]
              by_cases hvz : m3 - 10 ≤ v.length
              · have hd4 : (v ++ '"' :: '>' :: post).drop (m3 - 10)
                    = v.drop (m3 - 10) ++ '"' :: '>' :: post :=
                  List.drop_append_of_le_length hvz
                rw [hd4]
                exact reMatchWF_value_window (by decide) (by decide) _ _ _ _
                  (fun c hc => ⟨(hv c (List.drop_subset _ _ hc)).2.2.2,
                    (hv c (List.drop_subset _ _ hc)).1⟩)
              · have hd4 : (v ++ '"' :: '>' :: post).drop (m3 - 10)
                    = '>' :: post := by
                  rw [drop_append_ge (by omega)]
                  have hidx : m3 - 10 - v.length = 1 := by omega
                  rw [hidx]
                  rfl
                rw [hd4]
                exact reMatchWF_lit_head_ne rfl (by decide) _ _ _
  apply tryLensWF_one_some
  rw [List.drop_succ_cons, List.drop_zero,
    reMatchWF_lit_starts (listStarts_self_append _ _), List.drop_left,
    reMatchWF_anyOf_mem (by decide),
    reMatchWF_lit_starts (listStarts_self_append _ _), List.drop_left,
    reMatchWF_anyOf_mem (by decide)]
  exact gap2_content v post cap hvne hv

/-- `re.search` with a property-first pattern over a page holding one
property-first meta tag: it returns the tag's content value. -/
theorem reSearch_propFirst_hit (P : String) (v preL postL : List Char)
    (hpre : ∀ c ∈ preL, c ≠ '<') (hvne : v ≠ [])
    (hv : ∀ c ∈ v, c ≠ '"' ∧ c ≠ '\'' ∧ c ≠ '>' ∧ c ≠ '=')
    (hPe : '=' ∉ P.toList) (hPq : '"' ∉ P.toList) (hPgt : '>' ∉ P.toList) :
    reSearch (propFirst P)
      (preL ++ ("<meta".toList ++ (' ' :: ("property=".toList ++ ('"' ::
        (P.toList ++ ('"' :: (" content=\"".toList
          ++ (v ++ '"' :: '>' :: postL)))))))))
      = some (String.mk v) := by
  have hpat : propFirst P = RE.lit "<meta" :: RE.cls ['>'] :: RE.lit "property=" ::
      RE.anyOf ['"', '\''] :: RE.lit P :: RE.anyOf ['"', '\''] :: RE.cls ['>'] ::
      RE.lit "content=" :: RE.anyOf ['"', '\''] :: RE.grp ['"', '\''] ::
      RE.anyOf ['"', '\''] :: [] := rfl
  rw [hpat, reSearch_skip _ _ _ hpre]
  have hm : reMatchWF (RE.lit "<meta" :: RE.cls ['>'] :: RE.lit "property=" ::
      RE.anyOf ['"', '\''] :: RE.lit P :: RE.anyOf ['"', '\''] :: RE.cls ['>'] ::
      RE.lit "content=" :: RE.anyOf ['"', '\''] :: RE.grp ['"', '\''] ::
      RE.anyOf ['"', '\''] :: [])
      ("<meta".toList ++ (' ' :: ("property=".toList ++ ('"' ::
        (P.toList ++ ('"' :: (" content=\"".toList
          ++ (v ++ '"' :: '>' :: postL))))))))
      none = some (some (String.mk v)) := by
    rw [reMatchWF_lit_starts (listStarts_self_append _ _), List.drop_left]
    exact gap1_propFirst P v postL none hvne hv hPe hPq hPgt
  rw [reSearch_head_some hm]
  rfl

/-- The trailing `[^>]+property=["']P["']` of a content-first pattern,
entered right after the content attribute: it matches within the tag
and preserves the capture. -/
theorem gap3_propAttr (P : String) (postL : List Char) (cap : Option String)
    (hPe : '=' ∉ P.toList) (hPq : '"' ∉ P.toList) (hPgt : '>' ∉ P.toList) :
    reMatchWF (RE.cls ['>'] :: RE.lit "property=" :: RE.anyOf ['"', '\''] ::
        RE.lit P :: RE.anyOf ['"', '\''] :: [])
      (' ' :: ("property=".toList ++ ('"' :: (P.toList ++ ('"' :: '>' :: postL)))))
      cap = some cap := by
  have hl9 : ("property=".toList).length = 9 := by decide
  have hPmem : ∀ c ∈ P.toList, c ≠ '=' ∧ c ≠ '"' := fun c hc =>
    ⟨fun he => hPe (he ▸ hc), fun hq => hPq (hq ▸ hc)⟩
  have hPgt' : ∀ c ∈ P.toList, c ∉ (['>'] : List Char) := fun c hc hm =>
    hPgt ((List.mem_singleton.mp hm) ▸ hc)
  have hmB : maxRun ['>'] ('"' :: '>' :: postL) = 1 := by simp [maxRun]
  have hk : maxRun ['>'] (' ' :: ("property=".toList ++ ('"' ::
      (P.toList ++ ('"' :: '>' :: postL))))) = 12 + P.toList.length := by
    rw [maxRun_cons_notMem (by decide), maxRun_append_notin _ _ (by decide),
      maxRun_cons_notMem (by decide), maxRun_append_notin _ _ hPgt', hmB, hl9]
    omega
  rw [reMatchWF_cls, hk]
  rw [tryLensWF_eq_low _ _ _ (12 + P.toList.length) 1 (by omega) ?fail]
  case fail =>
    intro j hj1 hj2
    obtain ⟨m, rfl⟩ : ∃ m, j = m + 1 := ⟨j - 1, by omega⟩
    rw [List.drop_succ_cons]
    by_cases h8 : m ≤ 8
    · have hd : ("property=".toList ++ ('"' :: (P.toList ++ ('"' :: '>' :: postL)))).drop m
          = "property=".toList.drop m ++ ('"' :: (P.toList ++ ('"' :: '>' :: postL))) :=
        List.drop_append_of_le_length (by omega)
      rw [hd]
      exact reMatchWF_seg_window (by decide) (by omega) (by omega) _ _ _
    · have hd : ("property=".toList ++ ('"' :: (P.toList ++ ('"' :: '>' :: postL)))).drop m
          = ('"' :: (P.toList ++ ('"' :: '>' :: postL))).drop (m - 9) := by
        rw [drop_append_ge (by omega), hl9]
      rw [hd]
      by_cases h9 : m = 9
      · subst h9
        simp only [Nat.sub_self, List.drop_zero]
        exact reMatchWF_lit_head_ne rfl (by decide) _ _ _
      · obtain ⟨m2, hm2⟩ : ∃ m2, m - 9 = m2 + 1 := ⟨m - 10, by omega⟩
        rw [hm2, List.drop_succ_cons]
        by_cases hP : m2 ≤ P.toList.length
        · have hd2 : (P.toList ++ ('"' :: '>' :: postL)).drop m2
              = P.toList.drop m2 ++ ('"' :: '>' :: postL) :=
            List.drop_append_of_le_length hP
          rw [hd2]
          exact reMatchWF_value_window (by decide) (by decide) _ _ _ _
            (fun c hc => hPmem c (List.drop_subset _ _ hc))
        · have hd2 : (P.toList ++ ('"' :: '>' :: postL)).drop m2
              = '>' :: postL := by
            rw [drop_append_ge (by omega)]
            have hidx : m2 - P.toList.length = 1 := by omega
            rw [hidx]
            rfl
          rw [hd2]
          exact reMatchWF_lit_head_ne rfl (by decide) _ _ _
  apply tryLensWF_one_some
  rw [List.drop_succ_cons, List.drop_zero,
    reMatchWF_lit_starts (listStarts_self_append _ _), List.drop_left,
    reMatchWF_anyOf_mem (by decide),
    reMatchWF_lit_starts (listStarts_self_append _ _), List.drop_left,
    reMatchWF_anyOf_mem (by decide), reMatchWF_nil]

/-- The whole `[^>]+content=["']([^"']+)["'][^>]+property=["']P["']` tail
of a content-first pattern, entered right after `<meta` on a
content-first tag: it captures exactly the content value. -/
theorem gap1_contentFirst (P : String) (v postL : List Char) (cap : Option String)
    (hvne : v ≠ [])
    (hv : ∀ c ∈ v, c ≠ '"' ∧ c ≠ '\'' ∧ c ≠ '>' ∧ c ≠ '=')
    (hPe : '=' ∉ P.toList) (hPq : '"' ∉ P.toList) (hPgt : '>' ∉ P.toList) :
    reMatchWF (RE.cls ['>'] :: RE.lit "content=" :: RE.anyOf ['"', '\''] ::
        RE.grp ['"', '\''] :: RE.anyOf ['"', '\''] :: RE.cls ['>'] ::
        RE.lit "property=" :: RE.anyOf ['"', '\''] :: RE.lit P ::
        RE.anyOf ['"', '\''] :: [])
      (' ' :: ("content=".toList ++ ('"' :: (v ++ ('"' ::
        (" property=\"".toList ++ (P.toList ++ ('"' :: '>' :: postL)))))))) cap
      = some (some (String.mk v)) := by
  have hl8 : ("content=".toList).length = 8 := by decide
  have hl11 : (" property=\"".toList).length = 11 := by decide
  have hPmem : ∀ c ∈ P.toList, c ≠ '=' ∧ c ≠ '"' := fun c hc =>
    ⟨fun he => hPe (he ▸ hc), fun hq => hPq (hq ▸ hc)⟩
  have hPgt' : ∀ c ∈ P.toList, c ∉ (['>'] : List Char) := fun c hc hm =>
    hPgt ((List.mem_singleton.mp hm) ▸ hc)
  have hvq : ∀ c ∈ v, c ∉ (['"', '\''] : List Char) := by
    intro c hc hm
    rcases List.mem_cons.mp hm with h | h
    · exact (hv c hc).1 h
    · exact (hv c hc).2.1 (by simpa using h)
  have hvgt : ∀ c ∈ v, c ∉ (['>'] : List Char) := fun c hc hm =>
    (hv c hc).2.2.1 (List.mem_singleton.mp hm)
  have hmB : maxRun ['>'] ('"' :: '>' :: postL) = 1 := by simp [maxRun]
  have hk : maxRun ['>'] (' ' :: ("content=".toList ++ ('"' :: (v ++ ('"' ::
      (" property=\"".toList ++ (P.toList ++ ('"' :: '>' :: postL))))))))
      = 23 + v.length + P.toList.length := by
    rw [maxRun_cons_notMem (by decide), maxRun_append_notin _ _ (by decide),
      maxRun_cons_notMem (by decide), maxRun_append_notin _ _ hvgt,
      maxRun_cons_notMem (by decide), maxRun_append_notin _ _ (by decide),
      maxRun_append_notin _ _ hPgt', hmB, hl8, hl11]
    omega
  rw [reMatchWF_cls, hk]
  rw [tryLensWF_eq_low _ _ _ (23 + v.length + P.toList.length) 1 (by omega) ?fail]
  case fail =>
    intro j hj1 hj2
    obtain ⟨m, rfl⟩ : ∃ m, j = m + 1 := ⟨j - 1, by omega⟩
    rw [List.drop_succ_cons]
    by_cases h7 : m ≤ 7
    · have hd : ("content=".toList ++ ('"' :: (v ++ ('"' ::
          (" property=\"".toList ++ (P.toList ++ ('"' :: '>' :: postL))))))).drop m
          = "content=".toList.drop m ++ ('"' :: (v ++ ('"' ::
            (" property=\"".toList ++ (P.toList ++ ('"' :: '>' :: postL)))))) :=
        List.drop_append_of_le_length (by omega)
      rw [hd]
      exact reMatchWF_seg_window (by decide) (by omega) (by omega) _ _ _
    · have hd : ("content=".toList ++ ('"' :: (v ++ ('"' ::
          (" property=\"".toList ++ (P.toList ++ ('"' :: '>' :: postL))))))).drop m
          = ('"' :: (v ++ ('"' :: (" property=\"".toList ++
            (P.toList ++ ('"' :: '>' :: postL)))))).drop (m - 8) := by
        rw [drop_append_ge (by omega), hl8]
      rw [hd]
      by_cases h8 : m = 8
      · subst h8
        simp only [Nat.sub_self, List.drop_zero]
        exact reMatchWF_lit_head_ne rfl (by decide) _ _ _
      · obtain ⟨m2, hm2⟩ : ∃ m2, m - 8 = m2 + 1 := ⟨m - 9, by omega⟩
        rw [hm2, List.drop_succ_cons]
        by_cases hV : m2 ≤ v.length
        · have hd2 : (v ++ ('"' :: (" property=\"".toList ++
              (P.toList ++ ('"' :: '>' :: postL))))).drop m2
              = v.drop m2 ++ ('"' :: (" property=\"".toList ++
                (P.toList ++ ('"' :: '>' :: postL)))) :=
            List.drop_append_of_le_length hV
          rw [hd2]
          exact reMatchWF_value_window (by decide) (by decide) _ _ _ _
            (fun c hc => ⟨(hv c (List.drop_subset _ _ hc)).2.2.2,
              (hv c (List.drop_subset _ _ hc)).1⟩)
        · have hd2 : (v ++ ('"' :: (" property=\"".toList ++
              (P.toList ++ ('"' :: '>' :: postL))))).drop m2
              = ('"' :: (" property=\"".toList ++
                (P.toList ++ ('"' :: '>' :: postL)))).drop (m2 - v.length) := by
            rw [drop_append_ge (by omega)]
          rw [hd2]
          by_cases hq2 : m2 - v.length = 1
          · rw [hq2]
            have hq3 : (('"' :: (" property=\"".toList ++
                (P.toList ++ ('"' :: '>' :: postL)))) : List Char).drop 1
                = ' ' :: ("property=\"".toList ++
                  (P.toList ++ ('"' :: '>' :: postL))) := rfl
            rw [hq3]
            exact reMatchWF_lit_head_ne rfl (by decide) _ _ _
          · obtain ⟨m3, hm3⟩ : ∃ m3, m2 - v.length = m3 + 2 :=
              ⟨m2 - v.length - 2, by omega⟩
            rw [hm3, List.drop_succ_cons]
            by_cases hS : m3 + 1 ≤ 10
            · have hd3 : (" property=\"".toList ++
                  (P.toList ++ ('"' :: '>' :: postL))).drop (m3 + 1)
                  = " property=\"".toList.drop (m3 + 1) ++
                    (P.toList ++ ('"' :: '>' :: postL)) :=
                List.drop_append_of_le_length (by omega)
              rw [hd3]
              exact reMatchWF_seg_window (by decide) (by omega) (by omega) _ _ _
            · have hd3 : (" property=\"".toList ++
                  (P.toList ++ ('"' :: '>' :: postL))).drop (m3 + 1)
                  = (P.toList ++ ('"' :: '>' :: postL)).drop (m3 + 1 - 11) := by
                rw [drop_append_ge (by omega), hl11]
              rw [hd3]
              by_cases hP : m3 + 1 - 11 ≤ P.toList.length
              · have hd4 : (P.toList ++ ('"' :: '>' :: postL)).drop (m3 + 1 - 11)
                    = P.toList.drop (m3 + 1 - 11) ++ ('"' :: '>' :: postL) :=
                  List.drop_append_of_le_length hP
                rw [hd4]
                exact reMatchWF_value_window (by decide) (by decide) _ _ _ _
                  (fun c hc => hPmem c (List.drop_subset _ _ hc))
              · have hd4 : (P.toList ++ ('"' :: '>' :: postL)).drop (m3 + 1 - 11)
                    = '>' :: postL := by
                  rw [drop_append_ge (by omega)]
                  have hidx : m3 + 1 - 11 - P.toList.length = 1 := by omega
                  rw [hidx]
                  rfl
                rw [hd4]
                exact reMatchWF_lit_head_ne rfl (by decide) _ _ _
  obtain ⟨n, hn⟩ : ∃ n, v.length = n + 1 := by
    cases v with
    | nil => exact absurd rfl hvne
    | cons a as => exact ⟨as.length, rfl⟩
  have hmv : maxRun ['"', '\''] (v ++ ('"' :: (" property=\"".toList ++
      (P.toList ++ ('"' :: '>' :: postL))))) = v.length := by
    rw [maxRun_append_notin _ _ hvq, maxRun_cons_mem (by decide)]
    omega
  apply tryLensWF_one_some
  rw [List.drop_succ_cons, List.drop_zero,
    reMatchWF_lit_starts (listStarts_self_append _ _), List.drop_left,
    reMatchWF_anyOf_mem (by decide), reMatchWF_grp, hmv, hn]
  apply tryCapsWF_succ_some
  rw [← hn]
  rw [List.drop_left v _, List.take_left v _, reMatchWF_anyOf_mem (by decide)]
  exact gap3_propAttr P postL _ hPe hPq hPgt

/-- `re.search` with a content-first pattern over a page holding one
content-first meta tag: it returns the tag's content value. -/
theorem reSearch_contentFirst_hit (P : String) (v preL postL : List Char)
    (hpre : ∀ c ∈ preL, c ≠ '<') (hvne : v ≠ [])
    (hv : ∀ c ∈ v, c ≠ '"' ∧ c ≠ '\'' ∧ c ≠ '>' ∧ c ≠ '=')
    (hPe : '=' ∉ P.toList) (hPq : '"' ∉ P.toList) (hPgt : '>' ∉ P.toList) :
    reSearch (contentFirst P)
      (preL ++ ("<meta".toList ++ (' ' :: ("content=".toList ++ ('"' ::
        (v ++ ('"' :: (" property=\"".toList
          ++ (P.toList ++ ('"' :: '>' :: postL))))))))))
      = some (String.mk v) := by
  have hpat : contentFirst P = RE.lit "<meta" :: RE.cls ['>'] :: RE.lit "content=" ::
      RE.anyOf ['"', '\''] :: RE.grp ['"', '\''] :: RE.anyOf ['"', '\''] ::
      RE.cls ['>'] :: RE.lit "property=" :: RE.anyOf ['"', '\''] :: RE.lit P ::
      RE.anyOf ['"', '\''] :: [] := rfl
  rw [hpat, reSearch_skip _ _ _ hpre]
  have hm : reMatchWF (RE.lit "<meta" :: RE.cls ['>'] :: RE.lit "content=" ::
      RE.anyOf ['"', '\''] :: RE.grp ['"', '\''] :: RE.anyOf ['"', '\''] ::
      RE.cls ['>'] :: RE.lit "property=" :: RE.anyOf ['"', '\''] :: RE.lit P ::
      RE.anyOf ['"', '\''] :: [])
      ("<meta".toList ++ (' ' :: ("content=".toList ++ ('"' ::
        (v ++ ('"' :: (" property=\"".toList
          ++ (P.toList ++ ('"' :: '>' :: postL)))))))))
      none = some (some (String.mk v)) := by
    rw [reMatchWF_lit_starts (listStarts_self_append _ _), List.drop_left]
    exact gap1_contentFirst P v postL none hvne hv hPe hPq hPgt
  rw [reSearch_head_some hm]
  rfl

-- ── Failure of the order-sensitive patterns on content-first tags ────

/-- Character-set side conditions, decided on the concrete segments. -/
theorem chars_ne {l : List Char} {d : Char} (h : l.all (fun c => c != d) = true) :
    ∀ c ∈ l, c ≠ d := by
  intro c hc
  simpa using List.all_eq_true.mp h c hc

theorem forall_ne_append {l₁ l₂ : List Char} {d : Char} (h₁ : ∀ c ∈ l₁, c ≠ d)
    (h₂ : ∀ c ∈ l₂, c ≠ d) : ∀ c ∈ l₁ ++ l₂, c ≠ d := by
  intro c hc
  rcases List.mem_append.mp hc with h | h
  · exact h₁ c h
  · exact h₂ c h

theorem forall_ne_cons {c₀ d : Char} {l : List Char} (h₀ : c₀ ≠ d)
    (h : ∀ c ∈ l, c ≠ d) : ∀ c ∈ c₀ :: l, c ≠ d := by
  intro c hc
  rcases List.mem_cons.mp hc with h' | h'
  · exact h' ▸ h₀
  · exact h c h'

/-- The matcher failing at the scan's position, the scan moves one
character right. -/
theorem reSearch_cons_none {Q : List RE} {c : Char} {cs : List Char}
    (h : reMatchWF (RE.lit "<meta" :: Q) (c :: cs) none = none) :
    reSearch (RE.lit "<meta" :: Q) (c :: cs) = reSearch (RE.lit "<meta" :: Q) cs := by
  simp only [reSearch]
  rw [reMatch_fuelFor, h]

/-- Both branch literals mismatching the head character, the
alternation-headed pattern fails. -/
theorem reMatchWF_altLit_head_ne {X₁ X₂ : String} {p₁ p₂ : Char}
    {ps₁ ps₂ : List Char} (h1 : X₁.toList = p₁ :: ps₁) (h2 : X₂.toList = p₂ :: ps₂)
    {c : Char} (hc1 : p₁ ≠ c) (hc2 : p₂ ≠ c) (rest : List RE) (t : List Char)
    (cap : Option String) :
    reMatchWF (RE.alt [RE.lit X₁] [RE.lit X₂] :: rest) (c :: t) cap = none := by
  apply reMatchWF_alt_none
  · exact reMatchWF_lit_head_ne h1 hc1 _ _ _
  · exact reMatchWF_lit_head_ne h2 hc2 _ _ _

/-- The `[^>]+property=["']P["'][^>]+content=["'](…)["']` tail of a
property-first pattern finds no window on a content-first tag: every
start offset inside the tag fails, the aligned `property=` window
dying on the closing `>` where the pattern still requires `[^>]+`. -/
theorem gap1_propFirst_cfTag_none (P : String) (v postL : List Char)
    (hv : ∀ c ∈ v, c ≠ '"' ∧ c ≠ '\'' ∧ c ≠ '>' ∧ c ≠ '=')
    (hPe : '=' ∉ P.toList) (hPq : '"' ∉ P.toList) (hPgt : '>' ∉ P.toList) :
    reMatchWF (RE.cls ['>'] :: RE.lit "property=" :: RE.anyOf ['"', '\''] ::
        RE.lit P :: RE.anyOf ['"', '\''] :: RE.cls ['>'] :: RE.lit "content=" ::
        RE.anyOf ['"', '\''] :: RE.grp ['"', '\''] :: RE.anyOf ['"', '\''] :: [])
      (' ' :: ("content=".toList ++ ('"' :: (v ++ ('"' ::
        (" property=\"".toList ++ (P.toList ++ ('"' :: '>' :: postL)))))))) none
      = none := by
  have hl8 : ("content=".toList).length = 8 := by decide
  have hl11 : (" property=\"".toList).length = 11 := by decide
  have hPmem : ∀ c ∈ P.toList, c ≠ '=' ∧ c ≠ '"' := fun c hc =>
    ⟨fun he => hPe (he ▸ hc), fun hq => hPq (hq ▸ hc)⟩
  have hPgt' : ∀ c ∈ P.toList, c ∉ (['>'] : List Char) := fun c hc hm =>
    hPgt ((List.mem_singleton.mp hm) ▸ hc)
  have hvgt : ∀ c ∈ v, c ∉ (['>'] : List Char) := fun c hc hm =>
    (hv c hc).2.2.1 (List.mem_singleton.mp hm)
  have hmB : maxRun ['>'] ('"' :: '>' :: postL) = 1 := by simp [maxRun]
  have hk : maxRun ['>'] (' ' :: ("content=".toList ++ ('"' :: (v ++ ('"' ::
      (" property=\"".toList ++ (P.toList ++ ('"' :: '>' :: postL))))))))
      = 23 + v.length + P.toList.length := by
    rw [maxRun_cons_notMem (by decide), maxRun_append_notin _ _ (by decide),
      maxRun_cons_notMem (by decide), maxRun_append_notin _ _ hvgt,
      maxRun_cons_notMem (by decide), maxRun_append_notin _ _ (by decide),
      maxRun_append_notin _ _ hPgt', hmB, hl8, hl11]
    omega
  rw [reMatchWF_cls, hk]
  apply tryLensWF_none
  intro j hj1 hj2
  obtain ⟨m, rfl⟩ : ∃ m, j = m + 1 := ⟨j - 1, by omega⟩
  rw [List.drop_succ_cons]
  by_cases h0 : m = 0
  · subst h0
    rw [List.drop_zero]
    exact reMatchWF_lit_failsIn (by decide) _ _ _
  · by_cases h7 : m ≤ 7
    · have hd : ("content=".toList ++ ('"' :: (v ++ ('"' ::
          (" property=\"".toList ++ (P.toList ++ ('"' :: '>' :: postL))))))).drop m
          = "content=".toList.drop m ++ ('"' :: (v ++ ('"' ::
            (" property=\"".toList ++ (P.toList ++ ('"' :: '>' :: postL)))))) :=
        List.drop_append_of_le_length (by omega)
      rw [hd]
      exact reMatchWF_seg_window (by decide) (by omega) (by omega) _ _ _
    · have hd : ("content=".toList ++ ('"' :: (v ++ ('"' ::
          (" property=\"".toList ++ (P.toList ++ ('"' :: '>' :: postL))))))).drop m
          = ('"' :: (v ++ ('"' :: (" property=\"".toList ++
            (P.toList ++ ('"' :: '>' :: postL)))))).drop (m - 8) := by
        rw [drop_append_ge (by omega), hl8]
      rw [hd]
      by_cases h8 : m = 8
      · subst h8
        simp only [Nat.sub_self, List.drop_zero]
        exact reMatchWF_lit_head_ne rfl (by decide) _ _ _
      · obtain ⟨m2, hm2⟩ : ∃ m2, m - 8 = m2 + 1 := ⟨m - 9, by omega⟩
        rw [hm2, List.drop_succ_cons]
        by_cases hV : m2 ≤ v.length
        · have hd2 : (v ++ ('"' :: (" property=\"".toList ++
              (P.toList ++ ('"' :: '>' :: postL))))).drop m2
              = v.drop m2 ++ ('"' :: (" property=\"".toList ++
                (P.toList ++ ('"' :: '>' :: postL)))) :=
            List.drop_append_of_le_length hV
          rw [hd2]
          exact reMatchWF_value_window (by decide) (by decide) _ _ _ _
            (fun c hc => ⟨(hv c (List.drop_subset _ _ hc)).2.2.2,
              (hv c (List.drop_subset _ _ hc)).1⟩)
        · have hd2 : (v ++ ('"' :: (" property=\"".toList ++
              (P.toList ++ ('"' :: '>' :: postL))))).drop m2
              = ('"' :: (" property=\"".toList ++
                (P.toList ++ ('"' :: '>' :: postL)))).drop (m2 - v.length) := by
            rw [drop_append_ge (by omega)]
          rw [hd2]
          by_cases hq2 : m2 - v.length = 1
          · rw [hq2]
            have hq3 : (('"' :: (" property=\"".toList ++
                (P.toList ++ ('"' :: '>' :: postL)))) : List Char).drop 1
                = " property=\"".toList ++ (P.toList ++ ('"' :: '>' :: postL)) := rfl
            rw [hq3]
            exact reMatchWF_lit_failsIn (by decide) _ _ _
          · obtain ⟨m3, hm3⟩ : ∃ m3, m2 - v.length = m3 + 2 :=
              ⟨m2 - v.length - 2, by omega⟩
            rw [hm3, List.drop_succ_cons]
            by_cases hA : m3 + 1 = 1
            · rw [hA]
              have hal : (" property=\"".toList ++
                  (P.toList ++ ('"' :: '>' :: postL))).drop 1
                  = "property=".toList ++ ('"' :: (P.toList ++ ('"' :: '>' :: postL))) := rfl
              rw [hal]
              exact reMatchWF_attr_then_cls_stuck "property=" P postL _ none
            · by_cases hS : m3 + 1 ≤ 10
              · have hsp : " property=\"".toList
                    = ' ' :: "property=\"".toList := by decide
                have hd3 : (" property=\"".toList ++
                    (P.toList ++ ('"' :: '>' :: postL))).drop (m3 + 1)
                    = "property=\"".toList.drop m3 ++
                      (P.toList ++ ('"' :: '>' :: postL)) := by
                  rw [List.drop_append_of_le_length (by omega), hsp,
                    List.drop_succ_cons]
                rw [hd3]
                have hlp : ("property=\"".toList).length = 10 := by decide
                exact reMatchWF_seg_window (by decide) (by omega) (by omega) _ _ _
              · have hd3 : (" property=\"".toList ++
                    (P.toList ++ ('"' :: '>' :: postL))).drop (m3 + 1)
                    = (P.toList ++ ('"' :: '>' :: postL)).drop (m3 + 1 - 11) := by
                  rw [drop_append_ge (by omega), hl11]
                rw [hd3]
                by_cases hP : m3 + 1 - 11 ≤ P.toList.length
                · have hd4 : (P.toList ++ ('"' :: '>' :: postL)).drop (m3 + 1 - 11)
                      = P.toList.drop (m3 + 1 - 11) ++ ('"' :: '>' :: postL) :=
                    List.drop_append_of_le_length hP
                  rw [hd4]
                  exact reMatchWF_value_window (by decide) (by decide) _ _ _ _
                    (fun c hc => hPmem c (List.drop_subset _ _ hc))
                · have hd4 : (P.toList ++ ('"' :: '>' :: postL)).drop (m3 + 1 - 11)
                      = '>' :: postL := by
                    rw [drop_append_ge (by omega)]
                    have hidx : m3 + 1 - 11 - P.toList.length = 1 := by omega
                    rw [hidx]
                    rfl
                  rw [hd4]
                  exact reMatchWF_lit_head_ne rfl (by decide) _ _ _

/-- A `<`-free string contains no match for a `<meta` pattern at all. -/
theorem reSearch_all_lt_free (Q : List RE) (a : List Char)
    (h : ∀ c ∈ a, c ≠ '<') : reSearch (RE.lit "<meta" :: Q) a = none := by
  have hs := reSearch_skip Q a [] h
  rw [List.append_nil] at hs
  rw [hs]
  exact reSearch_nil_none Q

/-- `re.search` with a property-first pattern over a page whose only tag
is content-first: no match anywhere. -/
theorem reSearch_propFirst_cfTag_none (P : String) (v preL postL : List Char)
    (hpre : ∀ c ∈ preL, c ≠ '<') (hpost : ∀ c ∈ postL, c ≠ '<')
    (hv : ∀ c ∈ v, c ≠ '"' ∧ c ≠ '\'' ∧ c ≠ '>' ∧ c ≠ '=')
    (hvlt : ∀ c ∈ v, c ≠ '<')
    (hPe : '=' ∉ P.toList) (hPq : '"' ∉ P.toList) (hPgt : '>' ∉ P.toList)
    (hPlt : ∀ c ∈ P.toList, c ≠ '<') :
    reSearch (propFirst P)
      (preL ++ ("<meta".toList ++ (' ' :: ("content=".toList ++ ('"' ::
        (v ++ ('"' :: (" property=\"".toList
          ++ (P.toList ++ ('"' :: '>' :: postL))))))))))
      = none := by
  have hpat : propFirst P = RE.lit "<meta" :: RE.cls ['>'] :: RE.lit "property=" ::
      RE.anyOf ['"', '\''] :: RE.lit P :: RE.anyOf ['"', '\''] :: RE.cls ['>'] ::
      RE.lit "content=" :: RE.anyOf ['"', '\''] :: RE.grp ['"', '\''] ::
      RE.anyOf ['"', '\''] :: [] := rfl
  rw [hpat, reSearch_skip _ _ _ hpre]
  have hm : reMatchWF (RE.lit "<meta" :: RE.cls ['>'] :: RE.lit "property=" ::
      RE.anyOf ['"', '\''] :: RE.lit P :: RE.anyOf ['"', '\''] :: RE.cls ['>'] ::
      RE.lit "content=" :: RE.anyOf ['"', '\''] :: RE.grp ['"', '\''] ::
      RE.anyOf ['"', '\''] :: [])
      ('<' :: ("meta".toList ++ (' ' :: ("content=".toList ++ ('"' ::
        (v ++ ('"' :: (" property=\"".toList
          ++ (P.toList ++ ('"' :: '>' :: postL))))))))))
      none = none := by
    have hm0 : reMatchWF (RE.lit "<meta" :: RE.cls ['>'] :: RE.lit "property=" ::
        RE.anyOf ['"', '\''] :: RE.lit P :: RE.anyOf ['"', '\''] :: RE.cls ['>'] ::
        RE.lit "content=" :: RE.anyOf ['"', '\''] :: RE.grp ['"', '\''] ::
        RE.anyOf ['"', '\''] :: [])
        ("<meta".toList ++ (' ' :: ("content=".toList ++ ('"' ::
          (v ++ ('"' :: (" property=\"".toList
            ++ (P.toList ++ ('"' :: '>' :: postL)))))))))
        none = none := by
      rw [reMatchWF_lit_starts (listStarts_self_append _ _), List.drop_left]
      exact gap1_propFirst_cfTag_none P v postL hv hPe hPq hPgt
    exact hm0
  have hcv : ("<meta".toList ++ (' ' :: ("content=".toList ++ ('"' ::
      (v ++ ('"' :: (" property=\"".toList
        ++ (P.toList ++ ('"' :: '>' :: postL)))))))))
      = '<' :: ("meta".toList ++ (' ' :: ("content=".toList ++ ('"' ::
        (v ++ ('"' :: (" property=\"".toList
          ++ (P.toList ++ ('"' :: '>' :: postL))))))))) := rfl
  rw [hcv, reSearch_cons_none hm]
  apply reSearch_all_lt_free
  exact forall_ne_append (chars_ne (by decide))
    (forall_ne_cons (by decide)
      (forall_ne_append (chars_ne (by decide))
        (forall_ne_cons (by decide)
          (forall_ne_append hvlt
            (forall_ne_cons (by decide)
              (forall_ne_append (chars_ne (by decide))
                (forall_ne_append hPlt
                  (forall_ne_cons (by decide)
                    (forall_ne_cons (by decide) hpost)))))))))

/-- A `name="author"` hit immediately followed by the closing `>`: the
author pattern still requires `[^>]+`, so the window fails. -/
theorem reMatchWF_author_stuck (postL : List Char) (Q : List RE) (cap : Option String) :
    reMatchWF (RE.alt [RE.lit "property"] [RE.lit "name"] :: RE.lit "=" ::
        RE.anyOf ['"', '\''] :: RE.alt [RE.lit "article:author"] [RE.lit "author"] ::
        RE.anyOf ['"', '\''] :: RE.cls ['>'] :: Q)
      ("name".toList ++ ('=' :: ('"' :: ("author".toList ++ ('"' :: '>' :: postL)))))
      cap = none := by
  rw [reMatchWF_alt_second (reMatchWF_lit_failsIn (by decide) _ _ _),
    List.singleton_append,
    reMatchWF_lit_starts (listStarts_self_append _ _), List.drop_left]
  have he : (('=' :: ('"' :: ("author".toList ++ ('"' :: '>' :: postL)))) : List Char)
      = "=".toList ++ ('"' :: ("author".toList ++ ('"' :: '>' :: postL))) := rfl
  rw [he, reMatchWF_lit_starts (listStarts_self_append _ _), List.drop_left,
    reMatchWF_anyOf_mem (by decide),
    reMatchWF_alt_second (reMatchWF_lit_failsIn (by decide) _ _ _),
    List.singleton_append,
    reMatchWF_lit_starts (listStarts_self_append _ _), List.drop_left,
    reMatchWF_anyOf_mem (by decide), reMatchWF_cls, maxRun_cons_mem (by decide)]
  simp [tryLensWF]

/-- The author pattern's tail finds no window on a content-first author
tag: every start offset inside the tag fails, the aligned
`name="author"` window dying on the closing `>`. -/
theorem gap1_author_cfTag_none (v postL : List Char)
    (hv : ∀ c ∈ v, c ≠ '"' ∧ c ≠ '\'' ∧ c ≠ '>' ∧ c ≠ '=') :
    reMatchWF (RE.cls ['>'] :: RE.alt [RE.lit "property"] [RE.lit "name"] :: RE.lit "=" ::
        RE.anyOf ['"', '\''] :: RE.alt [RE.lit "article:author"] [RE.lit "author"] ::
        RE.anyOf ['"', '\''] :: RE.cls ['>'] :: RE.lit "content=" ::
        RE.anyOf ['"', '\''] :: RE.grp ['"', '\''] :: RE.anyOf ['"', '\''] :: [])
      (' ' :: ("content=".toList ++ ('"' :: (v ++ ('"' ::
        (" name=\"author\"".toList ++ ('>' :: postL))))))) none
      = none := by
  have hl8 : ("content=".toList).length = 8 := by decide
  have hl14 : (" name=\"author\"".toList).length = 14 := by decide
  have hvgt : ∀ c ∈ v, c ∉ (['>'] : List Char) := fun c hc hm =>
    (hv c hc).2.2.1 (List.mem_singleton.mp hm)
  have hmB : maxRun ['>'] (('>' :: postL) : List Char) = 0 :=
    maxRun_cons_mem (by decide) _
  have hk : maxRun ['>'] (' ' :: ("content=".toList ++ ('"' :: (v ++ ('"' ::
      (" name=\"author\"".toList ++ ('>' :: postL)))))))
      = 25 + v.length := by
    rw [maxRun_cons_notMem (by decide), maxRun_append_notin _ _ (by decide),
      maxRun_cons_notMem (by decide), maxRun_append_notin _ _ hvgt,
      maxRun_cons_notMem (by decide), maxRun_append_notin _ _ (by decide),
      hmB, hl8, hl14]
    omega
  rw [reMatchWF_cls, hk]
  apply tryLensWF_none
  intro j hj1 hj2
  obtain ⟨m, rfl⟩ : ∃ m, j = m + 1 := ⟨j - 1, by omega⟩
  rw [List.drop_succ_cons]
  by_cases h0 : m = 0
  · subst h0
    rw [List.drop_zero]
    exact reMatchWF_altLit_failsIn (by decide) (by decide) _ _ _
  · by_cases h7 : m ≤ 7
    · have hd : ("content=".toList ++ ('"' :: (v ++ ('"' ::
          (" name=\"author\"".toList ++ ('>' :: postL)))))).drop m
          = "content=".toList.drop m ++ ('"' :: (v ++ ('"' ::
            (" name=\"author\"".toList ++ ('>' :: postL))))) :=
        List.drop_append_of_le_length (by omega)
      rw [hd]
      exact reMatchWF_altSeg_window (by decide) (by decide) (by omega) (by omega) _ _ _
    · have hd : ("content=".toList ++ ('"' :: (v ++ ('"' ::
          (" name=\"author\"".toList ++ ('>' :: postL)))))).drop m
          = ('"' :: (v ++ ('"' :: (" name=\"author\"".toList ++
            ('>' :: postL))))).drop (m - 8) := by
        rw [drop_append_ge (by omega), hl8]
      rw [hd]
      by_cases h8 : m = 8
      · subst h8
        simp only [Nat.sub_self, List.drop_zero]
        exact reMatchWF_altLit_head_ne rfl rfl (by decide) (by decide) _ _ _
      · obtain ⟨m2, hm2⟩ : ∃ m2, m - 8 = m2 + 1 := ⟨m - 9, by omega⟩
        rw [hm2, List.drop_succ_cons]
        by_cases hV : m2 ≤ v.length
        · have hd2 : (v ++ ('"' :: (" name=\"author\"".toList ++
              ('>' :: postL)))).drop m2
              = v.drop m2 ++ ('"' :: (" name=\"author\"".toList ++
                ('>' :: postL))) :=
            List.drop_append_of_le_length hV
          rw [hd2]
          exact reMatchWF_altLit_value_window (by decide) (by decide) _ _ _ _
            (fun c hc => ⟨(hv c (List.drop_subset _ _ hc)).2.2.2,
              (hv c (List.drop_subset _ _ hc)).1⟩)
        · have hd2 : (v ++ ('"' :: (" name=\"author\"".toList ++
              ('>' :: postL)))).drop m2
              = ('"' :: (" name=\"author\"".toList ++
                ('>' :: postL))).drop (m2 - v.length) := by
            rw [drop_append_ge (by omega)]
          rw [hd2]
          by_cases hq2 : m2 - v.length = 1
          · rw [hq2]
            have hq3 : (('"' :: (" name=\"author\"".toList ++ ('>' :: postL))) :
                List Char).drop 1
                = " name=\"author\"".toList ++ ('>' :: postL) := rfl
            rw [hq3]
            exact reMatchWF_altLit_failsIn (by decide) (by decide) _ _ _
          · obtain ⟨m3, hm3⟩ : ∃ m3, m2 - v.length = m3 + 2 :=
              ⟨m2 - v.length - 2, by omega⟩
            rw [hm3, List.drop_succ_cons]
            by_cases hA : m3 + 1 = 1
            · rw [hA]
              have hal : (" name=\"author\"".toList ++ ('>' :: postL)).drop 1
                  = "name".toList ++ ('=' :: ('"' :: ("author".toList ++
                    ('"' :: '>' :: postL)))) := rfl
              rw [hal]
              exact reMatchWF_author_stuck postL _ none
            · by_cases hS : m3 + 1 ≤ 13
              · have hsp : " name=\"author\"".toList
                    = ' ' :: "name=\"author\"".toList := by decide
                have hd3 : (" name=\"author\"".toList ++ ('>' :: postL)).drop (m3 + 1)
                    = "name=\"author\"".toList.drop m3 ++ ('>' :: postL) := by
                  rw [List.drop_append_of_le_length (by omega), hsp,
                    List.drop_succ_cons]
                rw [hd3]
                have hlp : ("name=\"author\"".toList).length = 13 := by decide
                exact reMatchWF_altSeg_window (by decide) (by decide)
                  (by omega) (by omega) _ _ _
              · have hd3 : (" name=\"author\"".toList ++ ('>' :: postL)).drop (m3 + 1)
                    = '>' :: postL := by
                  rw [drop_append_ge (by omega), hl14]
                  have hidx : m3 + 1 - 14 = 0 := by omega
                  rw [hidx]
                  rfl
                rw [hd3]
                exact reMatchWF_altLit_head_ne rfl rfl (by decide) (by decide) _ _ _

/-- `re.search` with the author pattern over a page whose author tag is
content-first: no match anywhere. -/
theorem reSearch_author_cfTag_none (v preL postL : List Char)
    (hpre : ∀ c ∈ preL, c ≠ '<') (hpost : ∀ c ∈ postL, c ≠ '<')
    (hv : ∀ c ∈ v, c ≠ '"' ∧ c ≠ '\'' ∧ c ≠ '>' ∧ c ≠ '=')
    (hvlt : ∀ c ∈ v, c ≠ '<') :
    reSearch authorPat
      (preL ++ ("<meta".toList ++ (' ' :: ("content=".toList ++ ('"' ::
        (v ++ ('"' :: (" name=\"author\"".toList ++ ('>' :: postL)))))))))
      = none := by
  have hpat : authorPat = RE.lit "<meta" :: RE.cls ['>'] ::
      RE.alt [RE.lit "property"] [RE.lit "name"] :: RE.lit "=" ::
      RE.anyOf ['"', '\''] :: RE.alt [RE.lit "article:author"] [RE.lit "author"] ::
      RE.anyOf ['"', '\''] :: RE.cls ['>'] :: RE.lit "content=" ::
      RE.anyOf ['"', '\''] :: RE.grp ['"', '\''] :: RE.anyOf ['"', '\''] :: [] := rfl
  rw [hpat, reSearch_skip _ _ _ hpre]
  have hm : reMatchWF (RE.lit "<meta" :: RE.cls ['>'] ::
      RE.alt [RE.lit "property"] [RE.lit "name"] :: RE.lit "=" ::
      RE.anyOf ['"', '\''] :: RE.alt [RE.lit "article:author"] [RE.lit "author"] ::
      RE.anyOf ['"', '\''] :: RE.cls ['>'] :: RE.lit "content=" ::
      RE.anyOf ['"', '\''] :: RE.grp ['"', '\''] :: RE.anyOf ['"', '\''] :: [])
      ('<' :: ("meta".toList ++ (' ' :: ("content=".toList ++ ('"' ::
        (v ++ ('"' :: (" name=\"author\"".toList ++ ('>' :: postL)))))))))
      none = none := by
    have hm0 : reMatchWF (RE.lit "<meta" :: RE.cls ['>'] ::
        RE.alt [RE.lit "property"] [RE.lit "name"] :: RE.lit "=" ::
        RE.anyOf ['"', '\''] :: RE.alt [RE.lit "article:author"] [RE.lit "author"] ::
        RE.anyOf ['"', '\''] :: RE.cls ['>'] :: RE.lit "content=" ::
        RE.anyOf ['"', '\''] :: RE.grp ['"', '\''] :: RE.anyOf ['"', '\''] :: [])
        ("<meta".toList ++ (' ' :: ("content=".toList ++ ('"' ::
          (v ++ ('"' :: (" name=\"author\"".toList ++ ('>' :: postL))))))))
        none = none := by
      rw [reMatchWF_lit_starts (listStarts_self_append _ _), List.drop_left]
      exact gap1_author_cfTag_none v postL hv
    exact hm0
  have hcv : ("<meta".toList ++ (' ' :: ("content=".toList ++ ('"' ::
      (v ++ ('"' :: (" name=\"author\"".toList ++ ('>' :: postL))))))))
      = '<' :: ("meta".toList ++ (' ' :: ("content=".toList ++ ('"' ::
        (v ++ ('"' :: (" name=\"author\"".toList ++ ('>' :: postL)))))))) := rfl
  rw [hcv, reSearch_cons_none hm]
  apply reSearch_all_lt_free
  exact forall_ne_append (chars_ne (by decide))
    (forall_ne_cons (by decide)
      (forall_ne_append (chars_ne (by decide))
        (forall_ne_cons (by decide)
          (forall_ne_append hvlt
            (forall_ne_cons (by decide)
              (forall_ne_append (chars_ne (by decide))
                (forall_ne_cons (by decide) hpost)))))))

/-- The author pattern's tail on a property-first (`name="author"` then
`content="…"`) tag, entered right after `<meta`: it captures exactly
the content value. -/
theorem gap1_author_pfTag_hit (v postL : List Char) (cap : Option String)
    (hvne : v ≠ [])
    (hv : ∀ c ∈ v, c ≠ '"' ∧ c ≠ '\'' ∧ c ≠ '>' ∧ c ≠ '=') :
    reMatchWF (RE.cls ['>'] :: RE.alt [RE.lit "property"] [RE.lit "name"] :: RE.lit "=" ::
        RE.anyOf ['"', '\''] :: RE.alt [RE.lit "article:author"] [RE.lit "author"] ::
        RE.anyOf ['"', '\''] :: RE.cls ['>'] :: RE.lit "content=" ::
        RE.anyOf ['"', '\''] :: RE.grp ['"', '\''] :: RE.anyOf ['"', '\''] :: [])
      (' ' :: ("name".toList ++ ('=' :: ('"' :: ("author".toList ++ ('"' ::
        (" content=\"".toList ++ (v ++ '"' :: '>' :: postL)))))))) cap
      = some (some (String.mk v)) := by
  have hl4 : ("name".toList).length = 4 := by decide
  have hl6 : ("author".toList).length = 6 := by decide
  have hl10 : (" content=\"".toList).length = 10 := by decide
  have hvgt : ∀ c ∈ v, c ∉ (['>'] : List Char) := fun c hc hm =>
    (hv c hc).2.2.1 (List.mem_singleton.mp hm)
  have hmB : maxRun ['>'] ('"' :: '>' :: postL) = 1 := by simp [maxRun]
  have hk : maxRun ['>'] (' ' :: ("name".toList ++ ('=' :: ('"' ::
      ("author".toList ++ ('"' :: (" content=\"".toList ++
        (v ++ '"' :: '>' :: postL)))))))) = 25 + v.length := by
    rw [maxRun_cons_notMem (by decide), maxRun_append_notin _ _ (by decide),
      maxRun_cons_notMem (by decide), maxRun_cons_notMem (by decide),
      maxRun_append_notin _ _ (by decide), maxRun_cons_notMem (by decide),
      maxRun_append_notin _ _ (by decide), maxRun_append_notin _ _ hvgt,
      hmB, hl4, hl6, hl10]
    omega
  rw [reMatchWF_cls, hk]
  rw [tryLensWF_eq_low _ _ _ (25 + v.length) 1 (by omega) ?fail]
  case fail =>
    intro j hj1 hj2
    obtain ⟨m, rfl⟩ : ∃ m, j = m + 1 := ⟨j - 1, by omega⟩
    rw [List.drop_succ_cons]
    by_cases h3 : m ≤ 3
    · have hd : ("name".toList ++ ('=' :: ('"' :: ("author".toList ++ ('"' ::
          (" content=\"".toList ++ (v ++ '"' :: '>' :: postL))))))).drop m
          = "name".toList.drop m ++ ('=' :: ('"' :: ("author".toList ++ ('"' ::
            (" content=\"".toList ++ (v ++ '"' :: '>' :: postL)))))) :=
        List.drop_append_of_le_length (by omega)
      rw [hd]
      exact reMatchWF_altSeg_window (by decide) (by decide) (by omega) (by omega) _ _ _
    · have hd : ("name".toList ++ ('=' :: ('"' :: ("author".toList ++ ('"' ::
          (" content=\"".toList ++ (v ++ '"' :: '>' :: postL))))))).drop m
          = (('=' :: ('"' :: ("author".toList ++ ('"' ::
            (" content=\"".toList ++ (v ++ '"' :: '>' :: postL)))))) :
              List Char).drop (m - 4) := by
        rw [drop_append_ge (by omega), hl4]
      rw [hd]
      by_cases h4 : m = 4
      · subst h4
        simp only [Nat.sub_self, List.drop_zero]
        exact reMatchWF_altLit_head_ne rfl rfl (by decide) (by decide) _ _ _
      · obtain ⟨m2, hm2⟩ : ∃ m2, m - 4 = m2 + 1 := ⟨m - 5, by omega⟩
        rw [hm2, List.drop_succ_cons]
        by_cases h5 : m2 = 0
        · subst h5
          rw [List.drop_zero]
          exact reMatchWF_altLit_head_ne rfl rfl (by decide) (by decide) _ _ _
        · obtain ⟨m3, hm3⟩ : ∃ m3, m2 = m3 + 1 := ⟨m2 - 1, by omega⟩
          rw [hm3, List.drop_succ_cons]
          by_cases h6 : m3 = 0
          · subst h6
            rw [List.drop_zero]
            exact reMatchWF_altLit_failsIn (by decide) (by decide) _ _ _
          · by_cases h11 : m3 ≤ 5
            · have hd3 : ("author".toList ++ ('"' :: (" content=\"".toList ++
                  (v ++ '"' :: '>' :: postL)))).drop m3
                  = "author".toList.drop m3 ++ ('"' :: (" content=\"".toList ++
                    (v ++ '"' :: '>' :: postL))) :=
                List.drop_append_of_le_length (by omega)
              rw [hd3]
              exact reMatchWF_altSeg_window (by decide) (by decide)
                (by omega) (by omega) _ _ _
            · have hd3 : ("author".toList ++ ('"' :: (" content=\"".toList ++
                  (v ++ '"' :: '>' :: postL)))).drop m3
                  = (('"' :: (" content=\"".toList ++
                    (v ++ '"' :: '>' :: postL))) : List Char).drop (m3 - 6) := by
                rw [drop_append_ge (by omega), hl6]
              rw [hd3]
              by_cases h12 : m3 = 6
              · subst h12
                simp only [Nat.sub_self, List.drop_zero]
                exact reMatchWF_altLit_head_ne rfl rfl (by decide) (by decide) _ _ _
              · obtain ⟨m4, hm4⟩ : ∃ m4, m3 - 6 = m4 + 1 := ⟨m3 - 7, by omega⟩
                rw [hm4, List.drop_succ_cons]
                by_cases h13 : m4 = 0
                · subst h13
                  rw [List.drop_zero]
                  exact reMatchWF_altLit_failsIn (by decide) (by decide) _ _ _
                · by_cases h14 : m4 ≤ 9
                  · have hd4 : (" content=\"".toList ++
                        (v ++ '"' :: '>' :: postL)).drop m4
                        = " content=\"".toList.drop m4 ++
                          (v ++ '"' :: '>' :: postL) :=
                      List.drop_append_of_le_length (by omega)
                    rw [hd4]
                    exact reMatchWF_altSeg_window (by decide) (by decide)
                      (by omega) (by omega) _ _ _
                  · have hd4 : (" content=\"".toList ++
                        (v ++ '"' :: '>' :: postL)).drop m4
                        = (v ++ '"' :: '>' :: postL).drop (m4 - 10) := by
                      rw [drop_append_ge (by omega), hl10]
                    rw [hd4]
                    by_cases hV : m4 - 10 ≤ v.length
                    · have hd5 : (v ++ '"' :: '>' :: postL).drop (m4 - 10)
                          = v.drop (m4 - 10) ++ '"' :: '>' :: postL :=
                        List.drop_append_of_le_length hV
                      rw [hd5]
                      exact reMatchWF_altLit_value_window (by decide) (by decide)
                        _ _ _ _
                        (fun c hc => ⟨(hv c (List.drop_subset _ _ hc)).2.2.2,
                          (hv c (List.drop_subset _ _ hc)).1⟩)
                    · have hd5 : (v ++ '"' :: '>' :: postL).drop (m4 - 10)
                          = '>' :: postL := by
                        rw [drop_append_ge (by omega)]
                        have hidx : m4 - 10 - v.length = 1 := by omega
                        rw [hidx]
                        rfl
                      rw [hd5]
                      exact reMatchWF_altLit_head_ne rfl rfl (by decide)
                        (by decide) _ _ _
  apply tryLensWF_one_some
  rw [List.drop_succ_cons, List.drop_zero,
    reMatchWF_alt_second (reMatchWF_lit_failsIn (by decide) _ _ _),
    List.singleton_append,
    reMatchWF_lit_starts (listStarts_self_append _ _), List.drop_left]
  have he : (('=' :: ('"' :: ("author".toList ++ ('"' ::
      (" content=\"".toList ++ (v ++ '"' :: '>' :: postL)))))) : List Char)
      = "=".toList ++ ('"' :: ("author".toList ++ ('"' ::
        (" content=\"".toList ++ (v ++ '"' :: '>' :: postL))))) := rfl
  rw [he, reMatchWF_lit_starts (listStarts_self_append _ _), List.drop_left,
    reMatchWF_anyOf_mem (by decide),
    reMatchWF_alt_second (reMatchWF_lit_failsIn (by decide) _ _ _),
    List.singleton_append,
    reMatchWF_lit_starts (listStarts_self_append _ _), List.drop_left,
    reMatchWF_anyOf_mem (by decide)]
  exact gap2_content v postL cap hvne hv

/-- `re.search` with the author pattern over a page whose author tag is
property-first: it returns the tag's content value. -/
theorem reSearch_author_pfTag_hit (v preL postL : List Char)
    (hpre : ∀ c ∈ preL, c ≠ '<') (hvne : v ≠ [])
    (hv : ∀ c ∈ v, c ≠ '"' ∧ c ≠ '\'' ∧ c ≠ '>' ∧ c ≠ '=') :
    reSearch authorPat
      (preL ++ ("<meta".toList ++ (' ' :: ("name".toList ++ ('=' :: ('"' ::
        ("author".toList ++ ('"' :: (" content=\"".toList
          ++ (v ++ '"' :: '>' :: postL))))))))))
      = some (String.mk v) := by
  have hpat : authorPat = RE.lit "<meta" :: RE.cls ['>'] ::
      RE.alt [RE.lit "property"] [RE.lit "name"] :: RE.lit "=" ::
      RE.anyOf ['"', '\''] :: RE.alt [RE.lit "article:author"] [RE.lit "author"] ::
      RE.anyOf ['"', '\''] :: RE.cls ['>'] :: RE.lit "content=" ::
      RE.anyOf ['"', '\''] :: RE.grp ['"', '\''] :: RE.anyOf ['"', '\''] :: [] := rfl
  rw [hpat, reSearch_skip _ _ _ hpre]
  have hm : reMatchWF (RE.lit "<meta" :: RE.cls ['>'] ::
      RE.alt [RE.lit "property"] [RE.lit "name"] :: RE.lit "=" ::
      RE.anyOf ['"', '\''] :: RE.alt [RE.lit "article:author"] [RE.lit "author"] ::
      RE.anyOf ['"', '\''] :: RE.cls ['>'] :: RE.lit "content=" ::
      RE.anyOf ['"', '\''] :: RE.grp ['"', '\''] :: RE.anyOf ['"', '\''] :: [])
      ("<meta".toList ++ (' ' :: ("name".toList ++ ('=' :: ('"' ::
        ("author".toList ++ ('"' :: (" content=\"".toList
          ++ (v ++ '"' :: '>' :: postL)))))))))
      none = some (some (String.mk v)) := by
    rw [reMatchWF_lit_starts (listStarts_self_append _ _), List.drop_left]
    exact gap1_author_pfTag_hit v postL none hvne hv
  rw [reSearch_head_some hm]
  rfl

-- ── Field-level consequences for fetch_og_metadata ───────────────────

/-- `toList` distributes over string append. -/
theorem toList_append (s t : String) : (s ++ t).toList = s.toList ++ t.toList :=
  String.data_append s t

/-- A nonempty string has a nonempty character list. -/
theorem toList_ne_nil {v : String} (h : v ≠ "") : v.toList ≠ [] := fun hl =>
  h (show v = "" from congrArg String.mk hl)

/-- The `og:image` field tolerates both attribute orders. -/
theorem og_image_both (pre post v : String) (pd : String → Option String) (b : Bool)
    (hpre : ∀ c ∈ pre.toList, c ≠ '<') (hpost : ∀ c ∈ post.toList, c ≠ '<')
    (hvne : v ≠ "")
    (hv : ∀ c ∈ v.toList, c ≠ '"' ∧ c ≠ '\'' ∧ c ≠ '>' ∧ c ≠ '=' ∧ c ≠ '<')
    (hlen : pre.length + v.length + post.length ≤ 49900) :
    (fetch_og_metadata
        ⟨some (pre ++ ogTag b "property" "og:image" v ++ post), pd⟩).og_image
      = some v := by
  have hv4 : ∀ c ∈ v.toList, c ≠ '"' ∧ c ≠ '\'' ∧ c ≠ '>' ∧ c ≠ '=' := fun c hc =>
    ⟨(hv c hc).1, (hv c hc).2.1, (hv c hc).2.2.1, (hv c hc).2.2.2.1⟩
  have hvlt : ∀ c ∈ v.toList, c ≠ '<' := fun c hc => (hv c hc).2.2.2.2
  have hvne' : v.toList ≠ [] := toList_ne_nil hvne
  have e5 : pre.toList.length = pre.length := rfl
  have e6 : v.toList.length = v.length := rfl
  have e7 : post.toList.length = post.length := rfl
  cases b with
  | true =>
    have halign : (pre ++ ogTag true "property" "og:image" v ++ post).toList
        = pre.toList ++ ("<meta".toList ++ (' ' :: ("property=".toList ++ ('"' ::
          ("og:image".toList ++ ('"' :: (" content=\"".toList
            ++ (v.toList ++ '"' :: '>' :: post.toList)))))))) := by
      rw [toList_append, toList_append,
        show (ogTag true "property" "og:image" v).toList
          = ("<meta property=\"og:image\" content=\"".toList ++ v.toList)
            ++ "\">".toList from rfl]
      simp only [List.append_assoc]
      rfl
    have hplen : (pre ++ ogTag true "property" "og:image" v ++ post).toList.length
        ≤ 50000 := by
      rw [halign]
      simp only [List.length_append, List.length_cons]
      have e1 : ("<meta".toList).length = 5 := by decide
      have e2 : ("property=".toList).length = 9 := by decide
      have e3 : ("og:image".toList).length = 8 := by decide
      have e4 : (" content=\"".toList).length = 10 := by decide
      omega
    have htake := List.take_of_length_le hplen
    simp only [fetch_og_metadata]
    rw [htake, halign,
      reSearch_propFirst_hit "og:image" v.toList pre.toList post.toList hpre
        hvne' hv4 (by decide) (by decide) (by decide)]
    rfl
  | false =>
    have halign : (pre ++ ogTag false "property" "og:image" v ++ post).toList
        = pre.toList ++ ("<meta".toList ++ (' ' :: ("content=".toList ++ ('"' ::
          (v.toList ++ ('"' :: (" property=\"".toList
            ++ ("og:image".toList ++ ('"' :: '>' :: post.toList))))))))) := by
      rw [toList_append, toList_append,
        show (ogTag false "property" "og:image" v).toList
          = ((((("<meta content=\"".toList ++ v.toList) ++ "\" ".toList)
            ++ "property".toList) ++ "=\"".toList) ++ "og:image".toList)
            ++ "\">".toList from rfl]
      simp only [List.append_assoc]
      rfl
    have hplen : (pre ++ ogTag false "property" "og:image" v ++ post).toList.length
        ≤ 50000 := by
      rw [halign]
      simp only [List.length_append, List.length_cons]
      have e1 : ("<meta".toList).length = 5 := by decide
      have e2 : ("content=".toList).length = 8 := by decide
      have e3 : ("og:image".toList).length = 8 := by decide
      have e4 : (" property=\"".toList).length = 11 := by decide
      omega
    have htake := List.take_of_length_le hplen
    simp only [fetch_og_metadata]
    rw [htake, halign,
      reSearch_propFirst_cfTag_none "og:image" v.toList pre.toList post.toList
        hpre hpost hv4 hvlt (by decide) (by decide) (by decide) (by decide),
      reSearch_contentFirst_hit "og:image" v.toList pre.toList post.toList hpre
        hvne' hv4 (by decide) (by decide) (by decide)]
    rfl

/-- The `og:description` field tolerates both attribute orders. -/
theorem og_description_both (pre post v : String) (pd : String → Option String)
    (b : Bool)
    (hpre : ∀ c ∈ pre.toList, c ≠ '<') (hpost : ∀ c ∈ post.toList, c ≠ '<')
    (hvne : v ≠ "")
    (hv : ∀ c ∈ v.toList, c ≠ '"' ∧ c ≠ '\'' ∧ c ≠ '>' ∧ c ≠ '=' ∧ c ≠ '<')
    (hlen : pre.length + v.length + post.length ≤ 49900) :
    (fetch_og_metadata
        ⟨some (pre ++ ogTag b "property" "og:description" v ++ post), pd⟩).og_description
      = some (pyStrip v) := by
  have hv4 : ∀ c ∈ v.toList, c ≠ '"' ∧ c ≠ '\'' ∧ c ≠ '>' ∧ c ≠ '=' := fun c hc =>
    ⟨(hv c hc).1, (hv c hc).2.1, (hv c hc).2.2.1, (hv c hc).2.2.2.1⟩
  have hvlt : ∀ c ∈ v.toList, c ≠ '<' := fun c hc => (hv c hc).2.2.2.2
  have hvne' : v.toList ≠ [] := toList_ne_nil hvne
  have e5 : pre.toList.length = pre.length := rfl
  have e6 : v.toList.length = v.length := rfl
  have e7 : post.toList.length = post.length := rfl
  cases b with
  | true =>
    have halign : (pre ++ ogTag true "property" "og:description" v ++ post).toList
        = pre.toList ++ ("<meta".toList ++ (' ' :: ("property=".toList ++ ('"' ::
          ("og:description".toList ++ ('"' :: (" content=\"".toList
            ++ (v.toList ++ '"' :: '>' :: post.toList)))))))) := by
      rw [toList_append, toList_append,
        show (ogTag true "property" "og:description" v).toList
          = ("<meta property=\"og:description\" content=\"".toList ++ v.toList)
            ++ "\">".toList from rfl]
      simp only [List.append_assoc]
      rfl
    have hplen : (pre ++ ogTag true "property" "og:description" v ++ post).toList.length
        ≤ 50000 := by
      rw [halign]
      simp only [List.length_append, List.length_cons]
      have e1 : ("<meta".toList).length = 5 := by decide
      have e2 : ("property=".toList).length = 9 := by decide
      have e3 : ("og:description".toList).length = 14 := by decide
      have e4 : (" content=\"".toList).length = 10 := by decide
      omega
    have htake := List.take_of_length_le hplen
    simp only [fetch_og_metadata]
    rw [htake, halign,
      reSearch_propFirst_hit "og:description" v.toList pre.toList post.toList hpre
        hvne' hv4 (by decide) (by decide) (by decide)]
    rfl
  | false =>
    have halign : (pre ++ ogTag false "property" "og:description" v ++ post).toList
        = pre.toList ++ ("<meta".toList ++ (' ' :: ("content=".toList ++ ('"' ::
          (v.toList ++ ('"' :: (" property=\"".toList
            ++ ("og:description".toList ++ ('"' :: '>' :: post.toList))))))))) := by
      rw [toList_append, toList_append,
        show (ogTag false "property" "og:description" v).toList
          = ((((("<meta content=\"".toList ++ v.toList) ++ "\" ".toList)
            ++ "property".toList) ++ "=\"".toList) ++ "og:description".toList)
            ++ "\">".toList from rfl]
      simp only [List.append_assoc]
      rfl
    have hplen : (pre ++ ogTag false "property" "og:description" v ++ post).toList.length
        ≤ 50000 := by
      rw [halign]
      simp only [List.length_append, List.length_cons]
      have e1 : ("<meta".toList).length = 5 := by decide
      have e2 : ("content=".toList).length = 8 := by decide
      have e3 : ("og:description".toList).length = 14 := by decide
      have e4 : (" property=\"".toList).length = 11 := by decide
      omega
    have htake := List.take_of_length_le hplen
    simp only [fetch_og_metadata]
    rw [htake, halign,
      reSearch_propFirst_cfTag_none "og:description" v.toList pre.toList post.toList
        hpre hpost hv4 hvlt (by decide) (by decide) (by decide) (by decide),
      reSearch_contentFirst_hit "og:description" v.toList pre.toList post.toList hpre
        hvne' hv4 (by decide) (by decide) (by decide)]
    rfl

/-- The `og:title` field tolerates both attribute orders. -/
theorem og_title_both (pre post v : String) (pd : String → Option String) (b : Bool)
    (hpre : ∀ c ∈ pre.toList, c ≠ '<') (hpost : ∀ c ∈ post.toList, c ≠ '<')
    (hvne : v ≠ "")
    (hv : ∀ c ∈ v.toList, c ≠ '"' ∧ c ≠ '\'' ∧ c ≠ '>' ∧ c ≠ '=' ∧ c ≠ '<')
    (hlen : pre.length + v.length + post.length ≤ 49900) :
    (fetch_og_metadata
        ⟨some (pre ++ ogTag b "property" "og:title" v ++ post), pd⟩).og_title
      = some (pyStrip v) := by
  have hv4 : ∀ c ∈ v.toList, c ≠ '"' ∧ c ≠ '\'' ∧ c ≠ '>' ∧ c ≠ '=' := fun c hc =>
    ⟨(hv c hc).1, (hv c hc).2.1, (hv c hc).2.2.1, (hv c hc).2.2.2.1⟩
  have hvlt : ∀ c ∈ v.toList, c ≠ '<' := fun c hc => (hv c hc).2.2.2.2
  have hvne' : v.toList ≠ [] := toList_ne_nil hvne
  have e5 : pre.toList.length = pre.length := rfl
  have e6 : v.toList.length = v.length := rfl
  have e7 : post.toList.length = post.length := rfl
  cases b with
  | true =>
    have halign : (pre ++ ogTag true "property" "og:title" v ++ post).toList
        = pre.toList ++ ("<meta".toList ++ (' ' :: ("property=".toList ++ ('"' ::
          ("og:title".toList ++ ('"' :: (" content=\"".toList
            ++ (v.toList ++ '"' :: '>' :: post.toList)))))))) := by
      rw [toList_append, toList_append,
        show (ogTag true "property" "og:title" v).toList
          = ("<meta property=\"og:title\" content=\"".toList ++ v.toList)
            ++ "\">".toList from rfl]
      simp only [List.append_assoc]
      rfl
    have hplen : (pre ++ ogTag true "property" "og:title" v ++ post).toList.length
        ≤ 50000 := by
      rw [halign]
      simp only [List.length_append, List.length_cons]
      have e1 : ("<meta".toList).length = 5 := by decide
      have e2 : ("property=".toList).length = 9 := by decide
      have e3 : ("og:title".toList).length = 8 := by decide
      have e4 : (" content=\"".toList).length = 10 := by decide
      omega
    have htake := List.take_of_length_le hplen
    simp only [fetch_og_metadata]
    rw [htake, halign,
      reSearch_propFirst_hit "og:title" v.toList pre.toList post.toList hpre
        hvne' hv4 (by decide) (by decide) (by decide)]
    rfl
  | false =>
    have halign : (pre ++ ogTag false "property" "og:title" v ++ post).toList
        = pre.toList ++ ("<meta".toList ++ (' ' :: ("content=".toList ++ ('"' ::
          (v.toList ++ ('"' :: (" property=\"".toList
            ++ ("og:title".toList ++ ('"' :: '>' :: post.toList))))))))) := by
      rw [toList_append, toList_append,
        show (ogTag false "property" "og:title" v).toList
          = ((((("<meta content=\"".toList ++ v.toList) ++ "\" ".toList)
            ++ "property".toList) ++ "=\"".toList) ++ "og:title".toList)
            ++ "\">".toList from rfl]
      simp only [List.append_assoc]
      rfl
    have hplen : (pre ++ ogTag false "property" "og:title" v ++ post).toList.length
        ≤ 50000 := by
      rw [halign]
      simp only [List.length_append, List.length_cons]
      have e1 : ("<meta".toList).length = 5 := by decide
      have e2 : ("content=".toList).length = 8 := by decide
      have e3 : ("og:title".toList).length = 8 := by decide
      have e4 : (" property=\"".toList).length = 11 := by decide
      omega
    have htake := List.take_of_length_le hplen
    simp only [fetch_og_metadata]
    rw [htake, halign,
      reSearch_propFirst_cfTag_none "og:title" v.toList pre.toList post.toList
        hpre hpost hv4 hvlt (by decide) (by decide) (by decide) (by decide),
      reSearch_contentFirst_hit "og:title" v.toList pre.toList post.toList hpre
        hvne' hv4 (by decide) (by decide) (by decide)]
    rfl

/-- The author field is extracted only from property-first markup. -/
theorem og_author_orders (pre post v : String) (pd : String → Option String)
    (b : Bool)
    (hpre : ∀ c ∈ pre.toList, c ≠ '<') (hpost : ∀ c ∈ post.toList, c ≠ '<')
    (hvne : v ≠ "")
    (hv : ∀ c ∈ v.toList, c ≠ '"' ∧ c ≠ '\'' ∧ c ≠ '>' ∧ c ≠ '=' ∧ c ≠ '<')
    (hlen : pre.length + v.length + post.length ≤ 49900) :
    (fetch_og_metadata
        ⟨some (pre ++ ogTag b "name" "author" v ++ post), pd⟩).og_author
      = (if b then some (pyStrip v) else none) := by
  have hv4 : ∀ c ∈ v.toList, c ≠ '"' ∧ c ≠ '\'' ∧ c ≠ '>' ∧ c ≠ '=' := fun c hc =>
    ⟨(hv c hc).1, (hv c hc).2.1, (hv c hc).2.2.1, (hv c hc).2.2.2.1⟩
  have hvlt : ∀ c ∈ v.toList, c ≠ '<' := fun c hc => (hv c hc).2.2.2.2
  have hvne' : v.toList ≠ [] := toList_ne_nil hvne
  have e5 : pre.toList.length = pre.length := rfl
  have e6 : v.toList.length = v.length := rfl
  have e7 : post.toList.length = post.length := rfl
  cases b with
  | true =>
    have halign : (pre ++ ogTag true "name" "author" v ++ post).toList
        = pre.toList ++ ("<meta".toList ++ (' ' :: ("name".toList ++ ('=' :: ('"' ::
          ("author".toList ++ ('"' :: (" content=\"".toList
            ++ (v.toList ++ '"' :: '>' :: post.toList))))))))) := by
      rw [toList_append, toList_append,
        show (ogTag true "name" "author" v).toList
          = ("<meta name=\"author\" content=\"".toList ++ v.toList)
            ++ "\">".toList from rfl]
      simp only [List.append_assoc]
      rfl
    have hplen : (pre ++ ogTag true "name" "author" v ++ post).toList.length
        ≤ 50000 := by
      rw [halign]
      simp only [List.length_append, List.length_cons]
      have e1 : ("<meta".toList).length = 5 := by decide
      have e2 : ("name".toList).length = 4 := by decide
      have e3 : ("author".toList).length = 6 := by decide
      have e4 : (" content=\"".toList).length = 10 := by decide
      omega
    have htake := List.take_of_length_le hplen
    simp only [fetch_og_metadata]
    rw [htake, halign,
      reSearch_author_pfTag_hit v.toList pre.toList post.toList hpre hvne' hv4]
    rfl
  | false =>
    have halign : (pre ++ ogTag false "name" "author" v ++ post).toList
        = pre.toList ++ ("<meta".toList ++ (' ' :: ("content=".toList ++ ('"' ::
          (v.toList ++ ('"' :: (" name=\"author\"".toList
            ++ ('>' :: post.toList)))))))) := by
      rw [toList_append, toList_append,
        show (ogTag false "name" "author" v).toList
          = ((((("<meta content=\"".toList ++ v.toList) ++ "\" ".toList)
            ++ "name".toList) ++ "=\"".toList) ++ "author".toList)
            ++ "\">".toList from rfl]
      simp only [List.append_assoc]
      rfl
    have hplen : (pre ++ ogTag false "name" "author" v ++ post).toList.length
        ≤ 50000 := by
      rw [halign]
      simp only [List.length_append, List.length_cons]
      have e1 : ("<meta".toList).length = 5 := by decide
      have e2 : ("content=".toList).length = 8 := by decide
      have e3 : (" name=\"author\"".toList).length = 14 := by decide
      omega
    have htake := List.take_of_length_le hplen
    simp only [fetch_og_metadata]
    rw [htake, halign,
      reSearch_author_cfTag_none v.toList pre.toList post.toList hpre hpost
        hv4 hvlt]
    rfl

/-- The published-time field is extracted only from property-first
markup. -/
theorem og_published_orders (pre post v : String) (pd : String → Option String)
    (b : Bool)
    (hpre : ∀ c ∈ pre.toList, c ≠ '<') (hpost : ∀ c ∈ post.toList, c ≠ '<')
    (hvne : v ≠ "")
    (hv : ∀ c ∈ v.toList, c ≠ '"' ∧ c ≠ '\'' ∧ c ≠ '>' ∧ c ≠ '=' ∧ c ≠ '<')
    (hlen : pre.length + v.length + post.length ≤ 49900) :
    (fetch_og_metadata
        ⟨some (pre ++ ogTag b "property" "article:published_time" v ++ post),
          pd⟩).og_published
      = (if b then pd v else none) := by
  have hv4 : ∀ c ∈ v.toList, c ≠ '"' ∧ c ≠ '\'' ∧ c ≠ '>' ∧ c ≠ '=' := fun c hc =>
    ⟨(hv c hc).1, (hv c hc).2.1, (hv c hc).2.2.1, (hv c hc).2.2.2.1⟩
  have hvlt : ∀ c ∈ v.toList, c ≠ '<' := fun c hc => (hv c hc).2.2.2.2
  have hvne' : v.toList ≠ [] := toList_ne_nil hvne
  have e5 : pre.toList.length = pre.length := rfl
  have e6 : v.toList.length = v.length := rfl
  have e7 : post.toList.length = post.length := rfl
  cases b with
  | true =>
    have halign : (pre ++ ogTag true "property" "article:published_time" v
        ++ post).toList
        = pre.toList ++ ("<meta".toList ++ (' ' :: ("property=".toList ++ ('"' ::
          ("article:published_time".toList ++ ('"' :: (" content=\"".toList
            ++ (v.toList ++ '"' :: '>' :: post.toList)))))))) := by
      rw [toList_append, toList_append,
        show (ogTag true "property" "article:published_time" v).toList
          = ("<meta property=\"article:published_time\" content=\"".toList
            ++ v.toList) ++ "\">".toList from rfl]
      simp only [List.append_assoc]
      rfl
    have hplen : (pre ++ ogTag true "property" "article:published_time" v
        ++ post).toList.length ≤ 50000 := by
      rw [halign]
      simp only [List.length_append, List.length_cons]
      have e1 : ("<meta".toList).length = 5 := by decide
      have e2 : ("property=".toList).length = 9 := by decide
      have e3 : ("article:published_time".toList).length = 22 := by decide
      have e4 : (" content=\"".toList).length = 10 := by decide
      omega
    have htake := List.take_of_length_le hplen
    simp only [fetch_og_metadata, publishedPat]
    rw [htake, halign,
      reSearch_propFirst_hit "article:published_time" v.toList pre.toList
        post.toList hpre hvne' hv4 (by decide) (by decide) (by decide)]
    rfl
  | false =>
    have halign : (pre ++ ogTag false "property" "article:published_time" v
        ++ post).toList
        = pre.toList ++ ("<meta".toList ++ (' ' :: ("content=".toList ++ ('"' ::
          (v.toList ++ ('"' :: (" property=\"".toList
            ++ ("article:published_time".toList
              ++ ('"' :: '>' :: post.toList))))))))) := by
      rw [toList_append, toList_append,
        show (ogTag false "property" "article:published_time" v).toList
          = ((((("<meta content=\"".toList ++ v.toList) ++ "\" ".toList)
            ++ "property".toList) ++ "=\"".toList)
            ++ "article:published_time".toList)
            ++ "\">".toList from rfl]
      simp only [List.append_assoc]
      rfl
    have hplen : (pre ++ ogTag false "property" "article:published_time" v
        ++ post).toList.length ≤ 50000 := by
      rw [halign]
      simp only [List.length_append, List.length_cons]
      have e1 : ("<meta".toList).length = 5 := by decide
      have e2 : ("content=".toList).length = 8 := by decide
      have e3 : ("article:published_time".toList).length = 22 := by decide
      have e4 : (" property=\"".toList).length = 11 := by decide
      omega
    have htake := List.take_of_length_le hplen
    simp only [fetch_og_metadata, publishedPat]
    rw [htake, halign,
      reSearch_propFirst_cfTag_none "article:published_time" v.toList pre.toList
        post.toList hpre hpost hv4 hvlt (by decide) (by decide) (by decide)
        (by decide)]
    rfl

-- ── Concrete fixtures used by the claim witnesses ────────────────────

/-- A candidate with only the URL set, as a feed with bare entries
produces. -/
def mkItem (u : String) : Item :=
  { url := u, headline := "", description := "", byline := "",
    publish_date := none, preview_image_url := "", tags := [] }

/-- A `NewArticle` bundle carrying only a URL. -/
def mkNew (u : String) : NewArticle :=
  { url := u, source_slug := "s", source_name := "S", category := "",
    headline := "", byline := "", description := "", article_text := "",
    publish_date := none, preview_image_url := "", preview_image_local := "",
    tags := [] }

/-- A store already holding one article under `https://e.com/a`. -/
def exDb : Database :=
  { rows := [mkArticleRow 0 (mkNew "https://e.com/a") "t0"], nextId := 1 }

-- ── C2: the store write is a conditional insert-if-absent ────────────

/-- C2: `add_article` is insert-if-absent.  A write whose URL already
exists creates no row, changes nothing and returns `None`; a write
with a fresh URL returns the new autoincrement id and appends exactly
one row built from the given fields. -/
theorem add_article_insert_if_absent (db : Database) (a : NewArticle)
    (now : String) :
    (db.url_exists a.url = true → db.add_article a now = (none, db)) ∧
    (db.url_exists a.url = false →
      (db.add_article a now).1 = some db.nextId ∧
      (db.add_article a now).2.rows = db.rows ++ [mkArticleRow db.nextId a now] ∧
      (db.add_article a now).2.nextId = db.nextId + 1) := by
  constructor
  · intro h
    simp [Database.add_article, h]
  · intro h
    simp [Database.add_article, h]

/-- Witness for C2 at a concrete store: the duplicate URL is a no-op
returning `None`; the fresh URL returns the next id. -/
theorem add_article_insert_if_absent_witness :
    (exDb.url_exists "https://e.com/a" = true ∧
      exDb.add_article (mkNew "https://e.com/a") "t1" = (none, exDb)) ∧
    (exDb.url_exists "https://e.com/b" = false ∧
      (exDb.add_article (mkNew "https://e.com/b") "t1").1 = some 1) :=
  ⟨⟨by rfl,
    (add_article_insert_if_absent exDb (mkNew "https://e.com/a") "t1").1 (by rfl)⟩,
   ⟨by rfl,
    ((add_article_insert_if_absent exDb (mkNew "https://e.com/b") "t1").2 (by rfl)).1⟩⟩

-- ── C3: retry bound and backoff schedule on persistent 429 ───────────

/-- C3 counterexample: with every attempt answered by HTTP 429 and the
default `max_retries = 3`, the client makes exactly 3 attempts and
gives up with `None`, but it sleeps only twice — 2s then 4s.  The
claimed inter-attempt delay schedule 2s, 4s, 8s is wrong: no sleep
follows the final attempt. -/
theorem fetch_with_retry_429_counterexample :
    (fetch_with_retry (fun _ => .ok 429 "") 3).attempts = 3 ∧
    (fetch_with_retry (fun _ => .ok 429 "") 3).result = none ∧
    (fetch_with_retry (fun _ => .ok 429 "") 3).sleeps = [2, 4] ∧
    (fetch_with_retry (fun _ => .ok 429 "") 3).sleeps ≠ [2, 4, 8] :=
  ⟨rfl, rfl, rfl, by decide⟩

/-- C3 amended: a server answering 429 on every attempt causes exactly
`max_retries` (3) fetch attempts with inter-attempt delays 2s and 4s
(`2^(attempt+1)` before retry `attempt+1`; no delay after the final
attempt), after which the client gives up with the transient-failure
result `None`. -/
theorem fetch_with_retry_429_amended (env : Nat → FetchOutcome)
    (bodies : Nat → String) (h : ∀ i, env i = .ok 429 (bodies i)) :
    fetch_with_retry env 3 = ⟨none, 3, [2, 4]⟩ := by
  simp [fetch_with_retry, fetchLoop, h 0, h 1, h 2]

/-- Witness for C3 on a concrete always-429 server. -/
theorem fetch_with_retry_429_amended_witness :
    fetch_with_retry (fun _ => .ok 429 "slow down") 3 = ⟨none, 3, [2, 4]⟩ :=
  fetch_with_retry_429_amended _ (fun _ => "slow down") (fun _ => rfl)

-- ── C10: redirect resolution touches only Google News URLs ───────────

/-- C10: `resolve_redirect_url` is the identity on every URL not
containing `news.google.com` and issues no network request for it;
and for a Google News URL whose fetch fails, the original URL is
returned instead of an exception propagating. -/
theorem resolve_redirect_url_spec (resolveFetch : String → Option String)
    (url : String) :
    (containsSub "news.google.com" url = false →
      resolve_redirect_url resolveFetch url = (url, false)) ∧
    (resolveFetch url = none →
      (resolve_redirect_url resolveFetch url).1 = url) := by
  constructor
  · intro h
    simp [resolve_redirect_url, h]
  · intro h
    by_cases hg : containsSub "news.google.com" url <;>
      simp [resolve_redirect_url, hg, h]

/-- Witness for C10: a direct URL is returned untouched with no request
made; a Google News URL whose fetch raises falls back to itself. -/
theorem resolve_redirect_url_spec_witness :
    resolve_redirect_url (fun _ => none) "https://example.com/a" =
      ("https://example.com/a", false) ∧
    (resolve_redirect_url (fun _ => none)
        "https://news.google.com/rss/articles/x").1 =
      "https://news.google.com/rss/articles/x" :=
  ⟨(resolve_redirect_url_spec (fun _ => none) "https://example.com/a").1 (by rfl),
   (resolve_redirect_url_spec (fun _ => none)
      "https://news.google.com/rss/articles/x").2 rfl⟩

-- ── C7: deduplication keeps the first occurrence, in order ───────────

theorem dedupGo_sublist (seen : List String) (l : List Item) :
    (dedupGo seen l).Sublist l := by
  induction l generalizing seen with
  | nil => simp [dedupGo]
  | cons x rest ih =>
    simp only [dedupGo]
    by_cases h : x.url ∈ seen
    · rw [if_pos h]
      exact (ih seen).cons x
    · rw [if_neg h]
      exact (ih (x.url :: seen)).cons₂ x

theorem mem_dedupGo {seen : List String} {l : List Item} {item : Item}
    (h : item ∈ dedupGo seen l) : item ∈ l ∧ item.url ∉ seen := by
  induction l generalizing seen with
  | nil => simp [dedupGo] at h
  | cons x rest ih =>
    simp only [dedupGo] at h
    by_cases hx : x.url ∈ seen
    · rw [if_pos hx] at h
      obtain ⟨h1, h2⟩ := ih h
      exact ⟨List.mem_cons_of_mem _ h1, h2⟩
    · rw [if_neg hx] at h
      rcases List.mem_cons.mp h with rfl | h'
      · exact ⟨List.mem_cons_self _ _, hx⟩
      · obtain ⟨h1, h2⟩ := ih h'
        exact ⟨List.mem_cons_of_mem _ h1,
               fun hs => h2 (List.mem_cons_of_mem _ hs)⟩

theorem dedupGo_find? {seen : List String} {l : List Item} {item : Item}
    (h : item ∈ dedupGo seen l) :
    l.find? (fun i => i.url == item.url) = some item := by
  induction l generalizing seen with
  | nil => simp [dedupGo] at h
  | cons x rest ih =>
    simp only [dedupGo] at h
    by_cases hx : x.url ∈ seen
    · rw [if_pos hx] at h
      have h2 := (mem_dedupGo h).2
      have hxe : (x.url == item.url) = false := by
        rw [beq_eq_false_iff_ne]
        intro heq
        exact h2 (heq ▸ hx)
      simp only [List.find?, hxe]
      exact ih h
    · rw [if_neg hx] at h
      rcases List.mem_cons.mp h with rfl | h'
      · simp [List.find?]
      · have h2 := (mem_dedupGo h').2
        have hxe : (x.url == item.url) = false := by
          rw [beq_eq_false_iff_ne]
          intro heq
          exact h2 (heq ▸ List.mem_cons_self _ _)
        simp only [List.find?, hxe]
        exact ih h'

theorem dedupGo_countP (seen : List String) (l : List Item) (u : String) :
    (dedupGo seen l).countP (fun i => i.url == u) =
      if u ∈ seen then 0
      else if l.any (fun i => i.url == u) then 1 else 0 := by
  induction l generalizing seen with
  | nil => simp [dedupGo]
  | cons x rest ih =>
    simp only [dedupGo]
    by_cases hx : x.url ∈ seen
    · rw [if_pos hx, ih]
      by_cases hu : u ∈ seen
      · simp [hu]
      · have hxu : (x.url == u) = false := by
          rw [beq_eq_false_iff_ne]
          rintro rfl
          exact hu hx
        simp [hu, hxu]
    · rw [if_neg hx, List.countP_cons, ih]
      by_cases hu : u ∈ seen
      · have hxu : (x.url == u) = false := by
          rw [beq_eq_false_iff_ne]
          rintro rfl
          exact hx hu
        simp [hu, hxu, List.mem_cons]
      · by_cases hxu : x.url = u
        · simp [hxu, List.mem_cons, hu]
        · have hxu' : (x.url == u) = false := by
            rw [beq_eq_false_iff_ne]; exact hxu
          simp [hu, hxu', List.mem_cons, Ne.symm hxu]

/-- C7: the coordinator's dedup step keeps a subsequence of the
concatenated candidate list (so discovery order is preserved), every
kept candidate is the first occurrence of its URL, and each URL
occurring anywhere (for instance in two different feeds of the same
source) survives exactly once. -/
theorem dedupByUrl_spec (l : List Item) :
    (dedupByUrl l).Sublist l ∧
    (∀ item ∈ dedupByUrl l,
      l.find? (fun i => i.url == item.url) = some item) ∧
    (∀ u : String, (dedupByUrl l).countP (fun i => i.url == u) =
      if l.any (fun i => i.url == u) then 1 else 0) := by
  refine ⟨dedupGo_sublist [] l, fun item h => dedupGo_find? h, fun u => ?_⟩
  have := dedupGo_countP [] l u
  simpa using this

/-- Witness for C7 on two feeds that both carry
`https://example.com/a`: the dedup output is an order-preserving
subsequence, the survivor is the first occurrence, and the duplicated
URL yields exactly one candidate. -/
theorem dedupByUrl_spec_witness :
    (dedupByUrl ([mkItem "https://example.com/a", mkItem "https://example.com/b"] ++
        [mkItem "https://example.com/a"])).Sublist
      ([mkItem "https://example.com/a", mkItem "https://example.com/b"] ++
        [mkItem "https://example.com/a"]) ∧
    ([mkItem "https://example.com/a", mkItem "https://example.com/b"] ++
        [mkItem "https://example.com/a"]).find?
        (fun i => i.url == (mkItem "https://example.com/a").url) =
      some (mkItem "https://example.com/a") ∧
    (dedupByUrl ([mkItem "https://example.com/a", mkItem "https://example.com/b"] ++
        [mkItem "https://example.com/a"])).countP
        (fun i => i.url == "https://example.com/a") = 1 :=
  ⟨(dedupByUrl_spec _).1,
   (dedupByUrl_spec _).2.1 (mkItem "https://example.com/a") (by decide),
   by
    have := (dedupByUrl_spec
      ([mkItem "https://example.com/a", mkItem "https://example.com/b"] ++
        [mkItem "https://example.com/a"])).2.2 "https://example.com/a"
    simpa using this⟩

-- ── C8: enrichment only fills fields that are still empty ────────────

theorem fillImage_frame (og : OgResult) (item : Item) :
    (fillImage og item).url = item.url ∧
    (fillImage og item).headline = item.headline ∧
    (fillImage og item).description = item.description ∧
    (fillImage og item).byline = item.byline ∧
    (fillImage og item).publish_date = item.publish_date ∧
    (fillImage og item).tags = item.tags := by
  refine ⟨?_, ?_, ?_, ?_, ?_, ?_⟩ <;> (unfold fillImage; repeat' split) <;> rfl

theorem fillDescription_frame (og : OgResult) (item : Item) :
    (fillDescription og item).url = item.url ∧
    (fillDescription og item).headline = item.headline ∧
    (fillDescription og item).preview_image_url = item.preview_image_url ∧
    (fillDescription og item).byline = item.byline ∧
    (fillDescription og item).publish_date = item.publish_date ∧
    (fillDescription og item).tags = item.tags := by
  refine ⟨?_, ?_, ?_, ?_, ?_, ?_⟩ <;> (unfold fillDescription; repeat' split) <;> rfl

theorem fillByline_frame (og : OgResult) (item : Item) :
    (fillByline og item).url = item.url ∧
    (fillByline og item).headline = item.headline ∧
    (fillByline og item).preview_image_url = item.preview_image_url ∧
    (fillByline og item).description = item.description ∧
    (fillByline og item).publish_date = item.publish_date ∧
    (fillByline og item).tags = item.tags := by
  refine ⟨?_, ?_, ?_, ?_, ?_, ?_⟩ <;> (unfold fillByline; repeat' split) <;> rfl

theorem fillDate_frame (og : OgResult) (item : Item) :
    (fillDate og item).url = item.url ∧
    (fillDate og item).headline = item.headline ∧
    (fillDate og item).preview_image_url = item.preview_image_url ∧
    (fillDate og item).description = item.description ∧
    (fillDate og item).byline = item.byline ∧
    (fillDate og item).tags = item.tags := by
  refine ⟨?_, ?_, ?_, ?_, ?_, ?_⟩ <;> (unfold fillDate; repeat' split) <;> rfl

theorem fillHeadline_frame (og : OgResult) (item : Item) :
    (fillHeadline og item).url = item.url ∧
    (fillHeadline og item).preview_image_url = item.preview_image_url ∧
    (fillHeadline og item).description = item.description ∧
    (fillHeadline og item).byline = item.byline ∧
    (fillHeadline og item).publish_date = item.publish_date ∧
    (fillHeadline og item).tags = item.tags := by
  refine ⟨?_, ?_, ?_, ?_, ?_, ?_⟩ <;> (unfold fillHeadline; repeat' split) <;> rfl

theorem fillImage_keeps (og : OgResult) (item : Item)
    (h : item.preview_image_url ≠ "") : fillImage og item = item := by
  simp [fillImage, h]

theorem fillDescription_keeps (og : OgResult) (item : Item)
    (h : item.description ≠ "") : fillDescription og item = item := by
  simp [fillDescription, h]

theorem fillByline_keeps (og : OgResult) (item : Item)
    (h : item.byline ≠ "") : fillByline og item = item := by
  simp [fillByline, h]

theorem fillDate_keeps (og : OgResult) (item : Item)
    (h : optBlank item.publish_date = false) : fillDate og item = item := by
  simp [fillDate, h]

theorem fillHeadline_keeps (og : OgResult) (item : Item)
    (h : item.headline ≠ "") : fillHeadline og item = item := by
  simp [fillHeadline, h]

/-- C8: the enrichment step only fills fields that are still empty.  For
each of preview image, description, byline, publish date and
headline: a field that is non-empty (non-falsy) before enrichment is
unchanged after it, whatever the OG response contains. -/
theorem enrichStep_only_fills_empty (env : PassEnv) (enrich : Bool)
    (item : Item) :
    (item.preview_image_url ≠ "" →
      (enrichStep env enrich item).preview_image_url = item.preview_image_url) ∧
    (item.description ≠ "" →
      (enrichStep env enrich item).description = item.description) ∧
    (item.byline ≠ "" →
      (enrichStep env enrich item).byline = item.byline) ∧
    (optBlank item.publish_date = false →
      (enrichStep env enrich item).publish_date = item.publish_date) ∧
    (item.headline ≠ "" →
      (enrichStep env enrich item).headline = item.headline) := by
  refine ⟨?_, ?_, ?_, ?_, ?_⟩ <;> intro h <;>
    (simp only [enrichStep]; split) <;>
    try rfl
  · simp [enrichApply, fillHeadline_frame, fillDate_frame, fillByline_frame,
          fillDescription_frame, fillImage_keeps, h]
  · simp [enrichApply, fillHeadline_frame, fillDate_frame, fillByline_frame,
          fillDescription_keeps, fillImage_frame, h]
  · simp [enrichApply, fillHeadline_frame, fillDate_frame, fillByline_keeps,
          fillDescription_frame, fillImage_frame, h]
  · simp [enrichApply, fillHeadline_frame, fillDate_keeps, fillByline_frame,
          fillDescription_frame, fillImage_frame, h]
  · simp [enrichApply, fillHeadline_keeps, fillDate_frame, fillByline_frame,
          fillDescription_frame, fillImage_frame, h]

/-- Witness for C8: a candidate with every field already set is returned
unchanged in each tracked field, even though the OG response offers
replacement values for all of them. -/
theorem enrichStep_only_fills_empty_witness :
    (enrichStep
        { feedItems := fun _ => [], resolveFetch := fun _ => none,
          ogFetch := fun _ =>
            { og_image := some "https://x/new.jpg",
              og_description := some "new d", og_title := some "new t",
              og_author := some "new a", og_published := some "2024-02-02" },
          bypassEnv := fun _ =>
            { bs4Available := true, tryPlaywright := none,
              fetch := fun _ => none, extract := fun _ => none },
          downloadImage := fun _ => none, now := "t" }
        true
        { url := "https://e.com/a", headline := "H", description := "D",
          byline := "B", publish_date := some "2024-01-01",
          preview_image_url := "https://x/old.jpg", tags := [] }).preview_image_url =
      "https://x/old.jpg" := by
  have := (enrichStep_only_fills_empty
    { feedItems := fun _ => [], resolveFetch := fun _ => none,
      ogFetch := fun _ =>
        { og_image := some "https://x/new.jpg",
          og_description := some "new d", og_title := some "new t",
          og_author := some "new a", og_published := some "2024-02-02" },
      bypassEnv := fun _ =>
        { bs4Available := true, tryPlaywright := none,
          fetch := fun _ => none, extract := fun _ => none },
      downloadImage := fun _ => none, now := "t" }
    true
    { url := "https://e.com/a", headline := "H", description := "D",
      byline := "B", publish_date := some "2024-01-01",
      preview_image_url := "https://x/old.jpg", tags := [] }).1 (by decide)
  simpa using this

-- ── C5: the strategy chain's 500-character cut-off ───────────────────

/-- A chain environment where the direct fetch extracts exactly 500
characters and the Google-referrer fetch extracts 501. -/
def envBoundary : BypassEnv :=
  { bs4Available := true, tryPlaywright := none,
    fetch := fun s =>
      match s with
      | .direct => some (200, "d")
      | .googleRef => some (200, "g")
      | _ => none,
    extract := fun b =>
      if b = "d" then some (String.mk (List.replicate 500 'a'))
      else some (String.mk (List.replicate 501 'b')) }

/-- C5 counterexample: the claim's "at least 500 extracted characters"
is wrong at the boundary.  When the direct fetch (strategy 2) yields
exactly 500 characters, its body is rejected (`len(text) > 500` is
strict), strategy 3 is invoked, and strategy 3's body is returned. -/
theorem bypass_500_boundary_counterexample :
    (String.mk (List.replicate 500 'a')).length = 500 ∧
    (fetch_article_text_via_bypass envBoundary false).2 =
      [.direct, .googleRef] ∧
    (fetch_article_text_via_bypass envBoundary false).1 =
      some (String.mk (List.replicate 501 'b')) :=
  ⟨by decide, by rfl, by rfl⟩

/-- C5 amended: the chain stops at the first strategy whose extracted
output is strictly longer than 500 characters.  If the direct fetch
(strategy 2) returns a 200 response whose extracted text exceeds 500
characters, that text is returned and no other strategy — neither
strategies 3–6 nor Playwright — is ever invoked. -/
theorem bypass_direct_short_circuit (env : BypassEnv) (body text : String)
    (hb : env.bs4Available = true)
    (hf : env.fetch .direct = some (200, body))
    (he : env.extract body = some text)
    (hl : 500 < text.length) :
    fetch_article_text_via_bypass env false = (some text, [.direct]) := by
  simp [fetch_article_text_via_bypass, hb, runChain, runMethod, hf, he, hl]

/-- Witness for C5 on a concrete environment whose direct fetch
extracts 501 characters. -/
theorem bypass_direct_short_circuit_witness :
    fetch_article_text_via_bypass
      { bs4Available := true, tryPlaywright := none,
        fetch := fun s =>
          match s with
          | .direct => some (200, "page")
          | _ => none,
        extract := fun _ => some (String.mk (List.replicate 501 'b')) }
      false =
      (some (String.mk (List.replicate 501 'b')), [.direct]) :=
  bypass_direct_short_circuit _ "page" _ rfl rfl rfl (by decide)

-- ── C4: the prefer-heavy flag is read but never passed on ────────────

/-- A retriever environment in which the Playwright strategy would
succeed immediately and the direct fetch also succeeds. -/
def bypassEnvP : BypassEnv :=
  { bs4Available := true, tryPlaywright := some "RENDERED",
    fetch := fun s =>
      match s with
      | .direct => some (200, "d")
      | _ => none,
    extract := fun _ => some (String.mk (List.replicate 501 'c')) }

/-- A source with both `bypass_paywall` and `prefer_playwright` set. -/
def srcPrefer : Source :=
  { slug := "s", name := "S", category := "c",
    rss_urls := ["https://s.example/feed"],
    bypass_paywall := true, prefer_playwright := true }

/-- A pass environment delivering one candidate for `srcPrefer`. -/
def envPrefer : PassEnv :=
  { feedItems := fun _ => [mkItem "https://e.com/art"],
    resolveFetch := fun _ => none,
    ogFetch := fun _ => {},
    bypassEnv := fun _ => bypassEnvP,
    downloadImage := fun _ => none, now := "t" }

/-- C4 failing input: although the source sets `prefer_playwright`, the
coordinator invokes the content retriever with `prefer_playwright =
False` (the call site passes no flag), so the heavyweight strategy is
not run first: with the flag the chain would stop at `[playwright]`,
without it the direct strategy runs first. -/
theorem process_source_ignores_prefer_playwright :
    srcPrefer.prefer_playwright = true ∧
    (process_source envPrefer srcPrefer ⟨[], 0⟩ true).2.2 =
      [PassEvent.bypassCall "https://e.com/art" false] ∧
    (fetch_article_text_via_bypass bypassEnvP true).2 = [.playwright] ∧
    (fetch_article_text_via_bypass bypassEnvP false).2 = [.direct] :=
  ⟨rfl, by rfl, by rfl, by rfl⟩

-- ── C1: repeated passes over an unchanged feed add nothing ───────────

/-- The URL a candidate is deduplicated and stored under after redirect
resolution. -/
def resolvedUrl (env : PassEnv) (item : Item) : String :=
  (resolve_redirect_url env.resolveFetch item.url).1

theorem enrichStep_url (env : PassEnv) (enrich : Bool) (item : Item) :
    (enrichStep env enrich item).url = item.url := by
  simp only [enrichStep]
  split
  · simp [enrichApply, fillHeadline_frame, fillDate_frame, fillByline_frame,
          fillDescription_frame, fillImage_frame]
  · rfl

theorem url_exists_add_article (db : Database) (a : NewArticle)
    (now u : String) (h : db.url_exists u = true) :
    ((db.add_article a now).2).url_exists u = true := by
  simp only [Database.add_article]
  split
  · exact h
  · simp only [Database.url_exists, List.any_append] at h ⊢
    simp [h]

theorem url_exists_after_add (db : Database) (a : NewArticle) (now : String) :
    ((db.add_article a now).2).url_exists a.url = true := by
  simp only [Database.add_article]
  split
  · next h => exact h
  · simp [Database.url_exists, mkArticleRow]

theorem processOne_skip (env : PassEnv) (source : Source) (enrich : Bool)
    (db : Database) (item0 : Item)
    (h : db.url_exists (resolvedUrl env item0) = true) :
    processOne env source enrich db item0 = (none, db, []) := by
  simp only [resolvedUrl] at h
  simp [processOne, h]

theorem processOne_exists_after (env : PassEnv) (source : Source)
    (enrich : Bool) (db : Database) (item0 : Item) :
    ((processOne env source enrich db item0).2.1).url_exists
      (resolvedUrl env item0) = true := by
  simp only [processOne, resolvedUrl]
  split
  · next h => exact h
  · have := url_exists_after_add db
      { url := (enrichStep env enrich
          { item0 with
            url := (resolve_redirect_url env.resolveFetch item0.url).1 }).url,
        source_slug := source.slug, source_name := source.name,
        category := source.category,
        headline := (enrichStep env enrich
          { item0 with
            url := (resolve_redirect_url env.resolveFetch item0.url).1 }).headline,
        byline := (enrichStep env enrich
          { item0 with
            url := (resolve_redirect_url env.resolveFetch item0.url).1 }).byline,
        description := (enrichStep env enrich
          { item0 with
            url := (resolve_redirect_url env.resolveFetch item0.url).1 }).description,
        article_text :=
          if source.bypass_paywall then
            ((fetch_article_text_via_bypass
                (env.bypassEnv (enrichStep env enrich
                  { item0 with
                    url := (resolve_redirect_url env.resolveFetch item0.url).1 }).url)
                false).1).getD ""
          else "",
        publish_date := (enrichStep env enrich
          { item0 with
            url := (resolve_redirect_url env.resolveFetch item0.url).1 }).publish_date,
        preview_image_url := (enrichStep env enrich
          { item0 with
            url := (resolve_redirect_url env.resolveFetch item0.url).1 }).preview_image_url,
        preview_image_local :=
          (if (enrichStep env enrich
                { item0 with
                  url := (resolve_redirect_url env.resolveFetch item0.url).1 }).preview_image_url ≠ "" then
            env.downloadImage (enrichStep env enrich
              { item0 with
                url := (resolve_redirect_url env.resolveFetch item0.url).1 }).preview_image_url
          else none).getD "",
        tags := (enrichStep env enrich
          { item0 with
            url := (resolve_redirect_url env.resolveFetch item0.url).1 }).tags }
      env.now
    simpa [enrichStep_url] using this

theorem processOne_mono (env : PassEnv) (source : Source) (enrich : Bool)
    (db : Database) (item0 : Item) (u : String)
    (h : db.url_exists u = true) :
    ((processOne env source enrich db item0).2.1).url_exists u = true := by
  simp only [processOne]
  split
  · exact h
  · exact url_exists_add_article _ _ _ _ h

theorem processItems_mono (env : PassEnv) (source : Source) (enrich : Bool)
    (l : List Item) (db : Database) (u : String)
    (h : db.url_exists u = true) :
    ((processItems env source enrich db l).2.1).url_exists u = true := by
  induction l generalizing db with
  | nil => simpa [processItems] using h
  | cons x rest ih =>
    simp only [processItems]
    exact ih _ (processOne_mono env source enrich db x u h)

theorem processItems_all_exist (env : PassEnv) (source : Source)
    (enrich : Bool) (l : List Item) (db : Database) :
    ∀ item ∈ l, ((processItems env source enrich db l).2.1).url_exists
      (resolvedUrl env item) = true := by
  induction l generalizing db with
  | nil => intro item h; simp at h
  | cons x rest ih =>
    intro item hmem
    simp only [processItems]
    rcases List.mem_cons.mp hmem with rfl | h'
    · exact processItems_mono _ _ _ _ _ _
        (processOne_exists_after env source enrich db item)
    · exact ih _ item h'

theorem processItems_skip_all (env : PassEnv) (source : Source)
    (enrich : Bool) (l : List Item) (db : Database)
    (h : ∀ item ∈ l, db.url_exists (resolvedUrl env item) = true) :
    processItems env source enrich db l = (0, db, []) := by
  induction l with
  | nil => rfl
  | cons x rest ih =>
    have hx := h x (List.mem_cons_self _ _)
    simp only [processItems, processOne_skip env source enrich db x hx]
    rw [ih (fun item h' => h item (List.mem_cons_of_mem _ h'))]
    simp

/-- C1: the per-source ingest pass is idempotent.  Any candidate whose
resolved URL already exists in the store is skipped entirely (no
enrichment, no retrieval, no write, no event); consequently a second
`process_source` run over the unchanged feed environment adds zero
new articles and leaves the store exactly as the first run left it. -/
theorem process_source_idempotent (env : PassEnv) (source : Source)
    (db : Database) (enrich : Bool) :
    (∀ (item : Item) (db' : Database),
      db'.url_exists (resolvedUrl env item) = true →
      processOne env source enrich db' item = (none, db', [])) ∧
    process_source env source (process_source env source db enrich).2.1 enrich =
      (0, (process_source env source db enrich).2.1, []) := by
  constructor
  · intro item db' h
    exact processOne_skip env source enrich db' item h
  · by_cases hr : source.rss_urls.isEmpty
    · simp [process_source, hr]
    · simp only [process_source, hr, if_neg, Bool.not_eq_true, if_false]
      apply processItems_skip_all
      intro item hmem
      exact processItems_all_exist env source enrich _ db item hmem

/-- A two-feed source whose feeds share a URL, for the C1 witness. -/
def srcTwoFeeds : Source :=
  { slug := "s", name := "S", category := "",
    rss_urls := ["https://s.example/f1", "https://s.example/f2"],
    bypass_paywall := false, prefer_playwright := false }

/-- The unchanged environment both C1 witness passes run against. -/
def envTwoFeeds : PassEnv :=
  { feedItems := fun f =>
      if f = "https://s.example/f1" then
        [mkItem "https://e.com/a", mkItem "https://e.com/b"]
      else [mkItem "https://e.com/a"],
    resolveFetch := fun _ => none,
    ogFetch := fun _ => {},
    bypassEnv := fun _ =>
      { bs4Available := true, tryPlaywright := none,
        fetch := fun _ => none, extract := fun _ => none },
    downloadImage := fun _ => none, now := "t" }

/-- Witness for C1: a candidate whose URL is already stored is skipped
with the store untouched, and the second full pass over the unchanged
two-feed environment reports zero new articles and an unchanged
store. -/
theorem process_source_idempotent_witness :
    processOne envTwoFeeds srcTwoFeeds true exDb (mkItem "https://e.com/a") =
      (none, exDb, []) ∧
    process_source envTwoFeeds srcTwoFeeds
        (process_source envTwoFeeds srcTwoFeeds ⟨[], 0⟩ true).2.1 true =
      (0, (process_source envTwoFeeds srcTwoFeeds ⟨[], 0⟩ true).2.1, []) :=
  ⟨(process_source_idempotent envTwoFeeds srcTwoFeeds ⟨[], 0⟩ true).1
      (mkItem "https://e.com/a") exDb (by rfl),
   (process_source_idempotent envTwoFeeds srcTwoFeeds ⟨[], 0⟩ true).2⟩

-- ── C9: attribute-order tolerance of the meta-tag patterns ───────────

/-- A page carrying all five tags the enricher scans for, each written
in the same attribute order. -/
def ogPage (propFirstOrder : Bool) : String :=
  ogTag propFirstOrder "property" "og:image" "https://x/y.jpg" ++
  ogTag propFirstOrder "property" "og:description" "Desc here" ++
  ogTag propFirstOrder "property" "og:title" "Title" ++
  ogTag propFirstOrder "name" "author" "Jane Doe" ++
  ogTag propFirstOrder "property" "article:published_time" "2024-01-01"

/-- C9 counterexample: attribute-order tolerance does not hold for every
scanned tag.  On the content-before-property page the author and
published-time tags are not recognized at all (those fields have no
content-first pattern), while the property-first page yields them;
image, description and title are extracted either way. -/
theorem og_attribute_order_counterexample :
    fetch_og_metadata ⟨some (ogPage true), fun s => some s⟩ =
      { og_image := some "https://x/y.jpg", og_description := some "Desc here",
        og_title := some "Title", og_author := some "Jane Doe",
        og_published := some "2024-01-01" } ∧
    fetch_og_metadata ⟨some (ogPage false), fun s => some s⟩ =
      { og_image := some "https://x/y.jpg", og_description := some "Desc here",
        og_title := some "Title", og_author := none, og_published := none } ∧
    (fetch_og_metadata ⟨some (ogPage false), fun s => some s⟩).og_author ≠
      (fetch_og_metadata ⟨some (ogPage true), fun s => some s⟩).og_author :=
  ⟨by rfl, by rfl, by decide⟩

/-- C9 (amended): for every page built around a single scanned meta tag
— any `<`-free surrounding text, any nonempty attribute value free of
quotes, `<`, `>` and `=`, any date parser, and either attribute order
— the enricher's image, description and title patterns extract the
tag's content value whether the property attribute comes before or
after the content attribute, while the author and published-time
fields are extracted exactly when the property/name attribute comes
first: on content-first markup those two fields are `none`. -/
theorem og_attribute_order_amended (pre post v : String)
    (pd : String → Option String) (b : Bool)
    (hpre : ∀ c ∈ pre.toList, c ≠ '<') (hpost : ∀ c ∈ post.toList, c ≠ '<')
    (hvne : v ≠ "")
    (hv : ∀ c ∈ v.toList, c ≠ '"' ∧ c ≠ '\'' ∧ c ≠ '>' ∧ c ≠ '=' ∧ c ≠ '<')
    (hlen : pre.length + v.length + post.length ≤ 49900) :
    (fetch_og_metadata
        ⟨some (pre ++ ogTag b "property" "og:image" v ++ post), pd⟩).og_image
      = some v ∧
    (fetch_og_metadata
        ⟨some (pre ++ ogTag b "property" "og:description" v ++ post),
          pd⟩).og_description
      = some (pyStrip v) ∧
    (fetch_og_metadata
        ⟨some (pre ++ ogTag b "property" "og:title" v ++ post), pd⟩).og_title
      = some (pyStrip v) ∧
    (fetch_og_metadata
        ⟨some (pre ++ ogTag b "name" "author" v ++ post), pd⟩).og_author
      = (if b then some (pyStrip v) else none) ∧
    (fetch_og_metadata
        ⟨some (pre ++ ogTag b "property" "article:published_time" v ++ post),
          pd⟩).og_published
      = (if b then pd v else none) :=
  ⟨og_image_both pre post v pd b hpre hpost hvne hv hlen,
   og_description_both pre post v pd b hpre hpost hvne hv hlen,
   og_title_both pre post v pd b hpre hpost hvne hv hlen,
   og_author_orders pre post v pd b hpre hpost hvne hv hlen,
   og_published_orders pre post v pd b hpre hpost hvne hv hlen⟩

/-- Witness for the amended C9 theorem: a concrete content-first page
set, where image, description and title are still extracted but
author and published time are not. -/
theorem og_attribute_order_amended_witness :
    (fetch_og_metadata
        ⟨some ("NEWS " ++ ogTag false "property" "og:image" "https://x/y.jpg"
          ++ " END"), fun s => some s⟩).og_image = some "https://x/y.jpg" ∧
    (fetch_og_metadata
        ⟨some ("NEWS " ++ ogTag false "property" "og:description" "https://x/y.jpg"
          ++ " END"), fun s => some s⟩).og_description
      = some (pyStrip "https://x/y.jpg") ∧
    (fetch_og_metadata
        ⟨some ("NEWS " ++ ogTag false "property" "og:title" "https://x/y.jpg"
          ++ " END"), fun s => some s⟩).og_title
      = some (pyStrip "https://x/y.jpg") ∧
    (fetch_og_metadata
        ⟨some ("NEWS " ++ ogTag false "name" "author" "https://x/y.jpg"
          ++ " END"), fun s => some s⟩).og_author = none ∧
    (fetch_og_metadata
        ⟨some ("NEWS " ++ ogTag false "property" "article:published_time"
          "https://x/y.jpg" ++ " END"), fun s => some s⟩).og_published = none :=
  og_attribute_order_amended "NEWS " " END" "https://x/y.jpg" (fun s => some s)
    false (by decide) (by decide) (by decide) (by decide) (by decide)

-- ── C6: the sanitizer's 200-character floor ──────────────────────────

theorem getTextList_append (l1 l2 : List HNode) :
    getTextList (l1 ++ l2) = getTextList l1 ++ getTextList l2 := by
  induction l1 with
  | nil => simp [getTextList]
  | cons n rest ih => simp [getTextList, ih, String.append_assoc]

theorem findAllList_append (nm : String) (l1 l2 : List HNode) :
    findAllList nm (l1 ++ l2) = findAllList nm l1 ++ findAllList nm l2 := by
  induction l1 with
  | nil => simp [findAllList]
  | cons n rest ih => simp [findAllList, ih]

mutual

/-- Removing elements can only shrink the concatenated text of a tree. -/
theorem getText_decomposeKeep_le (p : HNode → Bool) :
    ∀ n : HNode, (getTextList (decomposeKeep p n)).length ≤ n.getText.length
  | .text s => by
    simp [decomposeKeep, getTextList, HNode.getText, String.length_append]
  | .elem nm a c => by
    by_cases h : p (.elem nm a c)
    · simp [decomposeKeep, h, getTextList]
    · have ih := getTextList_decomposeList_le p c
      have h0 : ("" : String).length = 0 := rfl
      simp only [decomposeKeep, h, if_neg, Bool.false_eq_true,
                 not_false_eq_true, getTextList, HNode.getText,
                 String.length_append, h0]
      omega

theorem getTextList_decomposeList_le (p : HNode → Bool) :
    ∀ l : List HNode,
      (getTextList (decomposeList p l)).length ≤ (getTextList l).length
  | [] => by simp [decomposeList]
  | n :: rest => by
    have h1 := getText_decomposeKeep_le p n
    have h2 := getTextList_decomposeList_le p rest
    simp only [decomposeList, getTextList_append, getTextList,
               String.length_append]
    omega

end

/-- The paragraph texts of one subtree / of a forest, in document
order. -/
def paraTextsN (n : HNode) : List String :=
  (findAllNode "p" n).map HNode.getText

def paraTextsL (l : List HNode) : List String :=
  (findAllList "p" l).map HNode.getText

/-- `xs` is dominated by `ys`: some subsequence of `ys` is
pointwise at least as long as `xs`. -/
def DomBy (xs ys : List String) : Prop :=
  ∃ zs, List.Forall₂ (fun a b => a.length ≤ b.length) xs zs ∧ zs.Sublist ys

theorem domBy_nil (ys : List String) : DomBy [] ys :=
  ⟨[], List.Forall₂.nil, List.nil_sublist ys⟩

theorem domBy_single {a b : String} (h : a.length ≤ b.length) :
    DomBy [a] [b] :=
  ⟨[b], List.Forall₂.cons h List.Forall₂.nil, List.Sublist.refl _⟩

theorem DomBy.append {x1 y1 x2 y2 : List String}
    (h1 : DomBy x1 y1) (h2 : DomBy x2 y2) : DomBy (x1 ++ x2) (y1 ++ y2) := by
  obtain ⟨z1, f1, s1⟩ := h1
  obtain ⟨z2, f2, s2⟩ := h2
  exact ⟨z1 ++ z2, List.rel_append f1 f2, s1.append s2⟩

mutual

/-- Element removal leaves the surviving paragraphs (with possibly
shortened texts) as a dominated subsequence of the original ones. -/
theorem paras_keep_dom (p : HNode → Bool) :
    ∀ n : HNode, DomBy (paraTextsL (decomposeKeep p n)) (paraTextsN n)
  | .text s => by
    simp only [decomposeKeep, paraTextsL, paraTextsN, findAllList,
               findAllNode, List.append_nil, List.map_nil]
    exact domBy_nil _
  | .elem nm a c => by
    by_cases h : p (.elem nm a c)
    · simp only [decomposeKeep, h, if_pos, paraTextsL, findAllList,
                 List.map_nil]
      exact domBy_nil _
    · have ihc := paras_list_dom p c
      have hlen := getTextList_decomposeList_le p c
      simp only [decomposeKeep, h, if_neg, Bool.false_eq_true,
                 not_false_eq_true, paraTextsL, paraTextsN, findAllList,
                 findAllNode, List.append_nil, List.map_append]
      by_cases hp : nm = "p"
      · simp only [hp, if_pos, List.map_cons, List.map_nil]
        exact DomBy.append
          (domBy_single (by simpa [HNode.getText] using hlen)) ihc
      · simp only [hp, if_neg, Bool.false_eq_true, not_false_eq_true,
                   List.map_nil, List.nil_append]
        exact ihc

theorem paras_list_dom (p : HNode → Bool) :
    ∀ l : List HNode, DomBy (paraTextsL (decomposeList p l)) (paraTextsL l)
  | [] => by
    simp only [decomposeList, paraTextsL, findAllList, List.map_nil]
    exact domBy_nil _
  | n :: rest => by
    have h1 := paras_keep_dom p n
    have h2 := paras_list_dom p rest
    simp only [decomposeList, paraTextsL, paraTextsN, findAllList,
               findAllList_append, List.map_append] at h1 h2 ⊢
    exact DomBy.append h1 h2

end

theorem joinSep_length (l : List String) :
    (joinSep " " l).length = (l.map String.length).sum + (l.length - 1) := by
  induction l with
  | nil => simp [joinSep]
  | cons x rest ih =>
    cases rest with
    | nil => simp [joinSep]
    | cons y t =>
      have hsp : (" " : String).length = 1 := rfl
      simp only [joinSep, String.length_append, List.map_cons,
                 List.sum_cons, List.length_cons, hsp] at ih ⊢
      omega

theorem sum_le_sum_sublist {l1 l2 : List Nat} (h : l1.Sublist l2) :
    l1.sum ≤ l2.sum := by
  induction h with
  | slnil => exact le_refl _
  | cons a _ ih => simp only [List.sum_cons]; omega
  | cons₂ a _ ih => simp only [List.sum_cons]; omega

theorem sum_len_le_of_forall₂ {xs zs : List String}
    (h : List.Forall₂ (fun a b => a.length ≤ b.length) xs zs) :
    (xs.map String.length).sum ≤ (zs.map String.length).sum := by
  induction h with
  | nil => simp
  | cons h1 _ ih => simp only [List.map_cons, List.sum_cons]; omega

theorem joinSep_le_of_domBy {xs ys : List String} (h : DomBy xs ys) :
    (joinSep " " xs).length ≤ (joinSep " " ys).length := by
  obtain ⟨zs, hf, hs⟩ := h
  have e1 := joinSep_length xs
  have e2 := joinSep_length ys
  have hsum1 := sum_len_le_of_forall₂ hf
  have hsum2 := sum_le_sum_sublist (hs.map String.length)
  have hlen1 := hf.length_eq
  have hlen2 := hs.length_le
  omega

theorem childrenOf_prunedDoc (doc : HNode) :
    childrenOf (prunedDoc doc) =
      decomposeList noisePred (decomposeList junkPred (childrenOf doc)) := by
  cases doc <;> simp [prunedDoc, decomposeAll, childrenOf, decomposeList]

/-- The fallback text the sanitizer computes is never longer than the
paragraph join of the original, unpruned document. -/
theorem parasFallbackText_le_orig (doc : HNode) :
    (parasFallbackText doc).length ≤ (parasJoinOrig doc).length := by
  have hc := childrenOf_prunedDoc doc
  have d1 := paras_list_dom junkPred (childrenOf doc)
  have d2 := paras_list_dom noisePred (decomposeList junkPred (childrenOf doc))
  have le1 := joinSep_le_of_domBy d2
  have le2 := joinSep_le_of_domBy d1
  simp only [parasFallbackText, parasOf, parasJoinOrig, hc, paraTextsL] at *
  omega

/-- C6: the sanitizer rejects (returns `None` for) every document whose
extracted container text is under 200 characters when the
concatenation of all paragraph texts of the original document is also
under 200 characters — it never returns a short document. -/
theorem extract_article_text_floor (doc : HNode)
    (h1 : (containerText doc).length < 200)
    (h2 : (parasJoinOrig doc).length < 200) :
    extract_article_text doc = none := by
  have h2' : (parasFallbackText doc).length < 200 :=
    lt_of_le_of_lt (parasFallbackText_le_orig doc) h2
  simp [extract_article_text, h1, h2']

/-- Witness for C6 on a short concrete page: a paywall-teaser-sized body
is rejected. -/
theorem extract_article_text_floor_witness :
    (containerText (.elem "[document]" []
        [.elem "body" [] [.elem "p" [] [.text "Subscribe to continue"]]])).length < 200 ∧
    (parasJoinOrig (.elem "[document]" []
        [.elem "body" [] [.elem "p" [] [.text "Subscribe to continue"]]])).length < 200 ∧
    extract_article_text (.elem "[document]" []
        [.elem "body" [] [.elem "p" [] [.text "Subscribe to continue"]]]) = none :=
  ⟨by decide, by decide,
   extract_article_text_floor _ (by decide) (by decide)⟩

end ArticleTracker
